import Mathlib

/-!
# Client-side SCRAM exchange of libpq (`src/interfaces/libpq/fe-auth-scram.c`)

A shallow embedding of the SCRAM client state machine and of its message
parsers and builders, followed by theorems about them.

Conventions of the embedding.

* A byte is a `Nat`; a piece of memory holding bytes is a `List Nat`.  A C
  string stored at a pointer is read with `cstr`: the bytes before the first
  NUL, the end of the list standing for the terminating NUL of the allocation.
* Pointers that may be `NULL` are `Option`s.
* Functions that mutate `fe_scram_state` return the new state next to their
  C result.
* Everything the file calls but does not define (random source, base64 codec,
  hash primitives, the TLS certificate hash, `malloc`) is a field of `Env`,
  so that every theorem holds for every behaviour of those collaborators.
  An `Env` is an argument of each call: two calls may see different outcomes.

The btree comparison functions of `src/backend/access/nbtree/nbtcompare.c` are
embedded in the namespace `Nbtcompare`, with their own conventions.
-/

set_option linter.unusedVariables false

namespace Scram

/-- A region of memory, byte by byte. -/
abbrev Bytes := List Nat

/-- The bytes of an ASCII string literal. -/
def str (s : String) : Bytes := s.toList.map Char.toNat

/-- The C string stored at the start of `p`: the bytes before the first NUL. -/
def cstr (p : Bytes) : Bytes := p.takeWhile (fun b => b != 0)

/-- C `strlen`. -/
def strlen (p : Bytes) : Nat := (cstr p).length

/-- The byte at offset `i` of `p`; the end of the list reads as the terminating NUL. -/
def byteAt (p : Bytes) (i : Nat) : Nat := p.getD i 0

/-- Modelled from the spec: `SCRAM_RAW_NONCE_LEN` of `common/scram-common.h`
("18 raw CSPRNG bytes"). -/
def SCRAM_RAW_NONCE_LEN : Nat := 18

/-- Modelled from the spec: `SCRAM_SHA_256_KEY_LEN` of `common/scram-common.h`
(`key_length = 32`). -/
def SCRAM_SHA_256_KEY_LEN : Nat := 32

/-- Modelled from the spec: `SCRAM_MAX_KEY_LEN` of `common/scram-common.h`; SHA-256 is
the only hash, so it is the SHA-256 key length. -/
def SCRAM_MAX_KEY_LEN : Nat := SCRAM_SHA_256_KEY_LEN

/-- Modelled from the spec: `SCRAM_DEFAULT_SALT_LEN` of `common/scram-common.h`
("Salt is 16 CSPRNG bytes"). -/
def SCRAM_DEFAULT_SALT_LEN : Nat := 16

/-- Modelled from the spec: `SCRAM_SHA_256_PLUS_NAME` of `common/scram-common.h`. -/
def SCRAM_SHA_256_PLUS_NAME : Bytes := str "SCRAM-SHA-256-PLUS"

/-- Modelled from the spec: `SCRAM_SHA_256_NAME` of `common/scram-common.h`. -/
def SCRAM_SHA_256_NAME : Bytes := str "SCRAM-SHA-256"

/-- Status of exchange messages (`fe_scram_state_enum`). -/
inductive fe_scram_state_enum where
  | FE_SCRAM_INIT
  | FE_SCRAM_NONCE_SENT
  | FE_SCRAM_PROOF_SENT
  | FE_SCRAM_FINISHED
  deriving DecidableEq, Repr

/-- Result of one exchange call (`SASLStatus` of `fe-auth-sasl.h`; the values this file returns). -/
inductive SASLStatus where
  | SASL_COMPLETE
  | SASL_FAILED
  | SASL_CONTINUE
  deriving DecidableEq, Repr

/-- The fields of `PGconn` that the SCRAM code reads or writes. -/
structure PGconn where
  channel_binding : Bytes
  ssl_in_use : Bool
  scram_client_key_binary : Option Bytes
  scram_server_key_binary : Option Bytes
  client_finished_auth : Bool
  errorMessage : Bytes
  deriving DecidableEq, Repr

/-- The session (`fe_scram_state`).  `hash_type` is left out: it is always `PG_SHA256`. -/
structure fe_scram_state where
  state : fe_scram_state_enum
  conn : PGconn
  password : Option Bytes
  sasl_mechanism : Bytes
  key_length : Nat
  SaltedPassword : Bytes
  client_nonce : Option Bytes
  client_first_message_bare : Option Bytes
  client_final_message_without_proof : Option Bytes
  server_first_message : Option Bytes
  salt : Option Bytes
  saltlen : Int
  iterations : Int
  nonce : Option Bytes
  server_final_message : Option Bytes
  ServerSignature : Bytes
  deriving DecidableEq, Repr

/-- The places where the file allocates memory (`malloc`, `strdup`, growth of a
`PQExpBuffer`), named after the function and the object allocated. -/
inductive AllocSite where
  | init_state | init_mechanism | init_password
  | first_client_nonce | first_buf_header | first_buf_message | first_bare | first_result
  | final_cbind_input | final_buf_cbind | final_buf_c | final_buf_r
  | final_without_proof | final_buf_proof | final_result
  | sfirst_copy | sfirst_nonce | sfirst_salt
  | sfinal_copy | sfinal_signature
  deriving DecidableEq, Repr

/-- Outcome of `pg_saslprep` (`common/saslprep.h`). -/
inductive pg_saslprep_rc where
  | SASLPREP_SUCCESS (prepared : Bytes)
  | SASLPREP_OOM
  | SASLPREP_INVALID_UTF8
  | SASLPREP_PROHIBITED
  deriving DecidableEq, Repr

/-- The collaborators of the file, as they answer during one call.  A `none`
is the failure return of the C function (`NULL`, `false` or a negative length). -/
structure Env where
  /-- whether the build defines `USE_SSL` -/
  USE_SSL : Bool
  /-- whether the allocation at a site succeeds -/
  alloc : AllocSite → Bool
  /-- `pg_strong_random(buf, len)`: the bytes produced -/
  pg_strong_random : Nat → Option Bytes
  /-- `pg_b64_enc_len(srclen)` -/
  pg_b64_enc_len : Nat → Nat
  /-- `pg_b64_encode(src, len, dst, dstlen)`: the characters written -/
  pg_b64_encode : Bytes → Nat → Option Bytes
  /-- `pg_b64_dec_len(srclen)` -/
  pg_b64_dec_len : Nat → Nat
  /-- `pg_b64_decode(src, len, dst, dstlen)`: the bytes written -/
  pg_b64_decode : Bytes → Nat → Option Bytes
  /-- `pgtls_get_peer_certificate_hash(conn, &len)` -/
  pgtls_get_peer_certificate_hash : Option Bytes
  /-- `pg_saslprep(password, &prep_password)` -/
  pg_saslprep : Bytes → pg_saslprep_rc
  /-- `pg_hmac_create(PG_SHA256)` returns a context -/
  pg_hmac_create : Bool
  /-- HMAC-SHA-256 of a message under a key: `pg_hmac_init`, the `pg_hmac_update`s
  over the pieces of the message, `pg_hmac_final` -/
  hmac_sha256 : Bytes → Bytes → Option Bytes
  /-- SHA-256 of a byte string -/
  sha256 : Bytes → Option Bytes
  /-- PBKDF2-HMAC-SHA-256 of a password (possibly `NULL`), salt, iteration count
  and output length -/
  pbkdf2_hmac_sha256 : Option Bytes → Bytes → Int → Nat → Option Bytes
  /-- the text left in `*errstr` by a failing primitive -/
  errstr : Bytes

/-- Modelled from the spec: `libpq_append_conn_error` of `fe-misc.c`: the
formatted message is appended to `conn->errorMessage`, followed by a newline. -/
def libpq_append_conn_error (conn : PGconn) (msg : Bytes) : PGconn :=
  { conn with errorMessage := conn.errorMessage ++ msg ++ [10] }

/-- Modelled from the spec: `libpq_append_error` of `fe-misc.c`, the same on a bare buffer. -/
def libpq_append_error (errorMessage : Bytes) (msg : Bytes) : Bytes :=
  errorMessage ++ msg ++ [10]

/-- Append an error to the connection of a session. -/
def conn_error (state : fe_scram_state) (msg : Bytes) : fe_scram_state :=
  { state with conn := libpq_append_conn_error state.conn msg }

/-- What `read_attr_value` leaves behind: the returned pointer (an offset into
the buffer, `none` for `NULL`), the buffer, the cursor `*input` and the error buffer. -/
structure AttrResult where
  value : Option Nat
  buf : Bytes
  input : Nat
  errorMessage : Bytes
  deriving DecidableEq, Repr

/-- The loop `while (*end && *end != ',') end++`: how many bytes it steps over. -/
def scan_value : Bytes → Nat
  | [] => 0
  | b :: rest => if b ≠ 0 ∧ b ≠ ','.toNat then scan_value rest + 1 else 0

/-- Read value for an attribute part of a SCRAM message (`read_attr_value`).
`buf` is the message buffer and `input` the cursor into it. -/
def read_attr_value (buf : Bytes) (input : Nat) (attr : Nat) (errorMessage : Bytes) :
    AttrResult :=
  let begin_ := input
  if byteAt buf begin_ ≠ attr then
    ⟨none, buf, input,
      libpq_append_error errorMessage
        (str "malformed SCRAM message (attribute \"" ++ [attr] ++ str "\" expected)")⟩
  else
    let begin_ := begin_ + 1
    if byteAt buf begin_ ≠ '='.toNat then
      ⟨none, buf, input,
        libpq_append_error errorMessage
          (str "malformed SCRAM message (expected character \"=\" for attribute \"" ++ [attr]
            ++ str "\")")⟩
    else
      let begin_ := begin_ + 1
      let end_ := begin_ + scan_value (buf.drop begin_)
      if byteAt buf end_ ≠ 0 then
        ⟨some begin_, buf.set end_ 0, end_ + 1, errorMessage⟩
      else
        ⟨some begin_, buf, end_, errorMessage⟩

/-! ## C library pieces -/

/-- C `isspace` in the "C" locale. -/
def isspace (c : Nat) : Bool := c == 32 || (9 ≤ c && c ≤ 13)

/-- C `isdigit`. -/
def isdigit (c : Nat) : Bool := 48 ≤ c && c ≤ 57

/-- `LONG_MAX` for a 64-bit `long`. -/
def LONG_MAX : Int := 2 ^ 63 - 1

/-- `LONG_MIN` for a 64-bit `long`. -/
def LONG_MIN : Int := -(2 ^ 63)

/-- The value of a run of decimal digits. -/
def digits_value (ds : Bytes) : Nat := ds.foldl (fun acc d => acc * 10 + (d - 48)) 0

/-- C `strtol(s, &endptr, 10)` on the C string `s`, for a 64-bit `long`: white
space is skipped, one sign is taken, then the longest run of digits; the value
is clamped to the range of `long`.  Returns the value and `endptr - s`; with no
digit at all the value is 0 and `endptr = s`. -/
def strtol (s : Bytes) : Int × Nat :=
  let ws := (s.takeWhile isspace).length
  let rest := s.drop ws
  let neg := rest.head? == some '-'.toNat
  let sign := if rest.head? == some '-'.toNat || rest.head? == some '+'.toNat then 1 else 0
  let ds := (rest.drop sign).takeWhile isdigit
  if ds.isEmpty then (0, 0)
  else
    let v : Int := if neg then -(digits_value ds : Int) else (digits_value ds : Int)
    (max LONG_MIN (min LONG_MAX v), ws + sign + ds.length)

/-- Conversion of a `long` to `int` (32 bits, two's complement wrap-around). -/
def long_to_int (v : Int) : Int := (v + 2 ^ 31) % 2 ^ 32 - 2 ^ 31

/-- Bytes copied into a fixed array: the copy, then what the array held beyond it. -/
def overwrite (old new : Bytes) : Bytes := new ++ old.drop new.length

/-! ## Key schedule (`common/scram-common.c`) -/

/-- Modelled from the spec: `scram_SaltedPassword` of `common/scram-common.c`:
"SaltedPassword := PBKDF2-HMAC-SHA-256(password, salt, iterations, 32)". -/
def scram_SaltedPassword (env : Env) (password : Option Bytes) (key_length : Nat)
    (salt : Option Bytes) (saltlen : Int) (iterations : Int) : Option Bytes :=
  env.pbkdf2_hmac_sha256 password ((salt.getD []).take saltlen.toNat) iterations key_length

/-- Modelled from the spec: `scram_ClientKey` of `common/scram-common.c`:
"ClientKey := HMAC(SaltedPassword, "Client Key")". -/
def scram_ClientKey (env : Env) (salted_password : Bytes) (key_length : Nat) : Option Bytes :=
  env.hmac_sha256 (salted_password.take key_length) (str "Client Key")

/-- Modelled from the spec: `scram_ServerKey` of `common/scram-common.c`:
"ServerKey := HMAC(SaltedPassword, "Server Key")". -/
def scram_ServerKey (env : Env) (salted_password : Bytes) (key_length : Nat) : Option Bytes :=
  env.hmac_sha256 (salted_password.take key_length) (str "Server Key")

/-- Modelled from the spec: `scram_H` of `common/scram-common.c`:
"StoredKey := SHA-256(ClientKey)". -/
def scram_H (env : Env) (input : Bytes) (key_length : Nat) : Option Bytes :=
  env.sha256 (input.take key_length)

/-- The message both signatures are computed over, as the `pg_hmac_update` calls
feed it: client-first-bare, ",", server-first, ",", client-final-without-proof. -/
def auth_message (state : fe_scram_state) (client_final_message_without_proof : Bytes) :
    Bytes :=
  cstr (state.client_first_message_bare.getD []) ++ str ","
    ++ cstr (state.server_first_message.getD []) ++ str ","
    ++ cstr client_final_message_without_proof

/-! ## The session -/

/-- Initialize SCRAM exchange status (`scram_init`); `none` is the `NULL` return. -/
def scram_init (env : Env) (conn : PGconn) (password : Option Bytes)
    (sasl_mechanism : Bytes) : Option fe_scram_state :=
  if !env.alloc .init_state then none
  else if !env.alloc .init_mechanism then none
  else
    let state : fe_scram_state :=
      { state := .FE_SCRAM_INIT
        conn := conn
        password := none
        sasl_mechanism := cstr sasl_mechanism
        key_length := SCRAM_SHA_256_KEY_LEN
        SaltedPassword := List.replicate SCRAM_MAX_KEY_LEN 0
        client_nonce := none
        client_first_message_bare := none
        client_final_message_without_proof := none
        server_first_message := none
        salt := none
        saltlen := 0
        iterations := 0
        nonce := none
        server_final_message := none
        ServerSignature := List.replicate SCRAM_MAX_KEY_LEN 0 }
    match password with
    | none => some state
    | some password =>
      match env.pg_saslprep (cstr password) with
      | .SASLPREP_OOM => none
      | .SASLPREP_SUCCESS prep_password => some { state with password := some prep_password }
      | _ =>
        if !env.alloc .init_password then none
        else some { state with password := some (cstr password) }

/-- Return true if channel binding was employed and the SCRAM exchange
completed (`scram_channel_bound`); `none` is a `NULL` session. -/
def scram_channel_bound (opaq : Option fe_scram_state) : Bool :=
  match opaq with
  | none => false
  | some state =>
    if state.state ≠ .FE_SCRAM_FINISHED then false
    else if cstr state.sasl_mechanism ≠ cstr SCRAM_SHA_256_PLUS_NAME then false
    else true

/-- The GS2 channel-binding flag chosen by `build_client_first_message`. -/
def gs2_flag (env : Env) (state : fe_scram_state) : Bytes :=
  if cstr state.sasl_mechanism = cstr SCRAM_SHA_256_PLUS_NAME then
    str "p=tls-server-end-point"
  else if env.USE_SSL ∧ byteAt state.conn.channel_binding 0 ≠ 'd'.toNat
      ∧ state.conn.ssl_in_use = true then
    str "y"
  else
    str "n"

/-- Build the first exchange message sent by the client (`build_client_first_message`);
`none` is the `NULL` return. -/
def build_client_first_message (env : Env) (state : fe_scram_state) :
    Option Bytes × fe_scram_state :=
  match env.pg_strong_random SCRAM_RAW_NONCE_LEN with
  | none => (none, conn_error state (str "could not generate nonce"))
  | some raw_nonce =>
    let encoded_len := env.pg_b64_enc_len SCRAM_RAW_NONCE_LEN
    if !env.alloc .first_client_nonce then
      (none, conn_error { state with client_nonce := none } (str "out of memory"))
    else
      match env.pg_b64_encode raw_nonce encoded_len with
      | none =>
        (none, conn_error { state with client_nonce := some [] } (str "could not encode nonce"))
      | some encoded =>
        let state := { state with client_nonce := some (cstr encoded) }
        let buf := gs2_flag env state
        if !env.alloc .first_buf_header then (none, conn_error state (str "out of memory"))
        else
          let channel_info_len := buf.length
          let buf := buf ++ str ",,n=,r=" ++ cstr (state.client_nonce.getD [])
          if !env.alloc .first_buf_message then (none, conn_error state (str "out of memory"))
          else if !env.alloc .first_bare then
            (none, conn_error { state with client_first_message_bare := none }
              (str "out of memory"))
          else
            let state :=
              { state with
                client_first_message_bare := some (cstr (buf.drop (channel_info_len + 2))) }
            if !env.alloc .first_result then (none, conn_error state (str "out of memory"))
            else (some (cstr buf), state)

/-- The nonce test of `read_server_first_message`: true when the server nonce is
shorter than the client nonce or differs from it within the client nonce's length. -/
def nonce_mismatch (nonce client_nonce : Bytes) : Bool :=
  strlen nonce < strlen client_nonce
    || (cstr nonce).take (strlen client_nonce) != cstr client_nonce

/-- Read the first exchange message coming from the server (`read_server_first_message`). -/
def read_server_first_message (env : Env) (state : fe_scram_state) (input : Bytes) :
    Bool × fe_scram_state :=
  if !env.alloc .sfirst_copy then
    (false, conn_error { state with server_first_message := none } (str "out of memory"))
  else
    let state := { state with server_first_message := some (cstr input) }
    let r := read_attr_value input 0 'r'.toNat state.conn.errorMessage
    let state := { state with conn := { state.conn with errorMessage := r.errorMessage } }
    match r.value with
    | none => (false, state)
    | some nonce =>
      if nonce_mismatch (r.buf.drop nonce) (state.client_nonce.getD []) then
        (false, conn_error state (str "invalid SCRAM response (nonce mismatch)"))
      else if !env.alloc .sfirst_nonce then
        (false, conn_error { state with nonce := none } (str "out of memory"))
      else
        let state := { state with nonce := some (cstr (r.buf.drop nonce)) }
        let r := read_attr_value r.buf r.input 's'.toNat state.conn.errorMessage
        let state := { state with conn := { state.conn with errorMessage := r.errorMessage } }
        match r.value with
        | none => (false, state)
        | some encoded_salt =>
          let decoded_salt_len := env.pg_b64_dec_len (strlen (r.buf.drop encoded_salt))
          if !env.alloc .sfirst_salt then
            (false, conn_error { state with salt := none } (str "out of memory"))
          else
            match env.pg_b64_decode (cstr (r.buf.drop encoded_salt)) decoded_salt_len with
            | none =>
              (false, conn_error { state with salt := some [], saltlen := -1 }
                (str "malformed SCRAM message (invalid salt)"))
            | some salt =>
              let state := { state with salt := some salt, saltlen := salt.length }
              let r := read_attr_value r.buf r.input 'i'.toNat state.conn.errorMessage
              let state :=
                { state with conn := { state.conn with errorMessage := r.errorMessage } }
              match r.value with
              | none => (false, state)
              | some iterations_str =>
                let parsed := strtol (cstr (r.buf.drop iterations_str))
                let state := { state with iterations := long_to_int parsed.1 }
                if byteAt (cstr (r.buf.drop iterations_str)) parsed.2 ≠ 0
                    ∨ state.iterations < 1 then
                  (false, conn_error state
                    (str "malformed SCRAM message (invalid iteration count)"))
                else if byteAt r.buf r.input ≠ 0 then
                  (true, conn_error state
                    (str "malformed SCRAM message (garbage at end of server-first-message)"))
                else (true, state)

/-- Read the final exchange message coming from the server (`read_server_final_message`). -/
def read_server_final_message (env : Env) (state : fe_scram_state) (input : Bytes) :
    Bool × fe_scram_state :=
  if !env.alloc .sfinal_copy then
    (false, conn_error { state with server_final_message := none } (str "out of memory"))
  else
    let state := { state with server_final_message := some (cstr input) }
    if byteAt input 0 = 'e'.toNat then
      let r := read_attr_value input 0 'e'.toNat state.conn.errorMessage
      let state := { state with conn := { state.conn with errorMessage := r.errorMessage } }
      match r.value with
      | none => (false, state)
      | some errmsg =>
        (false, conn_error state
          (str "error received from server in SCRAM exchange: " ++ cstr (r.buf.drop errmsg)))
    else
      let r := read_attr_value input 0 'v'.toNat state.conn.errorMessage
      let state := { state with conn := { state.conn with errorMessage := r.errorMessage } }
      match r.value with
      | none => (false, state)
      | some encoded_server_signature =>
        let state :=
          if byteAt r.buf r.input ≠ 0 then
            conn_error state
              (str "malformed SCRAM message (garbage at end of server-final-message)")
          else state
        let server_signature_len :=
          env.pg_b64_dec_len (strlen (r.buf.drop encoded_server_signature))
        if !env.alloc .sfinal_signature then (false, conn_error state (str "out of memory"))
        else
          match env.pg_b64_decode (cstr (r.buf.drop encoded_server_signature))
              server_signature_len with
          | none =>
            (false, conn_error state (str "malformed SCRAM message (invalid server signature)"))
          | some decoded_server_signature =>
            if decoded_server_signature.length ≠ state.key_length then
              (false,
                conn_error state (str "malformed SCRAM message (invalid server signature)"))
            else
              (true,
                { state with
                  ServerSignature :=
                    overwrite state.ServerSignature
                      (decoded_server_signature.take state.key_length) })

/-- The `ClientKey` of `calculate_client_proof` and the session after computing it:
the pre-computed key of the connection when there is one, otherwise derived from
the password, the `SaltedPassword` being stored in the session on the way.
`none` is a failing primitive; a failing `scram_SaltedPassword` is taken to leave
the array as it was. -/
def client_proof_ClientKey (env : Env) (state : fe_scram_state) :
    Option Bytes × fe_scram_state :=
  match state.conn.scram_client_key_binary with
  | some key => (some (key.take SCRAM_MAX_KEY_LEN), state)
  | none =>
    match scram_SaltedPassword env state.password state.key_length state.salt state.saltlen
        state.iterations with
    | none => (none, state)
    | some salted =>
      let state := { state with SaltedPassword := overwrite state.SaltedPassword salted }
      (scram_ClientKey env state.SaltedPassword state.key_length, state)

/-- Calculate the client proof (`calculate_client_proof`): the proof, `none` on
failure (with `*errstr` set), and the session. -/
def calculate_client_proof (env : Env) (state : fe_scram_state)
    (client_final_message_without_proof : Bytes) : Option Bytes × fe_scram_state :=
  if !env.pg_hmac_create then (none, state)
  else
    match client_proof_ClientKey env state with
    | (none, state) => (none, state)
    | (some ClientKey, state) =>
      match scram_H env ClientKey state.key_length with
      | none => (none, state)
      | some StoredKey =>
        match env.hmac_sha256 (StoredKey.take state.key_length)
            (auth_message state client_final_message_without_proof) with
        | none => (none, state)
        | some ClientSignature =>
          (some (List.zipWith Nat.xor (ClientKey.take state.key_length)
              (ClientSignature.take state.key_length)), state)

/-- The `ServerKey` of `verify_server_signature`: the pre-computed key of the
connection when there is one, otherwise derived from the `SaltedPassword` stored
in the session. -/
def verify_ServerKey (env : Env) (state : fe_scram_state) : Option Bytes :=
  match state.conn.scram_server_key_binary with
  | some key => some (key.take SCRAM_MAX_KEY_LEN)
  | none => scram_ServerKey env state.SaltedPassword state.key_length

/-- Validate the server signature (`verify_server_signature`): `some match` when
the signature was processed, `none` for a processing error. -/
def verify_server_signature (env : Env) (state : fe_scram_state) : Option Bool :=
  if !env.pg_hmac_create then none
  else
    match verify_ServerKey env state with
    | none => none
    | some ServerKey =>
      match env.hmac_sha256 (ServerKey.take state.key_length)
          (auth_message state (state.client_final_message_without_proof.getD [])) with
      | none => none
      | some expected_ServerSignature =>
        some (expected_ServerSignature.take state.key_length
          == state.ServerSignature.take state.key_length)

/-- The first part of `build_client_final_message`: the buffer holding "c=" and
the base64 channel-binding input.  `none` is a `return NULL` or `goto oom_error`,
the session carrying the error text. -/
def client_final_cbind (env : Env) (state : fe_scram_state) : Option Bytes × fe_scram_state :=
  if cstr state.sasl_mechanism = cstr SCRAM_SHA_256_PLUS_NAME then
    if env.USE_SSL then
      match env.pgtls_get_peer_certificate_hash with
      | none => (none, state)
      | some cbind_data =>
        let buf := str "c="
        if !env.alloc .final_cbind_input then (none, conn_error state (str "out of memory"))
        else
          let cbind_input := str "p=tls-server-end-point,," ++ cbind_data
          let encoded_cbind_len := env.pg_b64_enc_len cbind_input.length
          if !env.alloc .final_buf_cbind then (none, conn_error state (str "out of memory"))
          else
            match env.pg_b64_encode cbind_input encoded_cbind_len with
            | none =>
              (none,
                { state with
                  conn :=
                    { state.conn with
                      errorMessage :=
                        state.conn.errorMessage
                          ++ str "could not encode cbind data for channel binding\n" } })
            | some encoded => (some (buf ++ encoded), state)
    else
      (none,
        { state with
          conn :=
            { state.conn with
              errorMessage :=
                state.conn.errorMessage ++ str "channel binding not supported by this build\n" } })
  else if env.USE_SSL ∧ byteAt state.conn.channel_binding 0 ≠ 'd'.toNat
      ∧ state.conn.ssl_in_use = true then
    (some (str "c=eSws"), state)
  else
    (some (str "c=biws"), state)

/-- Build the final exchange message sent from the client (`build_client_final_message`);
`none` is the `NULL` return. -/
def build_client_final_message (env : Env) (state : fe_scram_state) :
    Option Bytes × fe_scram_state :=
  match client_final_cbind env state with
  | (none, state) => (none, state)
  | (some buf, state) =>
    if !env.alloc .final_buf_c then (none, conn_error state (str "out of memory"))
    else
      let buf := buf ++ str ",r=" ++ cstr (state.nonce.getD [])
      if !env.alloc .final_buf_r then (none, conn_error state (str "out of memory"))
      else if !env.alloc .final_without_proof then
        (none, conn_error { state with client_final_message_without_proof := none }
          (str "out of memory"))
      else
        let state := { state with client_final_message_without_proof := some (cstr buf) }
        match calculate_client_proof env state
            (state.client_final_message_without_proof.getD []) with
        | (none, state) =>
          (none, conn_error state (str "could not calculate client proof: " ++ cstr env.errstr))
        | (some client_proof, state) =>
          let buf := buf ++ str ",p="
          let encoded_len := env.pg_b64_enc_len state.key_length
          if !env.alloc .final_buf_proof then (none, conn_error state (str "out of memory"))
          else
            match env.pg_b64_encode (client_proof.take state.key_length) encoded_len with
            | none => (none, conn_error state (str "could not encode client proof"))
            | some encoded =>
              let buf := buf ++ encoded
              if !env.alloc .final_result then (none, conn_error state (str "out of memory"))
              else (some (cstr buf), state)

/-- What one call of `scram_exchange` produces: the returned status, `*output`,
`*outputlen` and the session. -/
structure ExchangeResult where
  status : SASLStatus
  output : Option Bytes
  outputlen : Int
  state : fe_scram_state
  deriving DecidableEq, Repr

/-- Exchange a SCRAM message with backend (`scram_exchange`).  `input` is the
memory at the `input` pointer, `inputlen` the length the caller declares. -/
def scram_exchange (env : Env) (state : fe_scram_state) (final : Bool) (input : Bytes)
    (inputlen : Int) : ExchangeResult :=
  if state.state ≠ .FE_SCRAM_INIT ∧ inputlen = 0 then
    ⟨.SASL_FAILED, none, 0, conn_error state (str "malformed SCRAM message (empty message)")⟩
  else if state.state ≠ .FE_SCRAM_INIT ∧ inputlen ≠ (strlen input : Int) then
    ⟨.SASL_FAILED, none, 0, conn_error state (str "malformed SCRAM message (length mismatch)")⟩
  else
    match state.state with
    | .FE_SCRAM_INIT =>
      match build_client_first_message env state with
      | (none, state) => ⟨.SASL_FAILED, none, 0, state⟩
      | (some output, state) =>
        ⟨.SASL_CONTINUE, some output, strlen output, { state with state := .FE_SCRAM_NONCE_SENT }⟩
    | .FE_SCRAM_NONCE_SENT =>
      match read_server_first_message env state input with
      | (false, state) => ⟨.SASL_FAILED, none, 0, state⟩
      | (true, state) =>
        match build_client_final_message env state with
        | (none, state) => ⟨.SASL_FAILED, none, 0, state⟩
        | (some output, state) =>
          ⟨.SASL_CONTINUE, some output, strlen output,
            { state with state := .FE_SCRAM_PROOF_SENT }⟩
    | .FE_SCRAM_PROOF_SENT =>
      match read_server_final_message env state input with
      | (false, state) => ⟨.SASL_FAILED, none, 0, state⟩
      | (true, state) =>
        match verify_server_signature env state with
        | none =>
          ⟨.SASL_FAILED, none, 0,
            conn_error state (str "could not verify server signature: " ++ cstr env.errstr)⟩
        | some matched =>
          let state :=
            if !matched then conn_error state (str "incorrect server signature") else state
          let state :=
            { state with
              state := .FE_SCRAM_FINISHED
              conn := { state.conn with client_finished_auth := true } }
          ⟨if matched then .SASL_COMPLETE else .SASL_FAILED, none, 0, state⟩
    | .FE_SCRAM_FINISHED =>
      ⟨.SASL_FAILED, none, 0, conn_error state (str "invalid SCRAM exchange state")⟩

/-! ## A concrete set of collaborators, for worked examples -/

/-- Modelled from the spec: the base64 alphabet of `common/base64.c` ("the standard alphabet"). -/
def b64_alphabet : Bytes :=
  str "ABCDEFGHIJKLMNOPQRSTUVWXYZabcdefghijklmnopqrstuvwxyz0123456789+/"

/-- The character of a 6-bit value. -/
def b64_char (v : Nat) : Nat := b64_alphabet.getD v 0

/-- The 6-bit value of a character of the alphabet, `none` for any other byte. -/
def b64_value (c : Nat) : Option Nat :=
  if 'A'.toNat ≤ c ∧ c ≤ 'Z'.toNat then some (c - 'A'.toNat)
  else if 'a'.toNat ≤ c ∧ c ≤ 'z'.toNat then some (c - 'a'.toNat + 26)
  else if '0'.toNat ≤ c ∧ c ≤ '9'.toNat then some (c - '0'.toNat + 52)
  else if c = '+'.toNat then some 62
  else if c = '/'.toNat then some 63
  else none

/-- Modelled from the spec: `pg_b64_encode` of `common/base64.c`: base64 "over the
standard alphabet without line breaks", padded with "=". -/
def b64_encode : Bytes → Bytes
  | [] => []
  | [a] => [b64_char (a / 4), b64_char (a % 4 * 16), '='.toNat, '='.toNat]
  | [a, b] =>
    [b64_char (a / 4), b64_char (a % 4 * 16 + b / 16), b64_char (b % 16 * 4), '='.toNat]
  | a :: b :: c :: rest =>
    b64_char (a / 4) :: b64_char (a % 4 * 16 + b / 16) :: b64_char (b % 16 * 4 + c / 64)
      :: b64_char (c % 64) :: b64_encode rest

/-- The bytes of one group of four base64 characters, the last two of which may be padding. -/
def b64_decode_group (a b c d : Nat) (last : Bool) : Option Bytes :=
  match b64_value a, b64_value b with
  | some x, some y =>
    if last ∧ c = '='.toNat ∧ d = '='.toNat then some [x * 4 + y / 16]
    else
      match b64_value c with
      | none => none
      | some z =>
        if last ∧ d = '='.toNat then some [x * 4 + y / 16, y % 16 * 16 + z / 4]
        else
          match b64_value d with
          | none => none
          | some w => some [x * 4 + y / 16, y % 16 * 16 + z / 4, z % 4 * 64 + w]
  | _, _ => none

/-- Modelled from the spec: `pg_b64_decode` of `common/base64.c`: base64 "over the
standard alphabet without line breaks, rejecting non-alphabet bytes"; padding is
accepted in the last group only. -/
def b64_decode : Bytes → Option Bytes
  | [] => some []
  | [a, b, c, d] => b64_decode_group a b c d true
  | a :: b :: c :: d :: rest =>
    match b64_decode_group a b c d false, b64_decode rest with
    | some g, some r => some (g ++ r)
    | _, _ => none
  | _ => none

/-- A stand-in digest for the worked examples: 32 copies of the byte sum of the input. -/
def example_digest (input : Bytes) : Bytes := List.replicate 32 (input.sum % 256)

/-- Collaborators for the worked examples: a build with `USE_SSL`, no allocation
failure, an all-zero random source and certificate hash, the base64 codec above,
and stand-in digests in place of SHA-256, HMAC and PBKDF2 (the theorems that hold
for every `Env` do not depend on them; the examples only need some digest). -/
def exampleEnv : Env where
  USE_SSL := true
  alloc := fun _ => true
  pg_strong_random := fun n => some (List.replicate n 0)
  pg_b64_enc_len := fun n => (n + 2) / 3 * 4
  pg_b64_encode := fun src dstlen =>
    if dstlen < (b64_encode src).length then none else some (b64_encode src)
  pg_b64_dec_len := fun n => n * 3 / 4
  pg_b64_decode := fun src dstlen =>
    match b64_decode src with
    | none => none
    | some dst => if dstlen < dst.length then none else some dst
  pgtls_get_peer_certificate_hash := some (List.replicate 32 0)
  pg_saslprep := fun password => .SASLPREP_SUCCESS password
  pg_hmac_create := true
  hmac_sha256 := fun key msg => some (example_digest (key ++ msg))
  sha256 := fun input => some (example_digest input)
  pbkdf2_hmac_sha256 := fun password salt iterations len =>
    some (List.replicate len (((password.getD []).sum + salt.sum + iterations.toNat) % 256))
  errstr := str "out of memory"

/-- A connection without TLS and without pre-computed keys. -/
def exampleConn : PGconn where
  channel_binding := str "prefer"
  ssl_in_use := false
  scram_client_key_binary := none
  scram_server_key_binary := none
  client_finished_auth := false
  errorMessage := []

/-- The fields no function of the file ever writes: the credentials, the
mechanism, the key length and the settings of the connection. -/
def fixed_part (s : fe_scram_state) :
    Option Bytes × Bytes × Nat × Bytes × Bool × Option Bytes × Option Bytes :=
  (s.password, s.sasl_mechanism, s.key_length, s.conn.channel_binding, s.conn.ssl_in_use,
    s.conn.scram_client_key_binary, s.conn.scram_server_key_binary)

/-- The numbering of the states in `fe_scram_state_enum`. -/
def fe_scram_state_enum.toNat : fe_scram_state_enum → Nat
  | .FE_SCRAM_INIT => 0
  | .FE_SCRAM_NONCE_SENT => 1
  | .FE_SCRAM_PROOF_SENT => 2
  | .FE_SCRAM_FINISHED => 3

/-- One call of `scram_exchange` as a caller makes it. -/
structure Call where
  env : Env
  final : Bool
  input : Bytes
  inputlen : Int

/-- The results of a series of calls of `scram_exchange` on one session, each
call working on the session the previous one left. -/
def exchange_calls (state : fe_scram_state) : List Call → List ExchangeResult
  | [] => []
  | c :: cs =>
    let r := scram_exchange c.env state c.final c.input c.inputlen
    r :: exchange_calls r.state cs

/-- The sessions a caller can hold: what `scram_init` returned, after any number
of calls of `scram_exchange`. -/
inductive Reachable : fe_scram_state → Prop where
  | init (env : Env) (conn : PGconn) (password : Option Bytes) (sasl_mechanism : Bytes)
      (s : fe_scram_state) (h : scram_init env conn password sasl_mechanism = some s) :
      Reachable s
  | step (env : Env) (s : fe_scram_state) (final : Bool) (input : Bytes) (inputlen : Int)
      (h : Reachable s) : Reachable (scram_exchange env s final input inputlen).state

/-- The session `scram_init` returns for the password "pencil" on a connection,
when nothing fails and SASLprep leaves the password as it is. -/
def exampleSession (conn : PGconn) (sasl_mechanism : Bytes) : fe_scram_state where
  state := .FE_SCRAM_INIT
  conn := conn
  password := some (str "pencil")
  sasl_mechanism := sasl_mechanism
  key_length := 32
  SaltedPassword := List.replicate 32 0
  client_nonce := none
  client_first_message_bare := none
  client_final_message_without_proof := none
  server_first_message := none
  salt := none
  saltlen := 0
  iterations := 0
  nonce := none
  server_final_message := none
  ServerSignature := List.replicate 32 0

/-- The example session after its first call: the client-first message
"n,,n=,r=AAAAAAAAAAAAAAAAAAAAAAAA" is out and the state is NONCE_SENT. -/
def exampleNonceSent : fe_scram_state :=
  (scram_exchange exampleEnv (exampleSession exampleConn SCRAM_SHA_256_NAME) false [] (-1)).state

/-- A server-first message for the example session: the client nonce extended by
"xyz", the salt "ABC" and 4096 iterations. -/
def exampleServerFirst : Bytes := str "r=AAAAAAAAAAAAAAAAAAAAAAAAxyz,s=QUJD,i=4096"

/-- The example session after the server-first message: state PROOF_SENT. -/
def exampleProofSent : fe_scram_state :=
  (scram_exchange exampleEnv exampleNonceSent false exampleServerFirst
    exampleServerFirst.length).state

/-- The server-final message the example session expects after `exampleServerFirst`. -/
def exampleServerFinal : Bytes := str "v=kJCQkJCQkJCQkJCQkJCQkJCQkJCQkJCQkJCQkJCQkJA="

/-- A server-final message for the example session whose signature, 32 zero
bytes, is not the one the session expects. -/
def exampleBadServerFinal : Bytes := str "v=AAAAAAAAAAAAAAAAAAAAAAAAAAAAAAAAAAAAAAAAAAA="

/-- A server-first message whose nonce is the client nonce of the example
session with nothing appended. -/
def exampleServerFirstEqual : Bytes := str "r=AAAAAAAAAAAAAAAAAAAAAAAA,s=QUJD,i=4096"

/-- The example session after `exampleServerFirstEqual`: state PROOF_SENT. -/
def exampleProofSentEqual : fe_scram_state :=
  (scram_exchange exampleEnv exampleNonceSent false exampleServerFirstEqual 40).state

/-- The server-final message the example session expects after `exampleServerFirstEqual`. -/
def exampleServerFinalEqual : Bytes := str "v=urq6urq6urq6urq6urq6urq6urq6urq6urq6urq6uro="

/-- A connection over TLS, without pre-computed keys. -/
def examplePlusConn : PGconn := { exampleConn with ssl_in_use := true }

/-- A SCRAM-SHA-256-PLUS session for the password "pencil", after the
client-first message and `exampleServerFirst`: state PROOF_SENT. -/
def examplePlusProofSent : fe_scram_state :=
  (scram_exchange exampleEnv
    (scram_exchange exampleEnv (exampleSession examplePlusConn SCRAM_SHA_256_PLUS_NAME)
      false [] (-1)).state
    false exampleServerFirst 43).state

/-- A connection with a pre-computed ClientKey and no pre-computed ServerKey. -/
def exampleKeyConn : PGconn :=
  { exampleConn with scram_client_key_binary := some (List.replicate 32 7) }

/-- A session for the password "pencil" on `exampleKeyConn`, after the
client-first message and `exampleServerFirst`: state PROOF_SENT. -/
def exampleKeyProofSent : fe_scram_state :=
  (scram_exchange exampleEnv
    (scram_exchange exampleEnv (exampleSession exampleKeyConn SCRAM_SHA_256_NAME)
      false [] (-1)).state
    false exampleServerFirst 43).state

/-- The hash primitives return 32 bytes, as SHA-256, HMAC-SHA-256 and PBKDF2 with
output length 32 do. -/
def Env.digest_sized (env : Env) : Prop :=
  (∀ key msg r, env.hmac_sha256 key msg = some r → r.length = 32)
  ∧ (∀ msg r, env.sha256 msg = some r → r.length = 32)
  ∧ (∀ password salt iterations r,
      env.pbkdf2_hmac_sha256 password salt iterations 32 = some r → r.length = 32)

/-- What holds of every session a caller can hold: the key length is 32; no
server nonce is stored before the client nonce has been sent; from NONCE_SENT on
the client nonce is a stored C string; a stored server nonce begins with the
client nonce; from PROOF_SENT on a server nonce is stored; and with a
pre-computed ClientKey the `SaltedPassword` array still holds the zero bytes
`scram_init` put there. -/
def session_inv (s : fe_scram_state) : Prop :=
  s.key_length = 32
  ∧ (s.state = .FE_SCRAM_INIT → s.nonce = none)
  ∧ (s.state ≠ .FE_SCRAM_INIT → ∃ c, s.client_nonce = some c ∧ 0 ∉ c)
  ∧ (∀ n, s.nonce = some n → ∃ c, s.client_nonce = some c ∧ c <+: n)
  ∧ (s.state = .FE_SCRAM_PROOF_SENT ∨ s.state = .FE_SCRAM_FINISHED → ∃ n, s.nonce = some n)
  ∧ (s.conn.scram_client_key_binary ≠ none → s.SaltedPassword = List.replicate 32 0)

/-- The base64 primitives of the environment are the codec modelled above, with
the length bound of `pg_b64_enc_len` and the "destination too small" failure. -/
def Env.standard_base64 (env : Env) : Prop :=
  (∀ n, env.pg_b64_enc_len n = (n + 2) / 3 * 4)
  ∧ (∀ src dstlen, env.pg_b64_encode src dstlen
      = if dstlen < (b64_encode src).length then none else some (b64_encode src))

/-- HMAC-SHA-256 returns 32 bytes: 32 values below 256. -/
def Env.hmac_bytes (env : Env) : Prop :=
  ∀ key msg r, env.hmac_sha256 key msg = some r → r.length = 32 ∧ ∀ b ∈ r, b < 256

/-! ## Release of the session and building a secret -/

/-- Free SCRAM exchange status (`scram_free`): the blocks handed to `free`, in
the order of the calls, each with the bytes it holds when it is released (`none`
is `free(NULL)`), and the session structure as it is when it is released last.
The function writes to none of them. -/
def scram_free (state : fe_scram_state) : List (Option Bytes) × fe_scram_state :=
  ([state.password, some state.sasl_mechanism,
    state.client_nonce, state.client_first_message_bare,
    state.client_final_message_without_proof,
    state.server_first_message, state.salt, state.nonce,
    state.server_final_message],
   state)

/-- Build a new SCRAM secret (`pg_fe_scram_build_secret`): the returned string
(`none` for `NULL`) and the text `*errstr` is set to, if it is set.
`scram_build_secret` of `common/scram-common.c` is a parameter, called with the
key length, the salt, its length, the iteration count and the password. -/
def pg_fe_scram_build_secret (env : Env)
    (scram_build_secret : Nat → Bytes → Nat → Int → Bytes → Option Bytes × Option Bytes)
    (password : Bytes) (iterations : Int) : Option Bytes × Option Bytes :=
  match env.pg_saslprep (cstr password) with
  | .SASLPREP_OOM => (none, some (str "out of memory"))
  | rc =>
    let password :=
      match rc with
      | .SASLPREP_SUCCESS prep_password => prep_password
      | _ => cstr password
    match env.pg_strong_random SCRAM_DEFAULT_SALT_LEN with
    | none => (none, some (str "could not generate random salt"))
    | some saltbuf =>
      scram_build_secret SCRAM_SHA_256_KEY_LEN saltbuf SCRAM_DEFAULT_SALT_LEN iterations
        password

end Scram

namespace Nbtcompare

/-!
# Btree comparison functions (`src/backend/access/nbtree/nbtcompare.c`)

Conventions of the embedding.

* Each function is embedded on the values of its C locals: what the function
  manager does around them (`PG_GETARG_*`, `PG_RETURN_*`, the representation of
  a value in a `Datum`) and the unused `rel` argument are left out.
* A machine integer is an `Int`; every conversion to a C type, explicit or
  implied by the usual arithmetic conversions, is written as a wrap-around
  (`int16_of`, `int32_of`, `int64_of`, `uint8_of`, `uint32_of`).
* A `bool` is a `Bool`.  A `char` is represented by its byte, the value that
  `(uint8)` gives: the conversions between `char`, `uint8` and `Datum` keep it.
* The build option `STRESS_SORT_INT_MIN` is the first argument of every
  comparator.
* A function with an out-parameter `*underflow` or `*overflow` returns it next
  to its result.
-/

/-! ## Machine integers -/

/-- Conversion to `int16` (two's complement wrap-around). -/
def int16_of (v : Int) : Int := (v + 32768) % 65536 - 32768

/-- Conversion to `int32`, the type `int` of the platforms supported. -/
def int32_of (v : Int) : Int := (v + 2147483648) % 4294967296 - 2147483648

/-- Conversion to `int64`. -/
def int64_of (v : Int) : Int :=
  (v + 9223372036854775808) % 18446744073709551616 - 9223372036854775808

/-- Conversion to `uint8`. -/
def uint8_of (v : Int) : Int := v % 256

/-- Conversion to `uint32`, the type `Oid`. -/
def uint32_of (v : Int) : Int := v % 4294967296

/-- Conversion of a `bool` to an integer type. -/
def int_of_bool (b : Bool) : Int := if b then 1 else 0

/-- Conversion of an integer to `bool`. -/
def bool_of_int (v : Int) : Bool := v != 0

/-- `INT_MIN` of `limits.h`. -/
def INT_MIN : Int := -2147483648

/-- `INT_MAX` of `limits.h`. -/
def INT_MAX : Int := 2147483647

/-- `UCHAR_MAX` of `limits.h`. -/
def UCHAR_MAX : Int := 255

/-- Modelled from the spec: `PG_INT16_MIN` of `c.h`, the minimum of the 16-bit kind. -/
def PG_INT16_MIN : Int := -32768

/-- Modelled from the spec: `PG_INT16_MAX` of `c.h`, the maximum of the 16-bit kind. -/
def PG_INT16_MAX : Int := 32767

/-- Modelled from the spec: `PG_INT32_MIN` of `c.h` ("`INT_MIN`"). -/
def PG_INT32_MIN : Int := -2147483648

/-- Modelled from the spec: `PG_INT32_MAX` of `c.h` ("`INT_MAX`"). -/
def PG_INT32_MAX : Int := 2147483647

/-- Modelled from the spec: `PG_INT64_MIN` of `c.h`, the minimum of the 64-bit kind. -/
def PG_INT64_MIN : Int := -9223372036854775808

/-- Modelled from the spec: `PG_INT64_MAX` of `c.h`, the maximum of the 64-bit kind. -/
def PG_INT64_MAX : Int := 9223372036854775807

/-- Modelled from the spec: `InvalidOid` of `postgres_ext.h`, the minimum "`0`" of the oid kind. -/
def InvalidOid : Int := 0

/-- Modelled from the spec: `OID_MAX` of `postgres_ext.h` ("`UINT32_MAX`"). -/
def OID_MAX : Int := 4294967295

/-- The values of an `int16`. -/
@[reducible]
def is_int16 (v : Int) : Prop := -32768 ≤ v ∧ v ≤ 32767

/-- The values of an `int32`. -/
@[reducible]
def is_int32 (v : Int) : Prop := -2147483648 ≤ v ∧ v ≤ 2147483647

/-- The values of an `int64`. -/
@[reducible]
def is_int64 (v : Int) : Prop := -9223372036854775808 ≤ v ∧ v ≤ 9223372036854775807

/-- The values of a `uint8`, the bytes a `char` can hold. -/
@[reducible]
def is_uint8 (v : Int) : Prop := 0 ≤ v ∧ v ≤ 255

/-- The values of a `uint32`, the type `Oid`. -/
@[reducible]
def is_uint32 (v : Int) : Prop := 0 ≤ v ∧ v ≤ 4294967295

/-! ## The comparators -/

/-- The macro `A_LESS_THAN_B` in a build with (`true`) or without `STRESS_SORT_INT_MIN`. -/
def A_LESS_THAN_B (stress : Bool) : Int := if stress then INT_MIN else -1

/-- The macro `A_GREATER_THAN_B` in a build with (`true`) or without `STRESS_SORT_INT_MIN`. -/
def A_GREATER_THAN_B (stress : Bool) : Int := if stress then INT_MAX else 1

/-- Comparison of two `bool` (`btboolcmp`): `(int32) a - (int32) b`. -/
def btboolcmp (stress : Bool) (a b : Bool) : Int :=
  int32_of (int32_of (int_of_bool a) - int32_of (int_of_bool b))

/-- Comparison of two `int16` (`btint2cmp`): `(int32) a - (int32) b`. -/
def btint2cmp (stress : Bool) (a b : Int) : Int := int32_of (int32_of a - int32_of b)

/-- The sort-support comparator of `int16` (`btint2fastcmp`): `(int) a - (int) b`. -/
def btint2fastcmp (stress : Bool) (a b : Int) : Int := int32_of (int32_of a - int32_of b)

/-- Comparison of two `int32` (`btint4cmp`). -/
def btint4cmp (stress : Bool) (a b : Int) : Int :=
  if a > b then A_GREATER_THAN_B stress
  else if a = b then 0
  else A_LESS_THAN_B stress

/-- Comparison of two `int64` (`btint8cmp`). -/
def btint8cmp (stress : Bool) (a b : Int) : Int :=
  if a > b then A_GREATER_THAN_B stress
  else if a = b then 0
  else A_LESS_THAN_B stress

/-- The sort-support comparator of `int64` where a `Datum` is narrower than 8
bytes (`btint8fastcmp`). -/
def btint8fastcmp (stress : Bool) (a b : Int) : Int :=
  if a > b then A_GREATER_THAN_B stress
  else if a = b then 0
  else A_LESS_THAN_B stress

/-- Comparison of an `int32` with an `int64` (`btint48cmp`): `a` is converted to `int64`. -/
def btint48cmp (stress : Bool) (a b : Int) : Int :=
  if int64_of a > b then A_GREATER_THAN_B stress
  else if int64_of a = b then 0
  else A_LESS_THAN_B stress

/-- Comparison of an `int64` with an `int32` (`btint84cmp`): `b` is converted to `int64`. -/
def btint84cmp (stress : Bool) (a b : Int) : Int :=
  if a > int64_of b then A_GREATER_THAN_B stress
  else if a = int64_of b then 0
  else A_LESS_THAN_B stress

/-- Comparison of an `int16` with an `int32` (`btint24cmp`): `a` is promoted to `int`. -/
def btint24cmp (stress : Bool) (a b : Int) : Int :=
  if int32_of a > b then A_GREATER_THAN_B stress
  else if int32_of a = b then 0
  else A_LESS_THAN_B stress

/-- Comparison of an `int32` with an `int16` (`btint42cmp`): `b` is promoted to `int`. -/
def btint42cmp (stress : Bool) (a b : Int) : Int :=
  if a > int32_of b then A_GREATER_THAN_B stress
  else if a = int32_of b then 0
  else A_LESS_THAN_B stress

/-- Comparison of an `int16` with an `int64` (`btint28cmp`): `a` is converted to `int64`. -/
def btint28cmp (stress : Bool) (a b : Int) : Int :=
  if int64_of a > b then A_GREATER_THAN_B stress
  else if int64_of a = b then 0
  else A_LESS_THAN_B stress

/-- Comparison of an `int64` with an `int16` (`btint82cmp`): `b` is converted to `int64`. -/
def btint82cmp (stress : Bool) (a b : Int) : Int :=
  if a > int64_of b then A_GREATER_THAN_B stress
  else if a = int64_of b then 0
  else A_LESS_THAN_B stress

/-- Comparison of two `Oid` (`btoidcmp`). -/
def btoidcmp (stress : Bool) (a b : Int) : Int :=
  if a > b then A_GREATER_THAN_B stress
  else if a = b then 0
  else A_LESS_THAN_B stress

/-- The sort-support comparator of `Oid` (`btoidfastcmp`). -/
def btoidfastcmp (stress : Bool) (a b : Int) : Int :=
  if a > b then A_GREATER_THAN_B stress
  else if a = b then 0
  else A_LESS_THAN_B stress

/-- The fields of an `oidvector` that `btoidvectorcmp` reads: the `int` field
`dim1` and the memory at `values`, one `Oid` per element of the list. -/
structure oidvector where
  dim1 : Int
  values : List Int
  deriving DecidableEq, Repr

/-- A well-formed `oidvector`: `dim1` is not negative and is the number of elements. -/
@[reducible]
def oidvector.well_formed (a : oidvector) : Prop :=
  0 ≤ a.dim1 ∧ a.dim1 = a.values.length ∧ a.dim1 ≤ INT_MAX

/-- The loop of `btoidvectorcmp` with `n` iterations left, at index `i`; past
the end of the list `values[i]` reads as 0. -/
def btoidvectorcmp_loop (stress : Bool) (a b : oidvector) : Nat → Nat → Int
  | 0, _ => 0
  | n + 1, i =>
    if a.values.getD i 0 ≠ b.values.getD i 0 then
      if a.values.getD i 0 > b.values.getD i 0 then A_GREATER_THAN_B stress
      else A_LESS_THAN_B stress
    else btoidvectorcmp_loop stress a b n (i + 1)

/-- Comparison of two `oidvector` (`btoidvectorcmp`): by `dim1` first, then
element by element. -/
def btoidvectorcmp (stress : Bool) (a b : oidvector) : Int :=
  if a.dim1 ≠ b.dim1 then int32_of (a.dim1 - b.dim1)
  else btoidvectorcmp_loop stress a b a.dim1.toNat 0

/-- Comparison of two `char` (`btcharcmp`): `(int32) ((uint8) a) - (int32) ((uint8) b)`. -/
def btcharcmp (stress : Bool) (a b : Int) : Int :=
  int32_of (int32_of (uint8_of a) - int32_of (uint8_of b))

/-! ## Skip support -/

/-- The fields of `SkipSupportData` (`utils/skipsupport.h`) that the file sets. -/
structure SkipSupportData (Datum : Type) where
  decrement : Datum → Datum × Bool
  increment : Datum → Datum × Bool
  low_elem : Datum
  high_elem : Datum

/-- The predecessor of a `bool` (`bool_decrement`); the flag is `*underflow`. -/
def bool_decrement (existing : Bool) : Bool × Bool :=
  if existing = false then (bool_of_int 0, true)
  else (bool_of_int (int_of_bool existing - 1), false)

/-- The successor of a `bool` (`bool_increment`); the flag is `*overflow`. -/
def bool_increment (existing : Bool) : Bool × Bool :=
  if existing = true then (bool_of_int 0, true)
  else (bool_of_int (int_of_bool existing + 1), false)

/-- Skip support of `bool` (`btboolskipsupport`). -/
def btboolskipsupport : SkipSupportData Bool where
  decrement := bool_decrement
  increment := bool_increment
  low_elem := false
  high_elem := true

/-- The predecessor of an `int16` (`int2_decrement`). -/
def int2_decrement (existing : Int) : Int × Bool :=
  if existing = PG_INT16_MIN then (0, true)
  else (int16_of (int32_of (existing - 1)), false)

/-- The successor of an `int16` (`int2_increment`). -/
def int2_increment (existing : Int) : Int × Bool :=
  if existing = PG_INT16_MAX then (0, true)
  else (int16_of (int32_of (existing + 1)), false)

/-- Skip support of `int16` (`btint2skipsupport`). -/
def btint2skipsupport : SkipSupportData Int where
  decrement := int2_decrement
  increment := int2_increment
  low_elem := int16_of PG_INT16_MIN
  high_elem := int16_of PG_INT16_MAX

/-- The predecessor of an `int32` (`int4_decrement`). -/
def int4_decrement (existing : Int) : Int × Bool :=
  if existing = PG_INT32_MIN then (0, true)
  else (int32_of (existing - 1), false)

/-- The successor of an `int32` (`int4_increment`). -/
def int4_increment (existing : Int) : Int × Bool :=
  if existing = PG_INT32_MAX then (0, true)
  else (int32_of (existing + 1), false)

/-- Skip support of `int32` (`btint4skipsupport`). -/
def btint4skipsupport : SkipSupportData Int where
  decrement := int4_decrement
  increment := int4_increment
  low_elem := int32_of PG_INT32_MIN
  high_elem := int32_of PG_INT32_MAX

/-- The predecessor of an `int64` (`int8_decrement`). -/
def int8_decrement (existing : Int) : Int × Bool :=
  if existing = PG_INT64_MIN then (0, true)
  else (int64_of (existing - 1), false)

/-- The successor of an `int64` (`int8_increment`). -/
def int8_increment (existing : Int) : Int × Bool :=
  if existing = PG_INT64_MAX then (0, true)
  else (int64_of (existing + 1), false)

/-- Skip support of `int64` (`btint8skipsupport`). -/
def btint8skipsupport : SkipSupportData Int where
  decrement := int8_decrement
  increment := int8_increment
  low_elem := int64_of PG_INT64_MIN
  high_elem := int64_of PG_INT64_MAX

/-- The predecessor of an `Oid` (`oid_decrement`). -/
def oid_decrement (existing : Int) : Int × Bool :=
  if existing = InvalidOid then (0, true)
  else (uint32_of (existing - 1), false)

/-- The successor of an `Oid` (`oid_increment`). -/
def oid_increment (existing : Int) : Int × Bool :=
  if existing = OID_MAX then (0, true)
  else (uint32_of (existing + 1), false)

/-- Skip support of `Oid` (`btoidskipsupport`). -/
def btoidskipsupport : SkipSupportData Int where
  decrement := oid_decrement
  increment := oid_increment
  low_elem := uint32_of InvalidOid
  high_elem := uint32_of OID_MAX

/-- The predecessor of a `char` (`char_decrement`): the byte is taken with
`uint8 cexisting = UInt8GetDatum(existing)`, the result is
`(uint8) cexisting - 1` as a `char`. -/
def char_decrement (existing : Int) : Int × Bool :=
  let cexisting := uint8_of existing
  if cexisting = 0 then (0, true)
  else (uint8_of (int32_of (uint8_of cexisting) - 1), false)

/-- The successor of a `char` (`char_increment`). -/
def char_increment (existing : Int) : Int × Bool :=
  let cexisting := uint8_of existing
  if cexisting = UCHAR_MAX then (0, true)
  else (uint8_of (int32_of (uint8_of cexisting) + 1), false)

/-- Skip support of `char` (`btcharskipsupport`). -/
def btcharskipsupport : SkipSupportData Int where
  decrement := char_decrement
  increment := char_increment
  low_elem := uint8_of 0
  high_elem := uint8_of UCHAR_MAX

/-! ## The contracts the theorems speak of -/

/-- A comparison result `r` reports the three cases: negative exactly when
`lt`, zero exactly when `eq`, positive exactly when `gt`, and it is an `int32`. -/
def three_way (r : Int) (lt eq gt : Prop) : Prop :=
  (r < 0 ↔ lt) ∧ (r = 0 ↔ eq) ∧ (0 < r ↔ gt) ∧ INT_MIN ≤ r ∧ r ≤ INT_MAX

/-- The comparator `cmp` is a total order on the values in `dom`. -/
def total_order_on {α : Type} (dom : α → Prop) (cmp : α → α → Int) : Prop :=
  ∀ a b c, dom a → dom b → dom c →
    cmp a a = 0
    ∧ (cmp a b).sign = -(cmp b a).sign
    ∧ (cmp a b = 0 → a = b)
    ∧ (cmp a b ≤ 0 → cmp b c ≤ 0 → cmp a c ≤ 0)

/-- In the order of `cmp` on `dom`, `lo` is immediately below `hi`. -/
def immediately_below {α : Type} (dom : α → Prop) (cmp : α → α → Int) (lo hi : α) : Prop :=
  dom lo ∧ dom hi ∧ cmp lo hi < 0 ∧ ∀ y, dom y → ¬ (cmp lo y < 0 ∧ cmp y hi < 0)

/-- A worked example: the vector of the given elements. -/
def example_oidvector (values : List Int) : oidvector := ⟨values.length, values⟩

/-- Where the steps of a skip support record do not signal underflow or
overflow, they lead to the value immediately below and immediately above. -/
def steps_to_neighbours {α : Type} (dom : α → Prop) (cmp : α → α → Int)
    (sk : SkipSupportData α) : Prop :=
  ∀ x, dom x →
    ((sk.decrement x).2 = false → immediately_below dom cmp (sk.decrement x).1 x)
    ∧ ((sk.increment x).2 = false → immediately_below dom cmp x (sk.increment x).1)

/-- Each step of a skip support record undoes the other, without a signal. -/
def steps_invert {α : Type} (dom : α → Prop) (sk : SkipSupportData α) : Prop :=
  ∀ x, dom x →
    ((sk.decrement x).2 = false → sk.increment (sk.decrement x).1 = (x, false))
    ∧ ((sk.increment x).2 = false → sk.decrement (sk.increment x).1 = (x, false))

/-- The steps of a skip support record signal exactly at `high_elem` and
`low_elem`, which are the greatest and the least value under `cmp`. -/
def bounds_signalled {α : Type} (dom : α → Prop) (cmp : α → α → Int)
    (sk : SkipSupportData α) : Prop :=
  dom sk.low_elem ∧ dom sk.high_elem
  ∧ ∀ x, dom x →
      ((sk.increment x).2 = true ↔ x = sk.high_elem)
      ∧ ((sk.decrement x).2 = true ↔ x = sk.low_elem)
      ∧ cmp sk.low_elem x ≤ 0 ∧ 0 ≤ cmp sk.high_elem x

end Nbtcompare

/-! ## Theorems -/

namespace Scram

/-! ### What each function leaves untouched -/

theorem build_client_first_message_frame (env : Env) (s : fe_scram_state) :
    (build_client_first_message env s).2.state = s.state
    ∧ fixed_part (build_client_first_message env s).2 = fixed_part s
    ∧ (build_client_first_message env s).2.SaltedPassword = s.SaltedPassword
    ∧ (build_client_first_message env s).2.nonce = s.nonce
    ∧ (build_client_first_message env s).2.client_final_message_without_proof
        = s.client_final_message_without_proof
    ∧ (build_client_first_message env s).2.server_first_message = s.server_first_message
    ∧ (build_client_first_message env s).2.ServerSignature = s.ServerSignature := by
  unfold build_client_first_message
  dsimp only
  repeat' split
  all_goals exact ⟨rfl, rfl, rfl, rfl, rfl, rfl, rfl⟩

theorem read_server_first_message_frame (env : Env) (s : fe_scram_state) (input : Bytes) :
    (read_server_first_message env s input).2.state = s.state
    ∧ fixed_part (read_server_first_message env s input).2 = fixed_part s
    ∧ (read_server_first_message env s input).2.SaltedPassword = s.SaltedPassword
    ∧ (read_server_first_message env s input).2.client_nonce = s.client_nonce
    ∧ (read_server_first_message env s input).2.client_first_message_bare
        = s.client_first_message_bare
    ∧ (read_server_first_message env s input).2.client_final_message_without_proof
        = s.client_final_message_without_proof
    ∧ (read_server_first_message env s input).2.ServerSignature = s.ServerSignature := by
  unfold read_server_first_message
  dsimp only
  repeat' split
  all_goals exact ⟨rfl, rfl, rfl, rfl, rfl, rfl, rfl⟩

theorem client_proof_ClientKey_frame (env : Env) (s : fe_scram_state) :
    (client_proof_ClientKey env s).2.state = s.state
    ∧ fixed_part (client_proof_ClientKey env s).2 = fixed_part s
    ∧ (client_proof_ClientKey env s).2.client_nonce = s.client_nonce
    ∧ (client_proof_ClientKey env s).2.nonce = s.nonce
    ∧ (client_proof_ClientKey env s).2.client_first_message_bare = s.client_first_message_bare
    ∧ (client_proof_ClientKey env s).2.server_first_message = s.server_first_message
    ∧ (client_proof_ClientKey env s).2.client_final_message_without_proof
        = s.client_final_message_without_proof
    ∧ (client_proof_ClientKey env s).2.ServerSignature = s.ServerSignature
    ∧ (client_proof_ClientKey env s).2.conn = s.conn := by
  unfold client_proof_ClientKey
  dsimp only
  repeat' split
  all_goals exact ⟨rfl, rfl, rfl, rfl, rfl, rfl, rfl, rfl, rfl⟩

theorem calculate_client_proof_frame (env : Env) (s : fe_scram_state) (m : Bytes) :
    (calculate_client_proof env s m).2.state = s.state
    ∧ fixed_part (calculate_client_proof env s m).2 = fixed_part s
    ∧ (calculate_client_proof env s m).2.client_nonce = s.client_nonce
    ∧ (calculate_client_proof env s m).2.nonce = s.nonce
    ∧ (calculate_client_proof env s m).2.client_first_message_bare = s.client_first_message_bare
    ∧ (calculate_client_proof env s m).2.server_first_message = s.server_first_message
    ∧ (calculate_client_proof env s m).2.client_final_message_without_proof
        = s.client_final_message_without_proof
    ∧ (calculate_client_proof env s m).2.ServerSignature = s.ServerSignature
    ∧ (calculate_client_proof env s m).2.conn = s.conn := by
  have h := client_proof_ClientKey_frame env s
  unfold calculate_client_proof
  split
  · exact ⟨rfl, rfl, rfl, rfl, rfl, rfl, rfl, rfl, rfl⟩
  · split
    · rename_i h1; rw [h1] at h; exact h
    · rename_i h1; rw [h1] at h
      repeat' split
      all_goals exact h

theorem client_final_cbind_frame (env : Env) (s : fe_scram_state) :
    (client_final_cbind env s).2.state = s.state
    ∧ fixed_part (client_final_cbind env s).2 = fixed_part s
    ∧ (client_final_cbind env s).2.client_nonce = s.client_nonce
    ∧ (client_final_cbind env s).2.nonce = s.nonce
    ∧ (client_final_cbind env s).2.client_first_message_bare = s.client_first_message_bare
    ∧ (client_final_cbind env s).2.server_first_message = s.server_first_message
    ∧ (client_final_cbind env s).2.ServerSignature = s.ServerSignature
    ∧ (client_final_cbind env s).2.SaltedPassword = s.SaltedPassword
    ∧ (client_final_cbind env s).2.salt = s.salt
    ∧ (client_final_cbind env s).2.saltlen = s.saltlen
    ∧ (client_final_cbind env s).2.iterations = s.iterations := by
  unfold client_final_cbind
  dsimp only
  repeat' split
  all_goals exact ⟨rfl, rfl, rfl, rfl, rfl, rfl, rfl, rfl, rfl, rfl, rfl⟩

theorem build_client_final_message_frame (env : Env) (s : fe_scram_state) :
    (build_client_final_message env s).2.state = s.state
    ∧ fixed_part (build_client_final_message env s).2 = fixed_part s
    ∧ (build_client_final_message env s).2.client_nonce = s.client_nonce
    ∧ (build_client_final_message env s).2.nonce = s.nonce
    ∧ (build_client_final_message env s).2.client_first_message_bare
        = s.client_first_message_bare
    ∧ (build_client_final_message env s).2.server_first_message = s.server_first_message
    ∧ (build_client_final_message env s).2.ServerSignature = s.ServerSignature := by
  obtain ⟨c1, c2, c3, c4, c5, c6, c7, -⟩ := client_final_cbind_frame env s
  unfold build_client_final_message
  split
  · rename_i h1; rw [h1] at c1 c2 c3 c4 c5 c6 c7
    exact ⟨c1, c2, c3, c4, c5, c6, c7⟩
  · rename_i buf s1 h1; rw [h1] at c1 c2 c3 c4 c5 c6 c7
    dsimp only at c1 c2 c3 c4 c5 c6 c7 ⊢
    split
    · exact ⟨c1, c2, c3, c4, c5, c6, c7⟩
    · split
      · exact ⟨c1, c2, c3, c4, c5, c6, c7⟩
      · split
        · exact ⟨c1, c2, c3, c4, c5, c6, c7⟩
        · split
          · rename_i s2 h2
            have h := calculate_client_proof_frame env
              { s1 with
                client_final_message_without_proof := some (cstr (buf ++ str ",r="
                  ++ cstr (s1.nonce.getD []))) }
              (cstr (buf ++ str ",r=" ++ cstr (s1.nonce.getD [])))
            simp only [Option.getD_some] at h2
            rw [h2] at h
            obtain ⟨d1, d2, d3, d4, d5, d6, -, d8, d9⟩ := h
            dsimp only at d1 d2 d3 d4 d5 d6 d8 d9
            refine ⟨d1.trans c1, ?_, d3.trans c3, d4.trans c4, d5.trans c5, d6.trans c6,
              d8.trans c7⟩
            simp only [conn_error, libpq_append_conn_error, fixed_part] at d2 c2 ⊢
            rw [d9]
            simp only [d9] at d2
            exact d2.trans c2
          · rename_i cp s2 h2
            have h := calculate_client_proof_frame env
              { s1 with
                client_final_message_without_proof := some (cstr (buf ++ str ",r="
                  ++ cstr (s1.nonce.getD []))) }
              (cstr (buf ++ str ",r=" ++ cstr (s1.nonce.getD [])))
            simp only [Option.getD_some] at h2
            rw [h2] at h
            obtain ⟨d1, d2, d3, d4, d5, d6, -, d8, d9⟩ := h
            dsimp only at d1 d2 d3 d4 d5 d6 d8 d9
            have key : s2.state = s.state ∧ fixed_part s2 = fixed_part s
                ∧ s2.client_nonce = s.client_nonce ∧ s2.nonce = s.nonce
                ∧ s2.client_first_message_bare = s.client_first_message_bare
                ∧ s2.server_first_message = s.server_first_message
                ∧ s2.ServerSignature = s.ServerSignature :=
              ⟨d1.trans c1, d2.trans c2, d3.trans c3, d4.trans c4, d5.trans c5, d6.trans c6,
                d8.trans c7⟩
            repeat' split
            all_goals exact key

theorem read_server_final_message_frame (env : Env) (s : fe_scram_state) (input : Bytes) :
    (read_server_final_message env s input).2.state = s.state
    ∧ fixed_part (read_server_final_message env s input).2 = fixed_part s
    ∧ (read_server_final_message env s input).2.SaltedPassword = s.SaltedPassword
    ∧ (read_server_final_message env s input).2.client_nonce = s.client_nonce
    ∧ (read_server_final_message env s input).2.nonce = s.nonce
    ∧ (read_server_final_message env s input).2.client_first_message_bare
        = s.client_first_message_bare
    ∧ (read_server_final_message env s input).2.server_first_message = s.server_first_message
    ∧ (read_server_final_message env s input).2.client_final_message_without_proof
        = s.client_final_message_without_proof := by
  unfold read_server_final_message
  dsimp only
  repeat' split
  all_goals exact ⟨rfl, rfl, rfl, rfl, rfl, rfl, rfl, rfl⟩

/-! ### C strings -/

theorem cstr_nil : cstr [] = [] := rfl

theorem cstr_cons_of_ne (b : Nat) (t : Bytes) (h : b ≠ 0) : cstr (b :: t) = b :: cstr t := by
  simp [cstr, List.takeWhile_cons, h]

theorem cstr_cons_zero (t : Bytes) : cstr (0 :: t) = [] := by
  simp [cstr, List.takeWhile_cons]

theorem zero_not_mem_cstr (p : Bytes) : 0 ∉ cstr p := by
  intro h
  have := List.mem_takeWhile_imp h
  simp at this

theorem cstr_of_not_mem (p : Bytes) (h : 0 ∉ p) : cstr p = p := by
  unfold cstr
  rw [List.takeWhile_eq_self_iff]
  intro b hb
  have : b ≠ 0 := fun e => h (e ▸ hb)
  simpa using this

theorem cstr_cstr (p : Bytes) : cstr (cstr p) = cstr p :=
  cstr_of_not_mem _ (zero_not_mem_cstr p)

theorem cstr_append_of_not_mem (a b : Bytes) (h : 0 ∉ a) : cstr (a ++ b) = a ++ cstr b := by
  induction a with
  | nil => rfl
  | cons x xs ih =>
    have hx : x ≠ 0 := fun e => h (by simp [e])
    have hxs : 0 ∉ xs := fun m => h (List.mem_cons_of_mem _ m)
    rw [List.cons_append, cstr_cons_of_ne _ _ hx, ih hxs, List.cons_append]

theorem cstr_append_zero (a b : Bytes) (h : 0 ∉ a) : cstr (a ++ 0 :: b) = a := by
  rw [cstr_append_of_not_mem _ _ h, cstr_cons_zero, List.append_nil]

theorem strlen_le_length (p : Bytes) : strlen p ≤ p.length := by
  unfold strlen cstr
  exact (List.takeWhile_prefix _).length_le

/-! ### The messages the client builds -/

theorem gs2_flag_cases (env : Env) (s : fe_scram_state) :
    gs2_flag env s = str "p=tls-server-end-point" ∨ gs2_flag env s = str "y"
      ∨ gs2_flag env s = str "n" := by
  unfold gs2_flag
  split
  · exact Or.inl rfl
  · split
    · exact Or.inr (Or.inl rfl)
    · exact Or.inr (Or.inr rfl)

theorem build_client_first_message_output (env : Env) (s : fe_scram_state) (out : Bytes)
    (h : (build_client_first_message env s).1 = some out) : out ≠ [] ∧ 0 ∉ out := by
  unfold build_client_first_message at h
  dsimp only at h
  repeat' split at h
  all_goals first
    | (simp at h; done)
    | skip
  rename_i raw _ _ enc _ _ _ _ _
  simp only [Option.some.injEq] at h
  subst h
  refine ⟨?_, zero_not_mem_cstr _⟩
  rcases gs2_flag_cases env { s with client_nonce := some (cstr enc) } with h | h | h <;>
    rw [h] <;> simp [str, cstr]

theorem client_final_cbind_output (env : Env) (s : fe_scram_state) (buf : Bytes)
    (h : (client_final_cbind env s).1 = some buf) : ∃ t, buf = 'c'.toNat :: t := by
  unfold client_final_cbind at h
  dsimp only at h
  repeat' split at h
  all_goals first
    | (simp at h; done)
    | skip
  all_goals
    simp only [Option.some.injEq] at h
    subst h
    exact ⟨_, rfl⟩

theorem build_client_final_message_output (env : Env) (s : fe_scram_state) (out : Bytes)
    (h : (build_client_final_message env s).1 = some out) : out ≠ [] ∧ 0 ∉ out := by
  unfold build_client_final_message at h
  split at h
  · exact absurd h (by simp)
  · rename_i buf s1 h1
    have hb := client_final_cbind_output env s buf (by rw [h1])
    obtain ⟨t, rfl⟩ := hb
    dsimp only at h
    repeat' split at h
    all_goals first
      | (simp at h; done)
      | skip
    simp only [Option.some.injEq] at h
    subst h
    refine ⟨?_, zero_not_mem_cstr _⟩
    simp [cstr]

/-! ### Reading one attribute -/

theorem byteAt_append_right (a b : Bytes) (i : Nat) :
    byteAt (a ++ b) (a.length + i) = byteAt b i := by
  unfold byteAt
  rw [List.getD_append_right _ _ _ _ (Nat.le_add_right _ _)]
  simp

theorem byteAt_length (a : Bytes) : byteAt a a.length = 0 := by
  unfold byteAt
  simp

theorem scan_value_append (v rest : Bytes) (hv : ∀ b ∈ v, b ≠ 0 ∧ b ≠ ','.toNat)
    (hrest : ∀ b t, rest = b :: t → b = 0 ∨ b = ','.toNat) :
    scan_value (v ++ rest) = v.length := by
  induction v with
  | nil =>
    cases rest with
    | nil => rfl
    | cons b t =>
      have := hrest b t rfl
      simp only [List.nil_append, scan_value, List.length_nil]
      rw [if_neg]
      intro h
      rcases this with h0 | h0
      · exact h.1 h0
      · exact h.2 h0
  | cons x xs ih =>
    have hx := hv x (by simp)
    have ih' := ih (fun b hb => hv b (List.mem_cons_of_mem _ hb))
    show scan_value (x :: (xs ++ rest)) = (x :: xs).length
    rw [scan_value, if_pos hx, ih', List.length_cons]

/-- Reading "X=value" when the value ends at a comma: the comma becomes a NUL and
the cursor moves past it. -/
theorem read_attr_value_comma (pre v t : Bytes) (attr : Nat) (err : Bytes)
    (hv : ∀ b ∈ v, b ≠ 0 ∧ b ≠ ','.toNat) :
    read_attr_value (pre ++ attr :: '='.toNat :: (v ++ ','.toNat :: t)) pre.length attr err
      = ⟨some (pre.length + 2), pre ++ attr :: '='.toNat :: (v ++ 0 :: t),
          pre.length + 2 + v.length + 1, err⟩ := by
  have e0 : byteAt (pre ++ attr :: '='.toNat :: (v ++ ','.toNat :: t)) pre.length = attr := by
    have := byteAt_append_right pre (attr :: '='.toNat :: (v ++ ','.toNat :: t)) 0
    simpa [byteAt] using this
  have e1 : byteAt (pre ++ attr :: '='.toNat :: (v ++ ','.toNat :: t)) (pre.length + 1)
      = '='.toNat := by
    rw [byteAt_append_right]; rfl
  have e2 : (pre ++ attr :: '='.toNat :: (v ++ ','.toNat :: t)).drop (pre.length + 1 + 1)
      = v ++ ','.toNat :: t := by
    rw [Nat.add_assoc, List.drop_append]; rfl
  have e3 : scan_value (v ++ ','.toNat :: t) = v.length :=
    scan_value_append v _ hv (fun b t' h => by simp at h; exact Or.inr h.1.symm)
  have e4 : byteAt (pre ++ attr :: '='.toNat :: (v ++ ','.toNat :: t))
      (pre.length + 1 + 1 + v.length) = ','.toNat := by
    have : pre ++ attr :: '='.toNat :: (v ++ ','.toNat :: t)
        = (pre ++ attr :: '='.toNat :: v) ++ ','.toNat :: t := by simp
    rw [this]
    have := byteAt_append_right (pre ++ attr :: '='.toNat :: v) (','.toNat :: t) 0
    simp only [List.length_append, List.length_cons, Nat.add_zero] at this
    rw [show pre.length + 1 + 1 + v.length = pre.length + (v.length + 1 + 1) by omega, this]
    rfl
  have e5 : (pre ++ attr :: '='.toNat :: (v ++ ','.toNat :: t)).set
      (pre.length + 1 + 1 + v.length) 0 = pre ++ attr :: '='.toNat :: (v ++ 0 :: t) := by
    have : pre ++ attr :: '='.toNat :: (v ++ ','.toNat :: t)
        = (pre ++ attr :: '='.toNat :: v) ++ ','.toNat :: t := by simp
    rw [this, List.set_append_right _ _ (by simp; omega)]
    have : pre.length + 1 + 1 + v.length - (pre ++ attr :: '='.toNat :: v).length = 0 := by
      simp only [List.length_append, List.length_cons]; omega
    rw [this]
    simp
  unfold read_attr_value
  simp only [e0, e1, e2, e3, e4, e5, ne_eq, not_true_eq_false, ↓reduceIte]
  rw [if_pos (by decide)]

/-- Reading "X=value" when the value runs to the end of the string: nothing is
written and the cursor stops at the terminating NUL. -/
theorem read_attr_value_last (pre v t : Bytes) (attr : Nat) (err : Bytes)
    (hv : ∀ b ∈ v, b ≠ 0 ∧ b ≠ ','.toNat) (ht : t = [] ∨ ∃ u, t = 0 :: u) :
    read_attr_value (pre ++ attr :: '='.toNat :: (v ++ t)) pre.length attr err
      = ⟨some (pre.length + 2), pre ++ attr :: '='.toNat :: (v ++ t),
          pre.length + 2 + v.length, err⟩ := by
  have e0 : byteAt (pre ++ attr :: '='.toNat :: (v ++ t)) pre.length = attr := by
    have := byteAt_append_right pre (attr :: '='.toNat :: (v ++ t)) 0
    simpa [byteAt] using this
  have e1 : byteAt (pre ++ attr :: '='.toNat :: (v ++ t)) (pre.length + 1) = '='.toNat := by
    rw [byteAt_append_right]; rfl
  have e2 : (pre ++ attr :: '='.toNat :: (v ++ t)).drop (pre.length + 1 + 1) = v ++ t := by
    rw [Nat.add_assoc, List.drop_append]; rfl
  have e3 : scan_value (v ++ t) = v.length :=
    scan_value_append v _ hv (fun b t' h => by
      rcases ht with rfl | ⟨u, rfl⟩
      · simp at h
      · simp at h; exact Or.inl h.1.symm)
  have e4 : byteAt (pre ++ attr :: '='.toNat :: (v ++ t)) (pre.length + 1 + 1 + v.length)
      = 0 := by
    have : pre ++ attr :: '='.toNat :: (v ++ t) = (pre ++ attr :: '='.toNat :: v) ++ t := by
      simp
    rw [this]
    have := byteAt_append_right (pre ++ attr :: '='.toNat :: v) t 0
    simp only [List.length_append, List.length_cons, Nat.add_zero] at this
    rw [show pre.length + 1 + 1 + v.length = pre.length + (v.length + 1 + 1) by omega, this]
    rcases ht with rfl | ⟨u, rfl⟩ <;> rfl
  unfold read_attr_value
  simp only [e0, e1, e2, e3, e4, ne_eq, not_true_eq_false, ↓reduceIte]

/-- The value `read_attr_value` returned, read as a C string. -/
theorem cstr_drop_value (pre v t : Bytes) (attr : Nat) (hv : ∀ b ∈ v, b ≠ 0 ∧ b ≠ ','.toNat)
    (ht : t = [] ∨ ∃ u, t = 0 :: u) :
    cstr ((pre ++ attr :: '='.toNat :: (v ++ t)).drop (pre.length + 2)) = v := by
  rw [List.drop_append]
  have h0 : 0 ∉ v := fun h => (hv 0 h).1 rfl
  rcases ht with rfl | ⟨u, rfl⟩
  · simp only [List.drop_succ_cons, List.drop_zero, List.append_nil]
    exact cstr_of_not_mem v h0
  · simp only [List.drop_succ_cons, List.drop_zero]
    exact cstr_append_zero v u h0

/-! ### The server-final message -/

theorem read_server_final_message_signature (env : Env) (s : fe_scram_state)
    (value t sig : Bytes) (hv : ∀ b ∈ value, b ≠ 0 ∧ b ≠ ','.toNat)
    (ht : t = [] ∨ ∃ u, t = ','.toNat :: u)
    (hcopy : env.alloc .sfinal_copy = true) (hsig : env.alloc .sfinal_signature = true)
    (hdec : env.pg_b64_decode value (env.pg_b64_dec_len value.length) = some sig)
    (hlen : sig.length = s.key_length) :
    (read_server_final_message env s ('v'.toNat :: '='.toNat :: (value ++ t))).1 = true
    ∧ (read_server_final_message env s ('v'.toNat :: '='.toNat :: (value ++ t))).2.ServerSignature
        = overwrite s.ServerSignature sig := by
  have hb : byteAt ('v'.toNat :: '='.toNat :: (value ++ t)) 0 ≠ 'e'.toNat := by
    simp [byteAt]
  have htake : sig.take s.key_length = sig := by rw [← hlen]; exact List.take_length _
  unfold read_server_final_message
  dsimp only
  rw [if_neg (by simp [hcopy]), if_neg hb]
  rcases ht with rfl | ⟨u, rfl⟩
  · have hr := read_attr_value_last [] value [] 'v'.toNat s.conn.errorMessage hv (Or.inl rfl)
    have hc := cstr_drop_value [] value [] 'v'.toNat hv (Or.inl rfl)
    simp only [List.nil_append, List.length_nil, Nat.zero_add] at hr hc
    rw [hr]
    dsimp only
    rw [if_neg (by simp [hsig])]
    simp only [strlen, hc, hdec]
    simp [hlen, htake, conn_error, apply_ite fe_scram_state.key_length,
      apply_ite fe_scram_state.ServerSignature]
  · have hr := read_attr_value_comma [] value u 'v'.toNat s.conn.errorMessage hv
    have hc := cstr_drop_value [] value (0 :: u) 'v'.toNat hv (Or.inr ⟨u, rfl⟩)
    simp only [List.nil_append, List.length_nil, Nat.zero_add] at hr hc
    rw [hr]
    dsimp only
    rw [if_neg (by simp [hsig])]
    simp only [strlen, hc, hdec]
    simp [hlen, htake, conn_error, apply_ite fe_scram_state.key_length,
      apply_ite fe_scram_state.ServerSignature]

/-! ### The state machine -/

theorem strlen_of_not_mem (p : Bytes) (h : 0 ∉ p) : strlen p = p.length := by
  unfold strlen
  rw [cstr_of_not_mem p h]

/-- The four ways a call of `scram_exchange` can end. -/
theorem scram_exchange_cases (env : Env) (s : fe_scram_state) (final : Bool) (input : Bytes)
    (inputlen : Int) :
    ((scram_exchange env s final input inputlen).status = .SASL_FAILED
      ∧ (scram_exchange env s final input inputlen).output = none
      ∧ (scram_exchange env s final input inputlen).outputlen = 0
      ∧ (scram_exchange env s final input inputlen).state.state = s.state)
    ∨ ((scram_exchange env s final input inputlen).status = .SASL_CONTINUE
      ∧ s.state = .FE_SCRAM_INIT
      ∧ (scram_exchange env s final input inputlen).state.state = .FE_SCRAM_NONCE_SENT
      ∧ ∃ out, (scram_exchange env s final input inputlen).output = some out ∧ out ≠ []
          ∧ 0 ∉ out ∧ (scram_exchange env s final input inputlen).outputlen = out.length)
    ∨ ((scram_exchange env s final input inputlen).status = .SASL_CONTINUE
      ∧ s.state = .FE_SCRAM_NONCE_SENT
      ∧ (scram_exchange env s final input inputlen).state.state = .FE_SCRAM_PROOF_SENT
      ∧ ∃ out, (scram_exchange env s final input inputlen).output = some out ∧ out ≠ []
          ∧ 0 ∉ out ∧ (scram_exchange env s final input inputlen).outputlen = out.length)
    ∨ (s.state = .FE_SCRAM_PROOF_SENT
      ∧ (scram_exchange env s final input inputlen).state.state = .FE_SCRAM_FINISHED
      ∧ (scram_exchange env s final input inputlen).output = none
      ∧ (scram_exchange env s final input inputlen).outputlen = 0
      ∧ ((scram_exchange env s final input inputlen).status = .SASL_COMPLETE
        ∨ (scram_exchange env s final input inputlen).status = .SASL_FAILED)) := by
  unfold scram_exchange
  split
  · exact Or.inl ⟨rfl, rfl, rfl, rfl⟩
  · split
    · exact Or.inl ⟨rfl, rfl, rfl, rfl⟩
    · split
      · rename_i hst
        have hf := (build_client_first_message_frame env s).1
        split
        · rename_i s1 h1
          rw [h1] at hf
          exact Or.inl ⟨rfl, rfl, rfl, hf⟩
        · rename_i out s1 h1
          have ho := build_client_first_message_output env s out (by rw [h1])
          refine Or.inr (Or.inl ⟨rfl, hst, rfl, out, rfl, ho.1, ho.2, ?_⟩)
          simp [strlen_of_not_mem out ho.2]
      · rename_i hst
        have hf := (read_server_first_message_frame env s input).1
        split
        · rename_i s1 h1
          rw [h1] at hf
          exact Or.inl ⟨rfl, rfl, rfl, hf⟩
        · rename_i s1 h1
          rw [h1] at hf
          have hg := (build_client_final_message_frame env s1).1
          split
          · rename_i s2 h2
            rw [h2] at hg
            exact Or.inl ⟨rfl, rfl, rfl, hg.trans hf⟩
          · rename_i out s2 h2
            have ho := build_client_final_message_output env s1 out (by rw [h2])
            refine Or.inr (Or.inr (Or.inl ⟨rfl, hst, rfl, out, rfl, ho.1, ho.2, ?_⟩))
            simp [strlen_of_not_mem out ho.2]
      · rename_i hst
        have hf := (read_server_final_message_frame env s input).1
        split
        · rename_i s1 h1
          rw [h1] at hf
          exact Or.inl ⟨rfl, rfl, rfl, hf⟩
        · rename_i s1 h1
          split
          · rw [h1] at hf
            exact Or.inl ⟨rfl, rfl, rfl, hf⟩
          · rename_i matched h2
            refine Or.inr (Or.inr (Or.inr ⟨hst, rfl, rfl, rfl, ?_⟩))
            cases matched
            · exact Or.inr rfl
            · exact Or.inl rfl
      · exact Or.inl ⟨rfl, rfl, rfl, rfl⟩

/-- C7: whatever the session and the input, a call of `scram_exchange` leaves the
state where it was or moves it to its immediate successor in the order
INIT, NONCE_SENT, PROOF_SENT, FINISHED; it returns `SASL_CONTINUE` exactly when it
moved INIT to NONCE_SENT or NONCE_SENT to PROOF_SENT, and then the output is a
non-empty string whose length is `outputlen`; on any other return the output is
`NULL` and `outputlen` is 0. -/
theorem scram_exchange_transition (env : Env) (s : fe_scram_state) (final : Bool)
    (input : Bytes) (inputlen : Int) :
    ((scram_exchange env s final input inputlen).state.state = s.state
      ∨ (scram_exchange env s final input inputlen).state.state.toNat = s.state.toNat + 1)
    ∧ ((scram_exchange env s final input inputlen).status = .SASL_CONTINUE ↔
        (s.state = .FE_SCRAM_INIT
          ∧ (scram_exchange env s final input inputlen).state.state = .FE_SCRAM_NONCE_SENT)
        ∨ (s.state = .FE_SCRAM_NONCE_SENT
          ∧ (scram_exchange env s final input inputlen).state.state = .FE_SCRAM_PROOF_SENT))
    ∧ ((scram_exchange env s final input inputlen).status = .SASL_CONTINUE →
        ∃ out, (scram_exchange env s final input inputlen).output = some out ∧ out ≠ []
          ∧ (scram_exchange env s final input inputlen).outputlen = out.length
          ∧ 0 < (scram_exchange env s final input inputlen).outputlen)
    ∧ ((scram_exchange env s final input inputlen).status ≠ .SASL_CONTINUE →
        (scram_exchange env s final input inputlen).output = none
          ∧ (scram_exchange env s final input inputlen).outputlen = 0) := by
  rcases scram_exchange_cases env s final input inputlen with
    ⟨h1, h2, h3, h4⟩ | ⟨h1, h2, h3, out, h4, h5, h6, h7⟩ | ⟨h1, h2, h3, out, h4, h5, h6, h7⟩
      | ⟨h1, h2, h3, h4, h5⟩
  · refine ⟨Or.inl h4, ?_, ?_, fun _ => ⟨h2, h3⟩⟩
    · rw [h1, h4]
      constructor
      · intro h; exact absurd h (by decide)
      · rintro (⟨a, b⟩ | ⟨a, b⟩)
        · rw [a] at b; exact absurd b (by decide)
        · rw [a] at b; exact absurd b (by decide)
    · rw [h1]; intro h; exact absurd h (by decide)
  · refine ⟨Or.inr (by rw [h3, h2]; rfl), ?_, ?_, fun h => absurd h1 h⟩
    · exact ⟨fun _ => Or.inl ⟨h2, h3⟩, fun _ => h1⟩
    · intro _
      refine ⟨out, h4, h5, h7, ?_⟩
      rw [h7]
      exact_mod_cast List.length_pos.mpr h5
  · refine ⟨Or.inr (by rw [h3, h2]; rfl), ?_, ?_, fun h => absurd h1 h⟩
    · exact ⟨fun _ => Or.inr ⟨h2, h3⟩, fun _ => h1⟩
    · intro _
      refine ⟨out, h4, h5, h7, ?_⟩
      rw [h7]
      exact_mod_cast List.length_pos.mpr h5
  · refine ⟨Or.inr (by rw [h2, h1]; rfl), ?_, ?_, fun _ => ⟨h3, h4⟩⟩
    · rw [h1, h2]
      constructor
      · intro h
        rcases h5 with h5 | h5 <;> rw [h5] at h <;> exact absurd h (by decide)
      · rintro (⟨a, b⟩ | ⟨a, b⟩)
        · exact absurd a (by decide)
        · exact absurd a (by decide)
    · intro h
      rcases h5 with h5 | h5 <;> rw [h5] at h <;> exact absurd h (by decide)

/-- C9: on a session whose state is not INIT, a call of `scram_exchange` with
`inputlen = 0`, or with `inputlen` different from the string length of the input,
returns `SASL_FAILED` with no output and leaves the session as it was, its state
included, apart from the error text appended to the connection; on a session in
state INIT the result does not depend on the input or on its length. -/
theorem scram_exchange_length_check (env : Env) (s : fe_scram_state) (final : Bool)
    (input : Bytes) (inputlen : Int) (hs : s.state ≠ .FE_SCRAM_INIT)
    (hlen : inputlen = 0 ∨ inputlen ≠ (strlen input : Int)) :
    (scram_exchange env s final input inputlen).status = .SASL_FAILED
    ∧ (scram_exchange env s final input inputlen).output = none
    ∧ (scram_exchange env s final input inputlen).outputlen = 0
    ∧ (scram_exchange env s final input inputlen).state.state = s.state
    ∧ (∃ msg, (scram_exchange env s final input inputlen).state = conn_error s msg)
    ∧ (∀ (s0 : fe_scram_state) (final' : Bool) (input' : Bytes) (inputlen' : Int),
        s0.state = .FE_SCRAM_INIT →
        scram_exchange env s0 final input inputlen
          = scram_exchange env s0 final' input' inputlen') := by
  refine ⟨?_, ?_, ?_, ?_, ?_, ?_⟩
  · unfold scram_exchange
    by_cases h0 : inputlen = 0
    · rw [if_pos ⟨hs, h0⟩]
    · rw [if_neg (fun h => h0 h.2), if_pos ⟨hs, hlen.resolve_left h0⟩]
  · unfold scram_exchange
    by_cases h0 : inputlen = 0
    · rw [if_pos ⟨hs, h0⟩]
    · rw [if_neg (fun h => h0 h.2), if_pos ⟨hs, hlen.resolve_left h0⟩]
  · unfold scram_exchange
    by_cases h0 : inputlen = 0
    · rw [if_pos ⟨hs, h0⟩]
    · rw [if_neg (fun h => h0 h.2), if_pos ⟨hs, hlen.resolve_left h0⟩]
  · unfold scram_exchange
    by_cases h0 : inputlen = 0
    · rw [if_pos ⟨hs, h0⟩]; rfl
    · rw [if_neg (fun h => h0 h.2), if_pos ⟨hs, hlen.resolve_left h0⟩]; rfl
  · unfold scram_exchange
    by_cases h0 : inputlen = 0
    · rw [if_pos ⟨hs, h0⟩]; exact ⟨_, rfl⟩
    · rw [if_neg (fun h => h0 h.2), if_pos ⟨hs, hlen.resolve_left h0⟩]; exact ⟨_, rfl⟩
  · intro s0 final' input' inputlen' h0
    unfold scram_exchange
    rw [if_neg (fun h => h.1 h0), if_neg (fun h => h.1 h0), if_neg (fun h => h.1 h0),
      if_neg (fun h => h.1 h0)]
    simp only [h0]

theorem scram_exchange_length_check_witness :
    exampleNonceSent.state ≠ .FE_SCRAM_INIT
    ∧ ((4 : Int) = 0 ∨ (4 : Int) ≠ (strlen (str "r=\x00x") : Int))
    ∧ (scram_exchange exampleEnv exampleNonceSent true (str "r=\x00x") 4).status = .SASL_FAILED
    ∧ (scram_exchange exampleEnv exampleNonceSent true (str "r=\x00x") 4).state.state
        = .FE_SCRAM_NONCE_SENT :=
  ⟨by decide!, by decide!,
    (scram_exchange_length_check exampleEnv exampleNonceSent true (str "r=\x00x") 4
      (by decide!) (by decide!)).1,
    ((scram_exchange_length_check exampleEnv exampleNonceSent true (str "r=\x00x") 4
      (by decide!) (by decide!)).2.2.2.1).trans (by decide!)⟩

theorem scram_exchange_finished (env : Env) (s : fe_scram_state) (final : Bool)
    (input : Bytes) (inputlen : Int) (h : s.state = .FE_SCRAM_FINISHED) :
    (scram_exchange env s final input inputlen).status = .SASL_FAILED
    ∧ (scram_exchange env s final input inputlen).output = none
    ∧ (scram_exchange env s final input inputlen).state.state = .FE_SCRAM_FINISHED := by
  rcases scram_exchange_cases env s final input inputlen with
    ⟨h1, h2, _, h4⟩ | ⟨_, h2, _⟩ | ⟨_, h2, _⟩ | ⟨h1, _⟩
  · exact ⟨h1, h2, h4.trans h⟩
  · rw [h] at h2; exact absurd h2 (by decide)
  · rw [h] at h2; exact absurd h2 (by decide)
  · rw [h] at h1; exact absurd h1 (by decide)

theorem exchange_calls_finished (calls : List Call) :
    ∀ (s : fe_scram_state), s.state = .FE_SCRAM_FINISHED →
      ∀ r ∈ exchange_calls s calls,
        r.status = .SASL_FAILED ∧ r.output = none ∧ r.state.state = .FE_SCRAM_FINISHED := by
  induction calls with
  | nil => intro s _ r hr; simp [exchange_calls] at hr
  | cons c cs ih =>
    intro s hs r hr
    have hc := scram_exchange_finished c.env s c.final c.input c.inputlen hs
    simp only [exchange_calls, List.mem_cons] at hr
    rcases hr with rfl | hr
    · exact hc
    · exact ih _ hc.2.2 r hr

/-- C8, as the code has it: a call of `scram_exchange` that returns `SASL_FAILED`
leaves the state where it was, or, when the failure is a server signature that
does not match, moves it from PROOF_SENT to FINISHED; and once the state is
FINISHED every later call returns `SASL_FAILED` with no output, whatever its
input. -/
theorem scram_exchange_failed_then (env : Env) (s : fe_scram_state) (final : Bool)
    (input : Bytes) (inputlen : Int) (calls : List Call)
    (hfail : (scram_exchange env s final input inputlen).status = .SASL_FAILED) :
    ((scram_exchange env s final input inputlen).state.state = s.state
      ∨ (s.state = .FE_SCRAM_PROOF_SENT
        ∧ (scram_exchange env s final input inputlen).state.state = .FE_SCRAM_FINISHED))
    ∧ ((scram_exchange env s final input inputlen).state.state = .FE_SCRAM_FINISHED →
        ∀ r ∈ exchange_calls (scram_exchange env s final input inputlen).state calls,
          r.status = .SASL_FAILED ∧ r.output = none
            ∧ r.state.state = .FE_SCRAM_FINISHED) := by
  refine ⟨?_, fun h => exchange_calls_finished calls _ h⟩
  rcases scram_exchange_cases env s final input inputlen with
    ⟨_, _, _, h4⟩ | ⟨h1, _⟩ | ⟨h1, _⟩ | ⟨h1, h2, _⟩
  · exact Or.inl h4
  · rw [h1] at hfail; exact absurd hfail (by decide)
  · rw [h1] at hfail; exact absurd hfail (by decide)
  · exact Or.inr ⟨h1, h2⟩

theorem scram_exchange_failed_then_witness :
    (scram_exchange exampleEnv exampleProofSent false exampleBadServerFinal 46).status
      = .SASL_FAILED
    ∧ (scram_exchange exampleEnv exampleProofSent false exampleBadServerFinal 46).state.state
      = .FE_SCRAM_FINISHED
    ∧ ∀ r ∈ exchange_calls
        (scram_exchange exampleEnv exampleProofSent false exampleBadServerFinal 46).state
        [⟨exampleEnv, false, exampleServerFirst, 43⟩, ⟨exampleEnv, true, [], -1⟩],
        r.status = .SASL_FAILED ∧ r.output = none ∧ r.state.state = .FE_SCRAM_FINISHED :=
  ⟨by decide!, by decide!,
    (scram_exchange_failed_then exampleEnv exampleProofSent false exampleBadServerFinal 46
      [⟨exampleEnv, false, exampleServerFirst, 43⟩, ⟨exampleEnv, true, [], -1⟩]
      (by decide!)).2 (by decide!)⟩

/-- C8 fails as stated: on the example session in state NONCE_SENT a call with
the input "x" returns `SASL_FAILED`, and the next call, with a valid server-first
message, returns `SASL_CONTINUE`. -/
theorem scram_exchange_failed_not_terminal :
    exampleNonceSent.state = .FE_SCRAM_NONCE_SENT
    ∧ (scram_exchange exampleEnv exampleNonceSent false (str "x") 1).status = .SASL_FAILED
    ∧ (scram_exchange exampleEnv
        (scram_exchange exampleEnv exampleNonceSent false (str "x") 1).state
        false exampleServerFirst 43).status = .SASL_CONTINUE := by
  decide!

theorem fixed_part_eq {s s' : fe_scram_state} (h : fixed_part s' = fixed_part s) :
    s'.password = s.password ∧ s'.sasl_mechanism = s.sasl_mechanism
    ∧ s'.key_length = s.key_length ∧ s'.conn.channel_binding = s.conn.channel_binding
    ∧ s'.conn.ssl_in_use = s.conn.ssl_in_use
    ∧ s'.conn.scram_client_key_binary = s.conn.scram_client_key_binary
    ∧ s'.conn.scram_server_key_binary = s.conn.scram_server_key_binary := by
  simpa [fixed_part] using h

theorem verify_ServerKey_congr (env : Env) {s s' : fe_scram_state}
    (h : fixed_part s' = fixed_part s) (hs : s'.SaltedPassword = s.SaltedPassword) :
    verify_ServerKey env s' = verify_ServerKey env s := by
  obtain ⟨-, -, h3, -, -, -, h7⟩ := fixed_part_eq h
  unfold verify_ServerKey
  rw [h7, hs, h3]

theorem auth_message_congr {s s' : fe_scram_state} (m : Bytes)
    (h1 : s'.client_first_message_bare = s.client_first_message_bare)
    (h2 : s'.server_first_message = s.server_first_message) :
    auth_message s' m = auth_message s m := by
  unfold auth_message
  rw [h1, h2]

theorem overwrite_take (old new : Bytes) : (overwrite old new).take new.length = new := by
  unfold overwrite
  simp

/-- C1: on a session in state PROOF_SENT, for a server-final message "v=value"
whose value base64-decodes to 32 bytes (allocations and hash primitives
succeeding), `scram_exchange` returns `SASL_COMPLETE` exactly when the decoded
bytes are HMAC-SHA-256(ServerKey, client-first-bare "," server-first ","
client-final-without-proof) and `SASL_FAILED` otherwise; either way the state
becomes FINISHED and there is no output. -/
theorem scram_exchange_server_final (env : Env) (s : fe_scram_state) (final : Bool)
    (value sig key expected : Bytes) (inputlen : Int)
    (hstate : s.state = .FE_SCRAM_PROOF_SENT) (hkl : s.key_length = 32)
    (hvalue : ∀ b ∈ value, b ≠ 0 ∧ b ≠ ','.toNat)
    (hinputlen : inputlen = (value.length : Int) + 2)
    (hcopy : env.alloc .sfinal_copy = true) (hsigalloc : env.alloc .sfinal_signature = true)
    (hdec : env.pg_b64_decode value (env.pg_b64_dec_len value.length) = some sig)
    (hsiglen : sig.length = 32)
    (hctx : env.pg_hmac_create = true)
    (hkey : verify_ServerKey env s = some key) (hkeylen : key.length = 32)
    (hmac : env.hmac_sha256 key
      (cstr (s.client_first_message_bare.getD []) ++ str ","
        ++ cstr (s.server_first_message.getD []) ++ str ","
        ++ cstr (s.client_final_message_without_proof.getD [])) = some expected)
    (hexplen : expected.length = 32) :
    (scram_exchange env s final (str "v=" ++ value) inputlen).state.state = .FE_SCRAM_FINISHED
    ∧ ((scram_exchange env s final (str "v=" ++ value) inputlen).status = .SASL_COMPLETE
        ↔ sig = expected)
    ∧ ((scram_exchange env s final (str "v=" ++ value) inputlen).status = .SASL_FAILED
        ↔ sig ≠ expected)
    ∧ (scram_exchange env s final (str "v=" ++ value) inputlen).output = none := by
  have hin : str "v=" ++ value = 'v'.toNat :: '='.toNat :: (value ++ []) := by
    simp [str]
  have h0 : (0 : Nat) ∉ str "v=" ++ value := by
    intro h
    rcases List.mem_append.mp h with h | h
    · revert h; decide
    · exact (hvalue 0 h).1 rfl
  have hstrlen : strlen (str "v=" ++ value) = value.length + 2 := by
    rw [strlen_of_not_mem _ h0]; simp [str]
  obtain ⟨r1, r2⟩ := read_server_final_message_signature env s value [] sig hvalue (Or.inl rfl)
    hcopy hsigalloc hdec (hsiglen.trans hkl.symm)
  rw [← hin] at r1 r2
  obtain ⟨f1, f2, f3, -, -, f6, f7, f8⟩ := read_server_final_message_frame env s
    (str "v=" ++ value)
  have hv : verify_server_signature env (read_server_final_message env s (str "v=" ++ value)).2
      = some (expected == sig) := by
    unfold verify_server_signature
    rw [if_neg (by simp [hctx]), verify_ServerKey_congr env f2 f3, hkey]
    dsimp only
    rw [auth_message_congr _ f6 f7, f8, (fixed_part_eq f2).2.2.1, hkl]
    have hk : key.take 32 = key := by rw [← hkeylen]; exact List.take_length _
    have he : expected.take 32 = expected := by rw [← hexplen]; exact List.take_length _
    have hm : auth_message s (s.client_final_message_without_proof.getD [])
        = cstr (s.client_first_message_bare.getD []) ++ str ","
          ++ cstr (s.server_first_message.getD []) ++ str ","
          ++ cstr (s.client_final_message_without_proof.getD []) := rfl
    rw [hk, hm, hmac]
    dsimp only
    rw [he, r2]
    have := overwrite_take s.ServerSignature sig
    rw [hsiglen] at this
    rw [this]
  have hne : ¬ (s.state ≠ .FE_SCRAM_INIT ∧ inputlen = 0) := by
    rintro ⟨-, h⟩; omega
  have hne2 : ¬ (s.state ≠ .FE_SCRAM_INIT ∧ inputlen ≠ (strlen (str "v=" ++ value) : Int)) := by
    rintro ⟨-, h⟩; rw [hstrlen] at h; exact h (by rw [hinputlen]; push_cast; ring)
  unfold scram_exchange
  rw [if_neg hne, if_neg hne2]
  cases hrd : read_server_final_message env s (str "v=" ++ value) with
  | mk b s1 =>
    rw [hrd] at r1 hv
    dsimp only at r1 hv
    subst r1
    simp only [hstate, hv]
    by_cases hse : sig = expected
    · subst hse
      simp
    · have : (expected == sig) = false := by
        simp only [beq_eq_false_iff_ne, ne_eq]
        exact fun h => hse h.symm
      simp [this, hse]

theorem scram_exchange_server_final_witness :
    exampleProofSent.state = .FE_SCRAM_PROOF_SENT
    ∧ exampleEnv.pg_b64_decode (str "kJCQkJCQkJCQkJCQkJCQkJCQkJCQkJCQkJCQkJCQkJA=") 33
        = some (List.replicate 32 144)
    ∧ (scram_exchange exampleEnv exampleProofSent false
        (str "v=" ++ str "kJCQkJCQkJCQkJCQkJCQkJCQkJCQkJCQkJCQkJCQkJA=") 46).status
        = .SASL_COMPLETE
    ∧ (scram_exchange exampleEnv exampleProofSent false
        (str "v=" ++ str "kJCQkJCQkJCQkJCQkJCQkJCQkJCQkJCQkJCQkJCQkJA=") 46).state.state
        = .FE_SCRAM_FINISHED :=
  ⟨by decide!, by decide!,
    (scram_exchange_server_final exampleEnv exampleProofSent false
      (str "kJCQkJCQkJCQkJCQkJCQkJCQkJCQkJCQkJCQkJCQkJA=") (List.replicate 32 144)
      (List.replicate 32 224) (List.replicate 32 144) 46
      (by decide!) (by decide!) (by decide!) (by decide!) (by decide!) (by decide!)
      (by decide!) (by decide!) (by decide!) (by decide!) (by decide!) (by decide!)
      (by decide!)).2.1.mpr rfl,
    (scram_exchange_server_final exampleEnv exampleProofSent false
      (str "kJCQkJCQkJCQkJCQkJCQkJCQkJCQkJCQkJCQkJCQkJA=") (List.replicate 32 144)
      (List.replicate 32 224) (List.replicate 32 144) 46
      (by decide!) (by decide!) (by decide!) (by decide!) (by decide!) (by decide!)
      (by decide!) (by decide!) (by decide!) (by decide!) (by decide!) (by decide!)
      (by decide!)).1⟩

/-! ### The nonce of the server-first message -/

theorem nonce_mismatch_iff (nonce client_nonce : Bytes) :
    nonce_mismatch nonce client_nonce = false ↔ cstr client_nonce <+: cstr nonce := by
  unfold nonce_mismatch strlen
  rw [Bool.or_eq_false_iff, List.prefix_iff_eq_take]
  simp only [decide_eq_false_iff_not, Nat.not_lt, bne_eq_false_iff_eq]
  constructor
  · rintro ⟨-, h⟩; exact h.symm
  · intro h
    refine ⟨?_, h.symm⟩
    have := congrArg List.length h
    rw [List.length_take] at this
    omega

theorem nonce_mismatch_congr (a b c : Bytes) (h : cstr a = cstr b) :
    nonce_mismatch a c = nonce_mismatch b c := by
  unfold nonce_mismatch strlen
  rw [h]

/-- Once the nonce of the server-first message has passed the test and has been
copied, it stays in the session whatever the rest of the message holds. -/
theorem read_server_first_message_stores_nonce (env : Env) (s : fe_scram_state)
    (n t : Bytes) (hn : ∀ b ∈ n, b ≠ 0 ∧ b ≠ ','.toNat)
    (ht : t = [] ∨ ∃ u, t = ','.toNat :: u)
    (hcopy : env.alloc .sfirst_copy = true) (hdup : env.alloc .sfirst_nonce = true)
    (hok : nonce_mismatch n (s.client_nonce.getD []) = false) :
    (read_server_first_message env s ('r'.toNat :: '='.toNat :: (n ++ t))).2.nonce = some n := by
  have h0 : 0 ∉ n := fun h => (hn 0 h).1 rfl
  have hok' : ∀ u, nonce_mismatch (n ++ 0 :: u) (s.client_nonce.getD []) = false := by
    intro u
    rw [nonce_mismatch_congr (n ++ 0 :: u) n _
      ((cstr_append_zero n u h0).trans (cstr_of_not_mem n h0).symm)]
    exact hok
  unfold read_server_first_message
  dsimp only
  rw [if_neg (by simp [hcopy])]
  rcases ht with rfl | ⟨u, rfl⟩
  · have hr := read_attr_value_last [] n [] 'r'.toNat s.conn.errorMessage hn (Or.inl rfl)
    have hc := cstr_drop_value [] n [] 'r'.toNat hn (Or.inl rfl)
    simp only [List.nil_append, List.length_nil, Nat.zero_add] at hr hc
    rw [hr]
    dsimp only
    have hd : List.drop 2 ('r'.toNat :: '='.toNat :: (n ++ [])) = n := by simp
    rw [hd, if_neg (by simp [hok]), if_neg (by simp [hdup]), cstr_of_not_mem n h0]
    repeat' split
    all_goals rfl
  · have hr := read_attr_value_comma [] n u 'r'.toNat s.conn.errorMessage hn
    have hc := cstr_drop_value [] n (0 :: u) 'r'.toNat hn (Or.inr ⟨u, rfl⟩)
    simp only [List.nil_append, List.length_nil, Nat.zero_add] at hr hc
    rw [hr]
    dsimp only
    have hd : List.drop 2 ('r'.toNat :: '='.toNat :: (n ++ 0 :: u)) = n ++ 0 :: u := by simp
    rw [hd, if_neg (by simp [hok' u]), if_neg (by simp [hdup]), cstr_append_zero n u h0]
    repeat' split
    all_goals rfl

/-- A nonce that fails the test ends `read_server_first_message` on the spot. -/
theorem read_server_first_message_mismatch (env : Env) (s : fe_scram_state)
    (n t : Bytes) (hn : ∀ b ∈ n, b ≠ 0 ∧ b ≠ ','.toNat)
    (ht : t = [] ∨ ∃ u, t = ','.toNat :: u)
    (hcopy : env.alloc .sfirst_copy = true)
    (hbad : nonce_mismatch n (s.client_nonce.getD []) = true) :
    read_server_first_message env s ('r'.toNat :: '='.toNat :: (n ++ t))
      = (false,
          conn_error
            { s with server_first_message := some (cstr ('r'.toNat :: '='.toNat :: (n ++ t))) }
            (str "invalid SCRAM response (nonce mismatch)")) := by
  have h0 : 0 ∉ n := fun h => (hn 0 h).1 rfl
  have hbad' : ∀ u, nonce_mismatch (n ++ 0 :: u) (s.client_nonce.getD []) = true := by
    intro u
    rw [nonce_mismatch_congr (n ++ 0 :: u) n _
      ((cstr_append_zero n u h0).trans (cstr_of_not_mem n h0).symm)]
    exact hbad
  unfold read_server_first_message
  dsimp only
  rw [if_neg (by simp [hcopy])]
  rcases ht with rfl | ⟨u, rfl⟩
  · have hr := read_attr_value_last [] n [] 'r'.toNat s.conn.errorMessage hn (Or.inl rfl)
    simp only [List.nil_append, List.length_nil, Nat.zero_add] at hr
    rw [hr]
    dsimp only
    have hd : List.drop 2 ('r'.toNat :: '='.toNat :: (n ++ [])) = n := by simp
    rw [hd, if_pos hbad]
  · have hr := read_attr_value_comma [] n u 'r'.toNat s.conn.errorMessage hn
    simp only [List.nil_append, List.length_nil, Nat.zero_add] at hr
    rw [hr]
    dsimp only
    have hd : List.drop 2 ('r'.toNat :: '='.toNat :: (n ++ 0 :: u)) = n ++ 0 :: u := by simp
    rw [hd, if_pos (hbad' u)]

/-- C3: for a client nonce `c` and a server-first message that starts with the
attribute "r=n", `read_server_first_message` passes the nonce test, and stores
`n` as the server nonce, exactly when `c` is a prefix of `n` (so `n = c` passes);
when `c` is not a prefix of `n` it reports the nonce mismatch and fails, and
`scram_exchange` returns `SASL_FAILED` with no output, the state staying
NONCE_SENT and no client-final message being built. -/
theorem read_server_first_message_nonce_check (env : Env) (s : fe_scram_state)
    (final : Bool) (c n rest : Bytes) (inputlen : Int)
    (hstate : s.state = .FE_SCRAM_NONCE_SENT)
    (hc : s.client_nonce = some c) (hc0 : 0 ∉ c) (hnone : s.nonce = none)
    (hn : ∀ b ∈ n, b ≠ 0 ∧ b ≠ ','.toNat)
    (hrest : rest = [] ∨ ∃ u, rest = ','.toNat :: u)
    (hcopy : env.alloc .sfirst_copy = true) (hdup : env.alloc .sfirst_nonce = true) :
    (nonce_mismatch n c = false ↔ c <+: n)
    ∧ ((read_server_first_message env s (str "r=" ++ n ++ rest)).2.nonce = some n ↔ c <+: n)
    ∧ (¬ c <+: n →
        read_server_first_message env s (str "r=" ++ n ++ rest)
          = (false,
              conn_error { s with server_first_message := some (cstr (str "r=" ++ n ++ rest)) }
                (str "invalid SCRAM response (nonce mismatch)"))
        ∧ (scram_exchange env s final (str "r=" ++ n ++ rest) inputlen).status = .SASL_FAILED
        ∧ (scram_exchange env s final (str "r=" ++ n ++ rest) inputlen).output = none
        ∧ (scram_exchange env s final (str "r=" ++ n ++ rest) inputlen).state.state
            = .FE_SCRAM_NONCE_SENT
        ∧ (scram_exchange env s final (str "r=" ++ n ++ rest)
            inputlen).state.client_final_message_without_proof
            = s.client_final_message_without_proof) := by
  have hin : str "r=" ++ n ++ rest = 'r'.toNat :: '='.toNat :: (n ++ rest) := by
    simp [str]
  have h0 : 0 ∉ n := fun h => (hn 0 h).1 rfl
  have hiff : nonce_mismatch n c = false ↔ c <+: n := by
    rw [nonce_mismatch_iff, cstr_of_not_mem c hc0, cstr_of_not_mem n h0]
  have hget : s.client_nonce.getD [] = c := by rw [hc]; rfl
  have hbad : ¬ c <+: n →
      read_server_first_message env s (str "r=" ++ n ++ rest)
        = (false,
            conn_error { s with server_first_message := some (cstr (str "r=" ++ n ++ rest)) }
              (str "invalid SCRAM response (nonce mismatch)")) := by
    intro hp
    rw [hin]
    apply read_server_first_message_mismatch env s n rest hn hrest hcopy
    rw [hget]
    cases hm : nonce_mismatch n c
    · exact absurd (hiff.mp hm) hp
    · rfl
  refine ⟨hiff, ⟨?_, ?_⟩, ?_⟩
  · intro h
    by_contra hp
    rw [hbad hp] at h
    simp only [conn_error] at h
    rw [hnone] at h
    exact absurd h (by simp)
  · intro hp
    rw [hin]
    exact read_server_first_message_stores_nonce env s n rest hn hrest hcopy hdup
      (by rw [hget]; exact hiff.mpr hp)
  · intro hp
    refine ⟨hbad hp, ?_⟩
    unfold scram_exchange
    split
    · exact ⟨rfl, rfl, hstate, rfl⟩
    · split
      · exact ⟨rfl, rfl, hstate, rfl⟩
      · simp only [hstate, hbad hp]
        simp [conn_error]

theorem read_server_first_message_nonce_check_witness :
    exampleNonceSent.client_nonce = some (str "AAAAAAAAAAAAAAAAAAAAAAAA")
    ∧ ((read_server_first_message exampleEnv exampleNonceSent
          (str "r=" ++ str "AAAAAAAAAAAAAAAAAAAAAAAA" ++ str ",s=QUJD,i=4096")).2.nonce
        = some (str "AAAAAAAAAAAAAAAAAAAAAAAA")
      ↔ str "AAAAAAAAAAAAAAAAAAAAAAAA" <+: str "AAAAAAAAAAAAAAAAAAAAAAAA") :=
  ⟨by decide!,
    (read_server_first_message_nonce_check exampleEnv exampleNonceSent false
      (str "AAAAAAAAAAAAAAAAAAAAAAAA") (str "AAAAAAAAAAAAAAAAAAAAAAAA") (str ",s=QUJD,i=4096")
      37 (by decide!) (by decide!) (by decide!) (by decide!) (by decide!)
      (Or.inr ⟨str "s=QUJD,i=4096", by decide!⟩) (by decide!) (by decide!)).2.1⟩

/-! ### What a successful step has done -/

theorem read_server_first_message_true (env : Env) (s s' : fe_scram_state) (input : Bytes)
    (h : read_server_first_message env s input = (true, s')) :
    s'.server_first_message = some (cstr input)
    ∧ (∃ n, s'.nonce = some n ∧ cstr (s.client_nonce.getD []) <+: n)
    ∧ (∃ salt, s'.salt = some salt ∧ s'.saltlen = salt.length)
    ∧ 1 ≤ s'.iterations := by
  unfold read_server_first_message at h
  dsimp only at h
  repeat' split at h
  all_goals first
    | (simp at h; done)
    | skip
  all_goals
    simp only [Prod.mk.injEq, true_and] at h
    subst h
    have hm := ‹¬ nonce_mismatch _ _ = true›
    have hit := ‹¬ (_ ∨ _)›
    refine ⟨rfl, ⟨_, rfl, ?_⟩, ⟨_, rfl, rfl⟩, ?_⟩
    · rw [Bool.not_eq_true, nonce_mismatch_iff] at hm
      exact hm
    · simp only [not_or, not_lt] at hit
      exact hit.2

theorem client_proof_ClientKey_some (env : Env) (s s' : fe_scram_state) (ck : Bytes)
    (h : client_proof_ClientKey env s = (some ck, s')) :
    (∃ key, s.conn.scram_client_key_binary = some key ∧ ck = key.take SCRAM_MAX_KEY_LEN
        ∧ s' = s)
    ∨ (s.conn.scram_client_key_binary = none
        ∧ ∃ salted,
            scram_SaltedPassword env s.password s.key_length s.salt s.saltlen s.iterations
              = some salted
            ∧ s' = { s with SaltedPassword := overwrite s.SaltedPassword salted }
            ∧ scram_ClientKey env (overwrite s.SaltedPassword salted) s.key_length = some ck) := by
  unfold client_proof_ClientKey at h
  split at h
  · rename_i key hk
    simp only [Prod.mk.injEq, Option.some.injEq] at h
    exact Or.inl ⟨key, hk, h.1.symm, h.2.symm⟩
  · rename_i hk
    split at h
    · simp at h
    · rename_i salted hsp
      simp only [Prod.mk.injEq] at h
      exact Or.inr ⟨hk, salted, hsp, h.2.symm, h.1⟩

theorem calculate_client_proof_some (env : Env) (s s' : fe_scram_state) (m proof : Bytes)
    (h : calculate_client_proof env s m = (some proof, s')) :
    ∃ ck sk sig, client_proof_ClientKey env s = (some ck, s')
      ∧ scram_H env ck s'.key_length = some sk
      ∧ env.hmac_sha256 (sk.take s'.key_length) (auth_message s' m) = some sig
      ∧ proof = List.zipWith Nat.xor (ck.take s'.key_length) (sig.take s'.key_length) := by
  unfold calculate_client_proof at h
  split at h
  · simp at h
  · split at h
    · simp at h
    · rename_i ck s1 h1
      split at h
      · simp at h
      · rename_i sk h2
        split at h
        · simp at h
        · rename_i sig h3
          simp only [Prod.mk.injEq, Option.some.injEq] at h
          obtain ⟨hp, rfl⟩ := h
          exact ⟨ck, sk, sig, h1, h2, h3, hp.symm⟩

theorem build_client_final_message_some (env : Env) (s s' : fe_scram_state) (out : Bytes)
    (h : build_client_final_message env s = (some out, s')) :
    ∃ buf s1 proof encoded,
      client_final_cbind env s = (some buf, s1)
      ∧ calculate_client_proof env
          { s1 with
            client_final_message_without_proof :=
              some (cstr (buf ++ str ",r=" ++ cstr (s1.nonce.getD []))) }
          (cstr (buf ++ str ",r=" ++ cstr (s1.nonce.getD []))) = (some proof, s')
      ∧ env.pg_b64_encode (proof.take s'.key_length) (env.pg_b64_enc_len s'.key_length)
          = some encoded
      ∧ out = cstr (buf ++ str ",r=" ++ cstr (s1.nonce.getD []) ++ str ",p=" ++ encoded) := by
  unfold build_client_final_message at h
  split at h
  · simp at h
  · rename_i buf s1 h1
    dsimp only at h
    split at h
    · simp at h
    · split at h
      · simp at h
      · split at h
        · simp at h
        · split at h
          · simp at h
          · rename_i proof s2 h2
            simp only [Option.getD_some] at h2
            split at h
            · simp at h
            · split at h
              · simp at h
              · rename_i encoded h3
                split at h
                · simp at h
                · simp only [Prod.mk.injEq, Option.some.injEq] at h
                  obtain ⟨ho, rfl⟩ := h
                  exact ⟨buf, s1, proof, encoded, h1, h2, h3, ho.symm⟩

theorem scram_exchange_nonce_sent_continue (env : Env) (s : fe_scram_state) (final : Bool)
    (input : Bytes) (inputlen : Int) (hstate : s.state = .FE_SCRAM_NONCE_SENT)
    (hcont : (scram_exchange env s final input inputlen).status = .SASL_CONTINUE) :
    ∃ s1 s2 out, read_server_first_message env s input = (true, s1)
      ∧ build_client_final_message env s1 = (some out, s2)
      ∧ scram_exchange env s final input inputlen
          = ⟨.SASL_CONTINUE, some out, strlen out, { s2 with state := .FE_SCRAM_PROOF_SENT }⟩
      ∧ inputlen = (strlen input : Int) := by
  unfold scram_exchange at hcont ⊢
  split at hcont
  · simp at hcont
  · split at hcont
    · simp at hcont
    · rename_i h1 h2
      rw [if_neg h1, if_neg h2]
      have hl : inputlen = (strlen input : Int) := by
        by_contra hne
        exact h2 ⟨by rw [hstate]; decide, hne⟩
      simp only [hstate] at hcont ⊢
      split at hcont
      · simp at hcont
      · rename_i s1 hr
        split at hcont
        · simp at hcont
        · rename_i out s2 hb
          exact ⟨s1, s2, out, hr, hb, rfl, hl⟩

/-! ### The client proof -/

theorem zipWith_xor_length (a b : Bytes) (h : a.length = b.length) :
    (List.zipWith Nat.xor a b).length = a.length := by
  simp [List.length_zipWith, h]

theorem zipWith_xor_cancel : ∀ (a b : Bytes), a.length = b.length →
    List.zipWith Nat.xor b (List.zipWith Nat.xor a b) = a
  | [], [], _ => rfl
  | [], _ :: _, h => by simp at h
  | _ :: _, [], h => by simp at h
  | x :: xs, y :: ys, h => by
    have ih := zipWith_xor_cancel xs ys (by simpa using h)
    simp only [List.zipWith_cons_cons, ih, List.cons.injEq, and_true]
    show y ^^^ (x ^^^ y) = x
    rw [Nat.xor_comm x y, Nat.xor_cancel_left]

theorem take_of_length_eq (a : Bytes) (n : Nat) (h : a.length = n) : a.take n = a := by
  rw [← h]; exact List.take_length _

/-- C5: when a call of `scram_exchange` on a session in state NONCE_SENT returns
`SASL_CONTINUE`, the 32 bytes it base64-encodes after ",p=" are ClientKey XOR
HMAC-SHA-256(SHA-256(ClientKey), AuthMessage), byte by byte, so that
ClientSignature XOR ClientProof = ClientKey.  AuthMessage is the stored
client-first-bare, ",", the server-first message as it was received (the copy
kept in the session, equal to the whole input), ",", and the stored
client-final-without-proof.  ClientKey is the pre-computed key of the connection
when there is one, otherwise HMAC(PBKDF2(password, salt, iterations, 32),
"Client Key") for the salt and iteration count read from the message. -/
theorem scram_exchange_client_proof (env : Env) (s : fe_scram_state) (final : Bool)
    (input : Bytes) (inputlen : Int)
    (hstate : s.state = .FE_SCRAM_NONCE_SENT) (hkl : s.key_length = 32)
    (hsized : env.digest_sized)
    (hck : ∀ key, s.conn.scram_client_key_binary = some key → key.length = 32)
    (hcont : (scram_exchange env s final input inputlen).status = .SASL_CONTINUE) :
    ∃ ClientKey StoredKey ClientSignature ClientProof buf encoded,
      (scram_exchange env s final input inputlen).state.server_first_message
        = some (cstr input)
      ∧ ((cstr input).length : Int) = inputlen
      ∧ (scram_exchange env s final input inputlen).state.client_final_message_without_proof
        = some (cstr buf)
      ∧ (scram_exchange env s final input inputlen).state.client_first_message_bare
        = s.client_first_message_bare
      ∧ (match s.conn.scram_client_key_binary with
          | some key => ClientKey = key
          | none =>
            ∃ salt SaltedPassword,
              (scram_exchange env s final input inputlen).state.salt = some salt
              ∧ env.pbkdf2_hmac_sha256 s.password salt
                  (scram_exchange env s final input inputlen).state.iterations 32
                  = some SaltedPassword
              ∧ env.hmac_sha256 SaltedPassword (str "Client Key") = some ClientKey)
      ∧ env.sha256 ClientKey = some StoredKey
      ∧ env.hmac_sha256 StoredKey
          (cstr (s.client_first_message_bare.getD []) ++ str "," ++ cstr input ++ str ","
            ++ cstr buf) = some ClientSignature
      ∧ ClientProof = List.zipWith Nat.xor ClientKey ClientSignature
      ∧ ClientProof.length = 32
      ∧ List.zipWith Nat.xor ClientSignature ClientProof = ClientKey
      ∧ env.pg_b64_encode ClientProof (env.pg_b64_enc_len 32) = some encoded
      ∧ (scram_exchange env s final input inputlen).output
        = some (cstr (buf ++ str ",p=" ++ encoded)) := by
  obtain ⟨s1, s2, out, hr, hb, hex, hl⟩ :=
    scram_exchange_nonce_sent_continue env s final input inputlen hstate hcont
  obtain ⟨hsfm, -, ⟨salt, hsalt, hsaltlen⟩, -⟩ := read_server_first_message_true env s s1 input hr
  have hrf := read_server_first_message_frame env s input
  rw [hr] at hrf
  obtain ⟨-, rf2, -, -, rf5, -, -⟩ := hrf
  obtain ⟨rp, -, rk, -, -, rck, -⟩ := fixed_part_eq rf2
  obtain ⟨buf0, s1', proof, encoded, hcb, hcalc, henc, hout⟩ :=
    build_client_final_message_some env s1 s2 out hb
  have hcf := client_final_cbind_frame env s1
  rw [hcb] at hcf
  obtain ⟨-, cf2, -, -, cf5, cf6, -, -, cf9, cf10, cf11⟩ := hcf
  dsimp only at cf2 cf5 cf6 cf9 cf10 cf11
  obtain ⟨cp, -, ck3, -, -, cck, -⟩ := fixed_part_eq cf2
  obtain ⟨ck, sk, sig, hckey, hH, hhmac, hproof⟩ :=
    calculate_client_proof_some env _ s2 _ proof hcalc
  have hkf := client_proof_ClientKey_frame env
    { s1' with
      client_final_message_without_proof :=
        some (cstr (buf0 ++ str ",r=" ++ cstr (s1'.nonce.getD []))) }
  rw [hckey] at hkf
  obtain ⟨-, kf2, -, -, kf5, kf6, kf7, -, -⟩ := hkf
  dsimp only at kf2 kf5 kf6 kf7
  have hk2 : s2.key_length = 32 := by
    have := (fixed_part_eq kf2).2.2.1
    dsimp only at this
    rw [this, ck3, rk, hkl]
  rw [hk2] at hH hhmac hproof henc
  have hsklen : sk.length = 32 := hsized.2.1 _ _ hH
  have hsiglen : sig.length = 32 := hsized.1 _ _ _ hhmac
  have hauth : auth_message s2 (cstr (buf0 ++ str ",r=" ++ cstr (s1'.nonce.getD [])))
      = cstr (s.client_first_message_bare.getD []) ++ str "," ++ cstr input ++ str ","
        ++ cstr (buf0 ++ str ",r=" ++ cstr (s1'.nonce.getD [])) := by
    unfold auth_message
    rw [kf5, kf6, cf5, cf6, rf5, hsfm, cstr_cstr]
    simp only [Option.getD_some, cstr_cstr]
  rw [hauth, take_of_length_eq sk 32 hsklen] at hhmac
  have hcklen_and : ck.length = 32 ∧
      (match s.conn.scram_client_key_binary with
        | some key => ck = key
        | none =>
          ∃ salt SaltedPassword, s2.salt = some salt
            ∧ env.pbkdf2_hmac_sha256 s.password salt s2.iterations 32 = some SaltedPassword
            ∧ env.hmac_sha256 SaltedPassword (str "Client Key") = some ck) := by
    rcases client_proof_ClientKey_some env _ s2 ck hckey with
      ⟨key, hkey, hck1, -⟩ | ⟨hnone, salted, hsp, hs2, hckd⟩
    · dsimp only at hkey
      rw [cck, rck] at hkey
      have hlen := hck key hkey
      have : ck = key := by
        rw [hck1]; exact take_of_length_eq key _ hlen
      rw [hkey]
      exact ⟨this ▸ hlen, this⟩
    · dsimp only at hnone hsp hckd
      rw [cck, rck] at hnone
      rw [hnone]
      unfold scram_SaltedPassword at hsp
      rw [ck3, rk, hkl, cp, rp, cf9, cf10, cf11, hsalt, hsaltlen] at hsp
      simp only [Option.getD_some, Int.toNat_ofNat, List.take_length] at hsp
      have hsl : salted.length = 32 := hsized.2.2 _ _ _ _ hsp
      unfold scram_ClientKey at hckd
      rw [ck3, rk, hkl] at hckd
      have ht : (overwrite s1'.SaltedPassword salted).take 32 = salted := by
        have := overwrite_take s1'.SaltedPassword salted
        rwa [hsl] at this
      rw [ht] at hckd
      refine ⟨hsized.1 _ _ _ hckd, salt, salted, ?_, ?_, hckd⟩
      · rw [hs2]; exact cf9.trans hsalt
      · rw [hs2]; dsimp only; rw [cf11]; exact hsp
  obtain ⟨hcklen, hckdef⟩ := hcklen_and
  rw [take_of_length_eq ck 32 hcklen, take_of_length_eq sig 32 hsiglen] at hproof
  unfold scram_H at hH
  rw [take_of_length_eq ck 32 hcklen] at hH
  have hplen : proof.length = 32 := by
    rw [hproof, zipWith_xor_length ck sig (hcklen.trans hsiglen.symm)]; exact hcklen
  rw [take_of_length_eq proof 32 hplen] at henc
  rw [hex]
  refine ⟨ck, sk, sig, proof, buf0 ++ str ",r=" ++ cstr (s1'.nonce.getD []), encoded,
    ?_, ?_, ?_, ?_, hckdef, hH, hhmac, hproof, hplen, ?_, henc, ?_⟩
  · exact kf6.trans (cf6.trans hsfm)
  · rw [hl]; rfl
  · exact kf7
  · exact kf5.trans (cf5.trans rf5)
  · rw [hproof]; exact zipWith_xor_cancel ck sig (hcklen.trans hsiglen.symm)
  · rw [hout]

theorem exampleEnv_digest_sized : exampleEnv.digest_sized := by
  refine ⟨?_, ?_, ?_⟩
  · intro key msg r h
    simp only [exampleEnv, example_digest, Option.some.injEq] at h
    rw [← h]; simp
  · intro msg r h
    simp only [exampleEnv, example_digest, Option.some.injEq] at h
    rw [← h]; simp
  · intro password salt iterations r h
    simp only [exampleEnv, Option.some.injEq] at h
    rw [← h]; simp

theorem scram_exchange_client_proof_witness :
    exampleNonceSent.state = .FE_SCRAM_NONCE_SENT
    ∧ (scram_exchange exampleEnv exampleNonceSent false exampleServerFirst 43).status
        = .SASL_CONTINUE
    ∧ ∃ ClientKey ClientSignature ClientProof buf encoded,
        ClientProof = List.zipWith Nat.xor ClientKey ClientSignature
        ∧ List.zipWith Nat.xor ClientSignature ClientProof = ClientKey
        ∧ exampleEnv.pg_b64_encode ClientProof (exampleEnv.pg_b64_enc_len 32) = some encoded
        ∧ (scram_exchange exampleEnv exampleNonceSent false exampleServerFirst 43).output
            = some (cstr (buf ++ str ",p=" ++ encoded)) := by
  refine ⟨by decide!, by decide!, ?_⟩
  have hnone : exampleNonceSent.conn.scram_client_key_binary = none := by decide!
  obtain ⟨ck, sk, sig, proof, buf, enc, -, -, -, -, -, -, -, h8, -, h10, h11, h12⟩ :=
    scram_exchange_client_proof exampleEnv exampleNonceSent false exampleServerFirst 43
      (by decide!) (by decide!) exampleEnv_digest_sized
      (fun key h => by rw [hnone] at h; cases h) (by decide!)
  exact ⟨ck, sig, proof, buf, enc, h8, h10, h11, h12⟩

/-! ### Invariants of the sessions a caller can hold -/

theorem scram_init_inv (env : Env) (conn : PGconn) (password : Option Bytes)
    (sasl_mechanism : Bytes) (s : fe_scram_state)
    (h : scram_init env conn password sasl_mechanism = some s) :
    s.state = .FE_SCRAM_INIT ∧ s.nonce = none ∧ s.key_length = 32
    ∧ s.SaltedPassword = List.replicate 32 0 ∧ s.conn = conn := by
  unfold scram_init at h
  dsimp only at h
  repeat' split at h
  all_goals first
    | (simp at h; done)
    | skip
  all_goals
    simp only [Option.some.injEq] at h
    subst h
    exact ⟨rfl, rfl, rfl, rfl, rfl⟩

theorem build_client_first_message_client_nonce (env : Env) (s s' : fe_scram_state)
    (out : Bytes) (h : build_client_first_message env s = (some out, s')) :
    ∃ c, s'.client_nonce = some c ∧ 0 ∉ c := by
  unfold build_client_first_message at h
  dsimp only at h
  repeat' split at h
  all_goals first
    | (simp at h; done)
    | skip
  simp only [Prod.mk.injEq, Option.some.injEq] at h
  obtain ⟨-, rfl⟩ := h
  exact ⟨_, rfl, zero_not_mem_cstr _⟩

theorem read_server_first_message_nonce_cases (env : Env) (s : fe_scram_state)
    (input : Bytes) (n : Bytes)
    (h : (read_server_first_message env s input).2.nonce = some n) :
    s.nonce = some n ∨ cstr (s.client_nonce.getD []) <+: n := by
  unfold read_server_first_message at h
  dsimp only at h
  repeat' split at h
  all_goals first
    | exact Or.inl h
    | (simp [conn_error] at h; done)
    | skip
  all_goals
    have hm := ‹¬ nonce_mismatch _ _ = true›
    rw [Bool.not_eq_true, nonce_mismatch_iff] at hm
    simp only [conn_error, Option.some.injEq] at h
    subst h
    exact Or.inr hm

theorem client_proof_ClientKey_salted (env : Env) (s : fe_scram_state) :
    (client_proof_ClientKey env s).2.SaltedPassword = s.SaltedPassword
    ∨ s.conn.scram_client_key_binary = none := by
  unfold client_proof_ClientKey
  split
  · exact Or.inl rfl
  · rename_i h; exact Or.inr h

theorem calculate_client_proof_salted (env : Env) (s : fe_scram_state) (m : Bytes) :
    (calculate_client_proof env s m).2.SaltedPassword = s.SaltedPassword
    ∨ s.conn.scram_client_key_binary = none := by
  rcases client_proof_ClientKey_salted env s with h | h
  · left
    unfold calculate_client_proof
    split
    · rfl
    · split
      · rename_i h1; rw [h1] at h; exact h
      · rename_i h1; rw [h1] at h
        repeat' split
        all_goals exact h
  · exact Or.inr h

theorem build_client_final_message_salted (env : Env) (s : fe_scram_state) :
    (build_client_final_message env s).2.SaltedPassword = s.SaltedPassword
    ∨ s.conn.scram_client_key_binary = none := by
  obtain ⟨-, c2, -, -, -, -, -, c8, -⟩ := client_final_cbind_frame env s
  have ck := (fixed_part_eq c2).2.2.2.2.2.1
  by_cases hkey : s.conn.scram_client_key_binary = none
  · exact Or.inr hkey
  left
  unfold build_client_final_message
  split
  · rename_i h1; rw [h1] at c8; exact c8
  · rename_i buf s1 h1; rw [h1] at c8 ck
    dsimp only at c8 ck ⊢
    have hcalc := calculate_client_proof_salted env
      { s1 with
        client_final_message_without_proof := some (cstr (buf ++ str ",r="
          ++ cstr (s1.nonce.getD []))) }
      (cstr (buf ++ str ",r=" ++ cstr (s1.nonce.getD [])))
    have hcalc' := hcalc.resolve_right (by dsimp only; rw [ck]; exact hkey)
    dsimp only at hcalc'
    split
    · exact c8
    · split
      · exact c8
      · split
        · exact c8
        · simp only [Option.getD_some]
          split
          · rename_i h2; rw [h2] at hcalc'; exact hcalc'.trans c8
          · rename_i h2; rw [h2] at hcalc'
            repeat' split
            all_goals exact hcalc'.trans c8

/-- What one call of `scram_exchange` can change in a session. -/
theorem scram_exchange_frame (env : Env) (s : fe_scram_state) (final : Bool) (input : Bytes)
    (inputlen : Int) :
    fixed_part (scram_exchange env s final input inputlen).state = fixed_part s
    ∧ ((scram_exchange env s final input inputlen).state.SaltedPassword = s.SaltedPassword
        ∨ s.conn.scram_client_key_binary = none)
    ∧ (s.state ≠ .FE_SCRAM_INIT →
        (scram_exchange env s final input inputlen).state.client_nonce = s.client_nonce)
    ∧ (∀ n, (scram_exchange env s final input inputlen).state.nonce = some n →
        s.nonce = some n
        ∨ (s.state = .FE_SCRAM_NONCE_SENT ∧ cstr (s.client_nonce.getD []) <+: n))
    ∧ (s.state ≠ .FE_SCRAM_NONCE_SENT →
        (scram_exchange env s final input inputlen).state.nonce = s.nonce)
    ∧ ((scram_exchange env s final input inputlen).state.state = s.state
        ∨ (s.state = .FE_SCRAM_INIT
          ∧ (scram_exchange env s final input inputlen).state.state = .FE_SCRAM_NONCE_SENT
          ∧ ∃ c, (scram_exchange env s final input inputlen).state.client_nonce = some c
              ∧ 0 ∉ c)
        ∨ (s.state = .FE_SCRAM_NONCE_SENT
          ∧ (scram_exchange env s final input inputlen).state.state = .FE_SCRAM_PROOF_SENT
          ∧ ∃ n, (scram_exchange env s final input inputlen).state.nonce = some n)
        ∨ (s.state = .FE_SCRAM_PROOF_SENT
          ∧ (scram_exchange env s final input inputlen).state.state
              = .FE_SCRAM_FINISHED)) := by
  unfold scram_exchange
  split
  · exact ⟨rfl, Or.inl rfl, fun _ => rfl, fun n h => Or.inl h, fun _ => rfl, Or.inl rfl⟩
  · split
    · exact ⟨rfl, Or.inl rfl, fun _ => rfl, fun n h => Or.inl h, fun _ => rfl, Or.inl rfl⟩
    · split
      · rename_i hst
        have hf := build_client_first_message_frame env s
        split
        · rename_i s1 h1
          rw [h1] at hf
          obtain ⟨f1, f2, f3, f4, -⟩ := hf
          exact ⟨f2, Or.inl f3, fun h => absurd hst h, fun n h => Or.inl (f4 ▸ h), fun _ => f4,
            Or.inl f1⟩
        · rename_i out s1 h1
          have hc := build_client_first_message_client_nonce env s s1 out h1
          rw [h1] at hf
          obtain ⟨f1, f2, f3, f4, -⟩ := hf
          exact ⟨f2, Or.inl f3, fun h => absurd hst h, fun n h => Or.inl (f4 ▸ h), fun _ => f4,
            Or.inr (Or.inl ⟨hst, rfl, hc⟩)⟩
      · rename_i hst
        have hf := read_server_first_message_frame env s input
        have hn := read_server_first_message_nonce_cases env s input
        split
        · rename_i s1 h1
          rw [h1] at hf hn
          obtain ⟨f1, f2, f3, f4, -⟩ := hf
          refine ⟨f2, Or.inl f3, fun _ => f4, fun n h => ?_,
            fun h => absurd hst h, Or.inl f1⟩
          rcases hn n h with h' | h'
          · exact Or.inl h'
          · exact Or.inr ⟨hst, h'⟩
        · rename_i s1 h1
          have ht := read_server_first_message_true env s s1 input h1
          rw [h1] at hf hn
          obtain ⟨f1, f2, f3, f4, -⟩ := hf
          dsimp only at f1 f2 f3 f4 hn
          have hg := build_client_final_message_frame env s1
          have hs := build_client_final_message_salted env s1
          have key1 : s1.conn.scram_client_key_binary = s.conn.scram_client_key_binary :=
            (fixed_part_eq f2).2.2.2.2.2.1
          have hsalt : ∀ s2, (build_client_final_message env s1).2 = s2 →
              s2.SaltedPassword = s.SaltedPassword ∨ s.conn.scram_client_key_binary = none := by
            intro s2 h2
            rw [h2] at hs
            rcases hs with hs | hs
            · exact Or.inl (hs.trans f3)
            · exact Or.inr (key1 ▸ hs)
          have hnonce : ∀ (s2 : fe_scram_state) (n : Bytes), s2.nonce = s1.nonce →
              s2.nonce = some n →
              s.nonce = some n
              ∨ (s.state = .FE_SCRAM_NONCE_SENT ∧ cstr (s.client_nonce.getD []) <+: n) := by
            intro s2 n h2 h3
            rcases hn n (h2 ▸ h3) with h' | h'
            · exact Or.inl h'
            · exact Or.inr ⟨hst, h'⟩
          split
          · rename_i s2 h2
            rw [h2] at hg
            obtain ⟨g1, g2, g3, g4, -⟩ := hg
            exact ⟨g2.trans f2, hsalt s2 (by rw [h2]), fun _ => g3.trans f4,
              fun n h => hnonce s2 n g4 h, fun h => absurd hst h, Or.inl (g1.trans f1)⟩
          · rename_i out s2 h2
            rw [h2] at hg
            obtain ⟨g1, g2, g3, g4, -⟩ := hg
            obtain ⟨-, ⟨n, hn1, -⟩, -⟩ := ht
            exact ⟨g2.trans f2, hsalt s2 (by rw [h2]), fun _ => g3.trans f4,
              fun n h => hnonce s2 n g4 h, fun h => absurd hst h,
              Or.inr (Or.inr (Or.inl ⟨hst, rfl, n, g4.trans hn1⟩))⟩
      · rename_i hst
        have hf := read_server_final_message_frame env s input
        split
        · rename_i s1 h1
          rw [h1] at hf
          obtain ⟨f1, f2, f3, f4, f5, -⟩ := hf
          exact ⟨f2, Or.inl f3, fun _ => f4, fun n h => Or.inl (f5 ▸ h), fun _ => f5,
            Or.inl f1⟩
        · rename_i s1 h1
          rw [h1] at hf
          obtain ⟨f1, f2, f3, f4, f5, -⟩ := hf
          split
          · exact ⟨f2, Or.inl f3, fun _ => f4, fun n h => Or.inl (f5 ▸ h), fun _ => f5,
              Or.inl f1⟩
          · rename_i matched h2
            cases matched
            · exact ⟨f2, Or.inl f3, fun _ => f4, fun n h => Or.inl (f5 ▸ h), fun _ => f5,
                Or.inr (Or.inr (Or.inr ⟨hst, rfl⟩))⟩
            · exact ⟨f2, Or.inl f3, fun _ => f4, fun n h => Or.inl (f5 ▸ h), fun _ => f5,
                Or.inr (Or.inr (Or.inr ⟨hst, rfl⟩))⟩
      · exact ⟨rfl, Or.inl rfl, fun _ => rfl, fun n h => Or.inl h, fun _ => rfl, Or.inl rfl⟩

theorem scram_exchange_inv (env : Env) (s : fe_scram_state) (final : Bool) (input : Bytes)
    (inputlen : Int) (h : session_inv s) :
    session_inv (scram_exchange env s final input inputlen).state := by
  obtain ⟨i1, i2, i3, i4, i5, i6⟩ := h
  obtain ⟨a, c, d, e, g, f⟩ := scram_exchange_frame env s final input inputlen
  obtain ⟨-, -, a3, -, -, a6, -⟩ := fixed_part_eq a
  have hcn : ∀ n, (scram_exchange env s final input inputlen).state.nonce = some n →
      ∃ c, (scram_exchange env s final input inputlen).state.client_nonce = some c
        ∧ c <+: n := by
    intro n hn
    rcases e n hn with h1 | ⟨h1, h2⟩
    · have hst : s.state ≠ .FE_SCRAM_INIT := by
        intro h0
        rw [i2 h0] at h1
        exact absurd h1 (by simp)
      obtain ⟨c0, hc0, hp⟩ := i4 n h1
      exact ⟨c0, (d hst).trans hc0, hp⟩
    · have hst : s.state ≠ .FE_SCRAM_INIT := by rw [h1]; decide
      obtain ⟨c0, hc0, hz⟩ := i3 hst
      rw [hc0] at h2
      simp only [Option.getD_some] at h2
      rw [cstr_of_not_mem c0 hz] at h2
      exact ⟨c0, (d hst).trans hc0, h2⟩
  refine ⟨a3.trans i1, ?_, ?_, hcn, ?_, ?_⟩
  · intro h0
    rcases f with f | ⟨-, f, -⟩ | ⟨-, f, -⟩ | ⟨-, f⟩
    · have hs0 : s.state = .FE_SCRAM_INIT := f ▸ h0
      rw [g (by rw [hs0]; decide)]
      exact i2 hs0
    · rw [f] at h0; exact absurd h0 (by decide)
    · rw [f] at h0; exact absurd h0 (by decide)
    · rw [f] at h0; exact absurd h0 (by decide)
  · intro h0
    rcases f with f | ⟨-, -, f⟩ | ⟨f, -⟩ | ⟨f, -⟩
    · have hst : s.state ≠ .FE_SCRAM_INIT := f ▸ h0
      obtain ⟨c0, hc0, hz⟩ := i3 hst
      exact ⟨c0, (d hst).trans hc0, hz⟩
    · exact f
    · have hst : s.state ≠ .FE_SCRAM_INIT := by rw [f]; decide
      obtain ⟨c0, hc0, hz⟩ := i3 hst
      exact ⟨c0, (d hst).trans hc0, hz⟩
    · have hst : s.state ≠ .FE_SCRAM_INIT := by rw [f]; decide
      obtain ⟨c0, hc0, hz⟩ := i3 hst
      exact ⟨c0, (d hst).trans hc0, hz⟩
  · intro h0
    rcases f with f | ⟨-, f, -⟩ | ⟨-, -, f⟩ | ⟨f, -⟩
    · rw [f] at h0
      obtain ⟨n, hn⟩ := i5 h0
      have hst : s.state ≠ .FE_SCRAM_NONCE_SENT := by
        rcases h0 with h0 | h0 <;> rw [h0] <;> decide
      exact ⟨n, (g hst).trans hn⟩
    · rw [f] at h0; rcases h0 with h0 | h0 <;> exact absurd h0 (by decide)
    · exact f
    · obtain ⟨n, hn⟩ := i5 (Or.inl f)
      exact ⟨n, (g (by rw [f]; decide)).trans hn⟩
  · intro h0
    rw [a6] at h0
    rcases c with c | c
    · rw [c]; exact i6 h0
    · exact absurd c h0

theorem reachable_inv (s : fe_scram_state) (h : Reachable s) : session_inv s := by
  induction h with
  | init env conn password sasl_mechanism s h =>
    obtain ⟨h1, h2, h3, h4, -⟩ := scram_init_inv env conn password sasl_mechanism s h
    refine ⟨h3, fun _ => h2, fun h => absurd h1 h, ?_, ?_, fun _ => h4⟩
    · intro n hn; rw [h2] at hn; exact absurd hn (by simp)
    · intro h0; rw [h1] at h0; rcases h0 with h0 | h0 <;> exact absurd h0 (by decide)
  | step env s final input inputlen _ ih => exact scram_exchange_inv env s final input inputlen ih

/-- C4, as the code has it: when a call of `scram_exchange` on a session a caller
can hold returns `SASL_COMPLETE`, the state is FINISHED and the stored server
nonce begins with the stored client nonce; it may be equal to it. -/
theorem scram_exchange_complete_nonce (env : Env) (s : fe_scram_state) (final : Bool)
    (input : Bytes) (inputlen : Int) (hreach : Reachable s)
    (hdone : (scram_exchange env s final input inputlen).status = .SASL_COMPLETE) :
    (scram_exchange env s final input inputlen).state.state = .FE_SCRAM_FINISHED
    ∧ ∃ c n, (scram_exchange env s final input inputlen).state.client_nonce = some c
        ∧ (scram_exchange env s final input inputlen).state.nonce = some n
        ∧ c <+: n := by
  have hfin : (scram_exchange env s final input inputlen).state.state = .FE_SCRAM_FINISHED := by
    rcases scram_exchange_cases env s final input inputlen with
      ⟨h1, -⟩ | ⟨h1, -⟩ | ⟨h1, -⟩ | ⟨-, h2, -⟩
    · rw [h1] at hdone; exact absurd hdone (by decide)
    · rw [h1] at hdone; exact absurd hdone (by decide)
    · rw [h1] at hdone; exact absurd hdone (by decide)
    · exact h2
  obtain ⟨-, -, -, i4, i5, -⟩ :=
    scram_exchange_inv env s final input inputlen (reachable_inv s hreach)
  obtain ⟨n, hn⟩ := i5 (Or.inr hfin)
  obtain ⟨c, hc, hp⟩ := i4 n hn
  exact ⟨hfin, c, n, hc, hn, hp⟩

/-! ### The worked sessions are sessions a caller can hold -/

theorem exampleSession_reachable (conn : PGconn) (sasl_mechanism : Bytes)
    (h : cstr sasl_mechanism = sasl_mechanism) :
    Reachable (exampleSession conn sasl_mechanism) := by
  apply Reachable.init exampleEnv conn (some (str "pencil")) sasl_mechanism
  have hp : cstr (str "pencil") = str "pencil" := by decide
  simp only [scram_init, exampleEnv, Bool.not_true, Bool.false_eq_true, ↓reduceIte, h, hp]
  rfl

theorem exampleNonceSent_reachable : Reachable exampleNonceSent :=
  Reachable.step _ _ _ _ _ (exampleSession_reachable _ _ (by decide!))

theorem exampleProofSent_reachable : Reachable exampleProofSent :=
  Reachable.step _ _ _ _ _ exampleNonceSent_reachable

theorem exampleProofSentEqual_reachable : Reachable exampleProofSentEqual :=
  Reachable.step _ _ _ _ _ exampleNonceSent_reachable

theorem exampleKeyProofSent_reachable : Reachable exampleKeyProofSent :=
  Reachable.step _ _ _ _ _
    (Reachable.step _ _ _ _ _ (exampleSession_reachable _ _ (by decide!)))

theorem scram_exchange_complete_nonce_witness :
    (scram_exchange exampleEnv exampleProofSent false exampleServerFinal 46).status
      = .SASL_COMPLETE
    ∧ (scram_exchange exampleEnv exampleProofSent false exampleServerFinal 46).state.state
      = .FE_SCRAM_FINISHED
    ∧ ∃ c n,
        (scram_exchange exampleEnv exampleProofSent false exampleServerFinal
          46).state.client_nonce = some c
        ∧ (scram_exchange exampleEnv exampleProofSent false exampleServerFinal 46).state.nonce
          = some n
        ∧ c <+: n :=
  ⟨by decide!,
    scram_exchange_complete_nonce exampleEnv exampleProofSent false exampleServerFinal 46
      exampleProofSent_reachable (by decide!)⟩

/-- C4 fails as stated: the example session, sent a server-first message whose
nonce is the client nonce with nothing appended and then the matching server
signature, completes in state FINISHED with a server nonce equal to the client
nonce, so not strictly longer. -/
theorem server_nonce_not_strictly_longer :
    scram_init exampleEnv exampleConn (some (str "pencil")) SCRAM_SHA_256_NAME
      = some (exampleSession exampleConn SCRAM_SHA_256_NAME)
    ∧ (scram_exchange exampleEnv exampleNonceSent false exampleServerFirstEqual 40).status
      = .SASL_CONTINUE
    ∧ (scram_exchange exampleEnv exampleProofSentEqual false exampleServerFinalEqual 46).status
      = .SASL_COMPLETE
    ∧ (scram_exchange exampleEnv exampleProofSentEqual false exampleServerFinalEqual
        46).state.state = .FE_SCRAM_FINISHED
    ∧ (scram_exchange exampleEnv exampleProofSentEqual false exampleServerFinalEqual
        46).state.client_nonce = some (str "AAAAAAAAAAAAAAAAAAAAAAAA")
    ∧ (scram_exchange exampleEnv exampleProofSentEqual false exampleServerFinalEqual
        46).state.nonce = some (str "AAAAAAAAAAAAAAAAAAAAAAAA") := by
  decide!

/-! ### Channel binding -/

theorem scram_channel_bound_iff (opaq : Option fe_scram_state) :
    scram_channel_bound opaq = true ↔
      ∃ t, opaq = some t ∧ t.state = .FE_SCRAM_FINISHED
        ∧ cstr t.sasl_mechanism = SCRAM_SHA_256_PLUS_NAME := by
  have hplus : cstr SCRAM_SHA_256_PLUS_NAME = SCRAM_SHA_256_PLUS_NAME := by decide
  cases opaq with
  | none => simp [scram_channel_bound]
  | some t =>
    unfold scram_channel_bound
    rw [hplus]
    by_cases h1 : t.state = .FE_SCRAM_FINISHED
    · by_cases h2 : cstr t.sasl_mechanism = SCRAM_SHA_256_PLUS_NAME
      · simp [h1, h2]
      · simp [h1, h2]
    · simp [h1]

/-- C2, as the code has it: `scram_channel_bound` returns true exactly when the
session is not `NULL`, its state is FINISHED and its mechanism is
SCRAM-SHA-256-PLUS, whether or not the server signature matched; so after a call
in state PROOF_SENT that reaches FINISHED, with a signature that matches or one
that does not, it returns true exactly for a SCRAM-SHA-256-PLUS session.  For a
`NULL` session it returns false. -/
theorem scram_channel_bound_after_exchange (env : Env) (s : fe_scram_state) (final : Bool)
    (input : Bytes) (inputlen : Int) (hstate : s.state = .FE_SCRAM_PROOF_SENT)
    (hfin : (scram_exchange env s final input inputlen).state.state = .FE_SCRAM_FINISHED) :
    (∀ opaq, scram_channel_bound opaq = true ↔
        ∃ t, opaq = some t ∧ t.state = .FE_SCRAM_FINISHED
          ∧ cstr t.sasl_mechanism = SCRAM_SHA_256_PLUS_NAME)
    ∧ scram_channel_bound none = false
    ∧ (scram_channel_bound (some (scram_exchange env s final input inputlen).state) = true
        ↔ cstr s.sasl_mechanism = SCRAM_SHA_256_PLUS_NAME)
    ∧ scram_channel_bound (some s) = false := by
  refine ⟨scram_channel_bound_iff, rfl, ?_, ?_⟩
  · obtain ⟨a, -⟩ := scram_exchange_frame env s final input inputlen
    have hm := (fixed_part_eq a).2.1
    rw [scram_channel_bound_iff]
    constructor
    · rintro ⟨t, ht, -, h3⟩
      simp only [Option.some.injEq] at ht
      rw [← ht, hm] at h3
      exact h3
    · intro h
      exact ⟨_, rfl, hfin, by rw [hm]; exact h⟩
  · unfold scram_channel_bound
    simp [hstate]

theorem scram_channel_bound_after_exchange_witness :
    examplePlusProofSent.state = .FE_SCRAM_PROOF_SENT
    ∧ (scram_exchange exampleEnv examplePlusProofSent false exampleBadServerFinal 46).status
        = .SASL_FAILED
    ∧ (scram_channel_bound
        (some (scram_exchange exampleEnv examplePlusProofSent false exampleBadServerFinal
          46).state) = true
        ↔ cstr examplePlusProofSent.sasl_mechanism = SCRAM_SHA_256_PLUS_NAME) :=
  ⟨by decide!, by decide!,
    (scram_channel_bound_after_exchange exampleEnv examplePlusProofSent false
      exampleBadServerFinal 46 (by decide!) (by decide!)).2.2.1⟩

/-- C2 fails as stated: a SCRAM-SHA-256-PLUS session in state PROOF_SENT that
receives a server-final message whose signature does not match returns
`SASL_FAILED`, ends in state FINISHED, and `scram_channel_bound` returns true. -/
theorem scram_channel_bound_after_mismatch :
    examplePlusProofSent.state = .FE_SCRAM_PROOF_SENT
    ∧ cstr examplePlusProofSent.sasl_mechanism = SCRAM_SHA_256_PLUS_NAME
    ∧ verify_server_signature exampleEnv
        (read_server_final_message exampleEnv examplePlusProofSent exampleBadServerFinal).2
        = some false
    ∧ (scram_exchange exampleEnv examplePlusProofSent false exampleBadServerFinal 46).status
        = .SASL_FAILED
    ∧ (scram_exchange exampleEnv examplePlusProofSent false exampleBadServerFinal
        46).state.state = .FE_SCRAM_FINISHED
    ∧ scram_channel_bound
        (some (scram_exchange exampleEnv examplePlusProofSent false exampleBadServerFinal
          46).state) = true := by
  decide!

/-! ### The ServerKey -/

/-- A pre-computed ServerKey is used as it is. -/
theorem verify_ServerKey_supplied (env : Env) (s : fe_scram_state) (key : Bytes)
    (hsk : s.conn.scram_server_key_binary = some key) (hlen : key.length = 32) :
    verify_ServerKey env s = some key := by
  unfold verify_ServerKey
  rw [hsk]
  exact congrArg some (take_of_length_eq key _ hlen)

/-- Without any pre-computed key, the ServerKey used after a successful
client-final message is HMAC(PBKDF2(password, salt, iterations, 32), "Server Key")
for the salt and iteration count read from the server-first message. -/
theorem verify_ServerKey_derived (env env' : Env) (s : fe_scram_state) (final : Bool)
    (input : Bytes) (inputlen : Int)
    (hstate : s.state = .FE_SCRAM_NONCE_SENT) (hkl : s.key_length = 32)
    (hsized : env.digest_sized)
    (hck : s.conn.scram_client_key_binary = none)
    (hsk : s.conn.scram_server_key_binary = none)
    (hcont : (scram_exchange env s final input inputlen).status = .SASL_CONTINUE) :
    ∃ salt SaltedPassword,
      (scram_exchange env s final input inputlen).state.salt = some salt
      ∧ env.pbkdf2_hmac_sha256 s.password salt
          (scram_exchange env s final input inputlen).state.iterations 32 = some SaltedPassword
      ∧ verify_ServerKey env' (scram_exchange env s final input inputlen).state
          = env'.hmac_sha256 SaltedPassword (str "Server Key") := by
  obtain ⟨s1, s2, out, hr, hb, hex, -⟩ :=
    scram_exchange_nonce_sent_continue env s final input inputlen hstate hcont
  obtain ⟨-, -, ⟨salt, hsalt, hsaltlen⟩, -⟩ := read_server_first_message_true env s s1 input hr
  have hrf := read_server_first_message_frame env s input
  rw [hr] at hrf
  obtain ⟨-, rf2, -⟩ := hrf
  obtain ⟨rp, -, rk, -, -, rck, rsk⟩ := fixed_part_eq rf2
  obtain ⟨buf0, s1', proof, encoded, hcb, hcalc, -, -⟩ :=
    build_client_final_message_some env s1 s2 out hb
  have hcf := client_final_cbind_frame env s1
  rw [hcb] at hcf
  obtain ⟨-, cf2, -, -, -, -, -, -, cf9, cf10, cf11⟩ := hcf
  dsimp only at cf2 cf9 cf10 cf11
  obtain ⟨cp, -, ck3, -, -, cck, csk⟩ := fixed_part_eq cf2
  obtain ⟨ck, sk, sig, hckey, -, -, -⟩ := calculate_client_proof_some env _ s2 _ proof hcalc
  rcases client_proof_ClientKey_some env _ s2 ck hckey with
    ⟨key, hkey, -, -⟩ | ⟨-, salted, hsp, hs2, -⟩
  · dsimp only at hkey
    rw [cck, rck, hck] at hkey
    exact absurd hkey (by simp)
  · dsimp only at hsp
    unfold scram_SaltedPassword at hsp
    rw [ck3, rk, hkl, cp, rp, cf9, cf10, cf11, hsalt, hsaltlen] at hsp
    simp only [Option.getD_some, Int.toNat_ofNat, List.take_length] at hsp
    have hsl : salted.length = 32 := hsized.2.2 _ _ _ _ hsp
    have ht : (overwrite s1'.SaltedPassword salted).take 32 = salted := by
      have := overwrite_take s1'.SaltedPassword salted
      rwa [hsl] at this
    refine ⟨salt, salted, ?_, ?_, ?_⟩
    · rw [hex, hs2]; exact cf9.trans hsalt
    · rw [hex, hs2]; dsimp only; rw [cf11]; exact hsp
    · rw [hex, hs2]
      unfold verify_ServerKey scram_ServerKey
      dsimp only
      rw [csk, rsk, hsk, ck3, rk, hkl]
      dsimp only
      rw [ht]

/-- C6, what the code does where the claim fails: in a session a caller can hold
whose connection has a pre-computed ClientKey and no pre-computed ServerKey, the
`SaltedPassword` array is still the 32 zero bytes of `scram_init`, and the
ServerKey of `verify_server_signature` is HMAC-SHA-256 of those zero bytes and
"Server Key", whatever the password, the salt and the iteration count. -/
theorem verify_ServerKey_client_key_only (env : Env) (s : fe_scram_state)
    (hreach : Reachable s) (hck : s.conn.scram_client_key_binary ≠ none)
    (hsk : s.conn.scram_server_key_binary = none) :
    s.SaltedPassword = List.replicate 32 0
    ∧ verify_ServerKey env s = env.hmac_sha256 (List.replicate 32 0) (str "Server Key") := by
  obtain ⟨i1, -, -, -, -, i6⟩ := reachable_inv s hreach
  refine ⟨i6 hck, ?_⟩
  unfold verify_ServerKey scram_ServerKey
  rw [hsk, i6 hck, i1]
  rfl

theorem verify_ServerKey_client_key_only_witness :
    exampleKeyProofSent.state = .FE_SCRAM_PROOF_SENT
    ∧ exampleKeyProofSent.password = some (str "pencil")
    ∧ exampleKeyProofSent.salt = some (str "ABC")
    ∧ exampleKeyProofSent.iterations = 4096
    ∧ verify_ServerKey exampleEnv exampleKeyProofSent
        = exampleEnv.hmac_sha256 (List.replicate 32 0) (str "Server Key")
    ∧ verify_ServerKey exampleEnv exampleKeyProofSent = some (List.replicate 32 192)
    ∧ (exampleEnv.pbkdf2_hmac_sha256 (some (str "pencil")) (str "ABC") 4096 32).bind
        (fun SaltedPassword => exampleEnv.hmac_sha256 SaltedPassword (str "Server Key"))
        = some (List.replicate 32 224) :=
  ⟨by decide!, by decide!, by decide!, by decide!,
    (verify_ServerKey_client_key_only exampleEnv exampleKeyProofSent
      exampleKeyProofSent_reachable (by decide!) (by decide!)).2,
    by decide!, by decide!⟩

/-! ### Bytes after the last attribute -/

/-- C10, what the code does where the claim fails: a server-first message with
",x=1" after the iteration count is accepted by `read_server_first_message`,
which only appends an error text, and `scram_exchange` answers it with a
client-final message; a server-final message with ",x=1" after the signature is
accepted by `read_server_final_message` in the same way, and `scram_exchange`
returns `SASL_COMPLETE`. -/
theorem trailing_bytes_accepted :
    (read_server_first_message exampleEnv exampleNonceSent
        (str "r=AAAAAAAAAAAAAAAAAAAAAAAAxyz,s=QUJD,i=4096,x=1")).1 = true
    ∧ (read_server_first_message exampleEnv exampleNonceSent
        (str "r=AAAAAAAAAAAAAAAAAAAAAAAAxyz,s=QUJD,i=4096,x=1")).2.conn.errorMessage
        = str "malformed SCRAM message (garbage at end of server-first-message)\n"
    ∧ (scram_exchange exampleEnv exampleNonceSent false
        (str "r=AAAAAAAAAAAAAAAAAAAAAAAAxyz,s=QUJD,i=4096,x=1") 47).status = .SASL_CONTINUE
    ∧ (scram_exchange exampleEnv exampleNonceSent false
        (str "r=AAAAAAAAAAAAAAAAAAAAAAAAxyz,s=QUJD,i=4096,x=1") 47).state.state
        = .FE_SCRAM_PROOF_SENT
    ∧ (read_server_final_message exampleEnv exampleProofSent
        (str "v=kJCQkJCQkJCQkJCQkJCQkJCQkJCQkJCQkJCQkJCQkJA=,x=1")).1 = true
    ∧ (read_server_final_message exampleEnv exampleProofSent
        (str "v=kJCQkJCQkJCQkJCQkJCQkJCQkJCQkJCQkJCQkJCQkJA=,x=1")).2.conn.errorMessage
        = str "malformed SCRAM message (garbage at end of server-final-message)\n"
    ∧ (scram_exchange exampleEnv exampleProofSent false
        (str "v=kJCQkJCQkJCQkJCQkJCQkJCQkJCQkJCQkJCQkJCQkJA=,x=1") 50).status
        = .SASL_COMPLETE := by
  decide!

/-! ### What `read_attr_value` returns -/

theorem byteAt_lt_of_ne_zero (buf : Bytes) (i : Nat) (h : byteAt buf i ≠ 0) : i < buf.length := by
  by_contra hn
  apply h
  unfold byteAt
  rw [List.getD_eq_default _ _ (Nat.le_of_not_lt hn)]

theorem drop_eq_byteAt_cons (buf : Bytes) (i : Nat) (h : i < buf.length) :
    buf.drop i = byteAt buf i :: buf.drop (i + 1) := by
  unfold byteAt
  rw [List.getD_eq_getElem _ _ h]
  exact List.drop_eq_getElem_cons h

/-- The value bytes: a stretch without NUL or comma, followed by the end of the
list, a NUL or a comma. -/
theorem value_split (l : Bytes) :
    ∃ v t, l = v ++ t ∧ (∀ b ∈ v, b ≠ 0 ∧ b ≠ ','.toNat)
      ∧ (t = [] ∨ (∃ u, t = 0 :: u) ∨ ∃ u, t = ','.toNat :: u) := by
  induction l with
  | nil => exact ⟨[], [], rfl, by simp, Or.inl rfl⟩
  | cons x xs ih =>
    by_cases hx : x ≠ 0 ∧ x ≠ ','.toNat
    · obtain ⟨v, t, h1, h2, h3⟩ := ih
      refine ⟨x :: v, t, by rw [h1]; rfl, ?_, h3⟩
      intro b hb
      rcases List.mem_cons.mp hb with rfl | hb
      · exact hx
      · exact h2 b hb
    · refine ⟨[], x :: xs, rfl, by simp, ?_⟩
      by_cases h0 : x = 0
      · exact Or.inr (Or.inl ⟨xs, by rw [h0]⟩)
      · have : x = ','.toNat := by
          by_contra h; exact hx ⟨h0, h⟩
        exact Or.inr (Or.inr ⟨xs, by rw [this]⟩)

/-- A buffer with `attr` at the cursor and "=" after it, cut at the cursor and
at the end of the value. -/
theorem attr_split (buf : Bytes) (cur attr : Nat) (hattr : attr ≠ 0)
    (h1 : byteAt buf cur = attr) (h2 : byteAt buf (cur + 1) = '='.toNat) :
    ∃ pre v t, buf = pre ++ attr :: '='.toNat :: (v ++ t) ∧ pre.length = cur
      ∧ (∀ b ∈ v, b ≠ 0 ∧ b ≠ ','.toNat)
      ∧ (t = [] ∨ (∃ u, t = 0 :: u) ∨ ∃ u, t = ','.toNat :: u) := by
  have l1 : cur < buf.length := byteAt_lt_of_ne_zero buf cur (by rw [h1]; exact hattr)
  have l2 : cur + 1 < buf.length := byteAt_lt_of_ne_zero buf (cur + 1) (by rw [h2]; decide)
  obtain ⟨v, t, hv, hclean, ht⟩ := value_split (buf.drop (cur + 1 + 1))
  refine ⟨buf.take cur, v, t, ?_, ?_, hclean, ht⟩
  · rw [← hv, ← h2, ← drop_eq_byteAt_cons buf (cur + 1) l2, ← h1,
      ← drop_eq_byteAt_cons buf cur l1, List.take_append_drop]
  · rw [List.length_take]; omega

theorem cstr_takeWhile_comma (v t : Bytes) (hv : ∀ b ∈ v, b ≠ 0 ∧ b ≠ ','.toNat)
    (ht : t = [] ∨ (∃ u, t = 0 :: u) ∨ ∃ u, t = ','.toNat :: u) :
    (cstr (v ++ t)).takeWhile (fun b => b != ','.toNat) = v := by
  have h0 : 0 ∉ v := fun h => (hv 0 h).1 rfl
  rw [cstr_append_of_not_mem v t h0]
  have hall : ∀ b ∈ v, (fun b => b != ','.toNat) b = true := by
    intro b hb
    simpa using (hv b hb).2
  rw [List.takeWhile_append_of_pos hall]
  rcases ht with rfl | ⟨u, rfl⟩ | ⟨u, rfl⟩
  · simp [cstr]
  · simp [cstr_cons_zero]
  · rw [cstr_cons_of_ne _ _ (by decide)]
    simp

/-- C16: for a buffer, a cursor and an expected letter X (not NUL),
`read_attr_value` fails exactly when the byte at the cursor is not X or the byte
after it is not "=", reporting which, and leaving buffer and cursor alone;
otherwise it returns a pointer to the value `v`, the bytes after "X=" up to the
first comma or the end of the string (so `v` has no comma and may be empty), and
either the string at the old cursor was "X=" v and the cursor now stands at its
end, or it was "X=" v "," rest and the cursor now stands at `rest`. -/
theorem read_attr_value_spec (buf : Bytes) (cur attr : Nat) (err : Bytes) (hattr : attr ≠ 0) :
    ((read_attr_value buf cur attr err).value = none ↔
        byteAt buf cur ≠ attr ∨ byteAt buf (cur + 1) ≠ '='.toNat)
    ∧ (byteAt buf cur ≠ attr →
        read_attr_value buf cur attr err
          = ⟨none, buf, cur,
              libpq_append_error err
                (str "malformed SCRAM message (attribute \"" ++ [attr] ++ str "\" expected)")⟩)
    ∧ (byteAt buf cur = attr → byteAt buf (cur + 1) ≠ '='.toNat →
        read_attr_value buf cur attr err
          = ⟨none, buf, cur,
              libpq_append_error err
                (str "malformed SCRAM message (expected character \"=\" for attribute \""
                  ++ [attr] ++ str "\")")⟩)
    ∧ (byteAt buf cur = attr → byteAt buf (cur + 1) = '='.toNat →
        ∃ v, (read_attr_value buf cur attr err).value = some (cur + 2)
          ∧ cstr ((read_attr_value buf cur attr err).buf.drop (cur + 2)) = v
          ∧ v = (cstr (buf.drop (cur + 2))).takeWhile (fun b => b != ','.toNat)
          ∧ ','.toNat ∉ v
          ∧ (read_attr_value buf cur attr err).errorMessage = err
          ∧ ((cstr (buf.drop cur) = attr :: '='.toNat :: v
              ∧ (read_attr_value buf cur attr err).input = cur + 2 + v.length
              ∧ byteAt (read_attr_value buf cur attr err).buf
                  (read_attr_value buf cur attr err).input = 0)
            ∨ ∃ rest, cstr (buf.drop cur) = attr :: '='.toNat :: (v ++ ','.toNat :: rest)
              ∧ (read_attr_value buf cur attr err).input = cur + 2 + v.length + 1
              ∧ cstr ((read_attr_value buf cur attr err).buf.drop
                  (read_attr_value buf cur attr err).input) = rest)) := by
  have hfail1 : byteAt buf cur ≠ attr →
      read_attr_value buf cur attr err
        = ⟨none, buf, cur,
            libpq_append_error err
              (str "malformed SCRAM message (attribute \"" ++ [attr] ++ str "\" expected)")⟩ := by
    intro h
    unfold read_attr_value
    simp only [h, ne_eq, not_false_eq_true, ↓reduceIte]
  have hfail2 : byteAt buf cur = attr → byteAt buf (cur + 1) ≠ '='.toNat →
      read_attr_value buf cur attr err
        = ⟨none, buf, cur,
            libpq_append_error err
              (str "malformed SCRAM message (expected character \"=\" for attribute \""
                ++ [attr] ++ str "\")")⟩ := by
    intro h1 h2
    unfold read_attr_value
    simp only [h1, h2, ne_eq, not_true_eq_false, not_false_eq_true, ↓reduceIte]
  have hok : byteAt buf cur = attr → byteAt buf (cur + 1) = '='.toNat →
      ∃ v, (read_attr_value buf cur attr err).value = some (cur + 2)
        ∧ cstr ((read_attr_value buf cur attr err).buf.drop (cur + 2)) = v
        ∧ v = (cstr (buf.drop (cur + 2))).takeWhile (fun b => b != ','.toNat)
        ∧ ','.toNat ∉ v
        ∧ (read_attr_value buf cur attr err).errorMessage = err
        ∧ ((cstr (buf.drop cur) = attr :: '='.toNat :: v
            ∧ (read_attr_value buf cur attr err).input = cur + 2 + v.length
            ∧ byteAt (read_attr_value buf cur attr err).buf
                (read_attr_value buf cur attr err).input = 0)
          ∨ ∃ rest, cstr (buf.drop cur) = attr :: '='.toNat :: (v ++ ','.toNat :: rest)
            ∧ (read_attr_value buf cur attr err).input = cur + 2 + v.length + 1
            ∧ cstr ((read_attr_value buf cur attr err).buf.drop
                (read_attr_value buf cur attr err).input) = rest) := by
    intro h1 h2
    obtain ⟨pre, v, t, rfl, rfl, hv, ht⟩ := attr_split buf cur attr hattr h1 h2
    have h0 : 0 ∉ v := fun h => (hv 0 h).1 rfl
    have hc : ','.toNat ∉ v := fun h => (hv _ h).2 rfl
    have htw : v = (cstr ((pre ++ attr :: '='.toNat :: (v ++ t)).drop (pre.length + 2))).takeWhile
        (fun b => b != ','.toNat) := by
      rw [List.drop_append]
      simp only [List.drop_succ_cons, List.drop_zero]
      exact (cstr_takeWhile_comma v t hv ht).symm
    have hold : cstr ((pre ++ attr :: '='.toNat :: (v ++ t)).drop pre.length)
        = attr :: '='.toNat :: (v ++ cstr t) := by
      have := @List.drop_append Nat pre (attr :: '='.toNat :: (v ++ t)) 0
      simp only [Nat.add_zero, List.drop_zero] at this
      rw [this, cstr_cons_of_ne _ _ hattr, cstr_cons_of_ne _ _ (by decide),
        cstr_append_of_not_mem v t h0]
    rcases ht with rfl | ⟨u, rfl⟩ | ⟨u, rfl⟩
    · rw [read_attr_value_last pre v [] attr err hv (Or.inl rfl)]
      refine ⟨v, rfl, cstr_drop_value pre v [] attr hv (Or.inl rfl), htw, hc, rfl, Or.inl ⟨?_, rfl, ?_⟩⟩
      · rw [hold]; simp [cstr]
      · dsimp only
        have := byteAt_length (pre ++ attr :: '='.toNat :: (v ++ []))
        simp only [List.length_append, List.length_cons, List.length_nil, Nat.add_zero] at this
        rw [show pre.length + 2 + v.length = pre.length + (v.length + 1 + 1) by omega]
        exact this
    · rw [read_attr_value_last pre v (0 :: u) attr err hv (Or.inr ⟨u, rfl⟩)]
      refine ⟨v, rfl, cstr_drop_value pre v (0 :: u) attr hv (Or.inr ⟨u, rfl⟩), htw, hc, rfl,
        Or.inl ⟨?_, rfl, ?_⟩⟩
      · rw [hold, cstr_cons_zero, List.append_nil]
      · dsimp only
        have e : pre ++ attr :: '='.toNat :: (v ++ 0 :: u)
            = (pre ++ attr :: '='.toNat :: v) ++ 0 :: u := by simp
        rw [e]
        have := byteAt_append_right (pre ++ attr :: '='.toNat :: v) (0 :: u) 0
        simp only [List.length_append, List.length_cons, Nat.add_zero] at this
        rw [show pre.length + 2 + v.length = pre.length + (v.length + 1 + 1) by omega, this]
        rfl
    · rw [read_attr_value_comma pre v u attr err hv]
      refine ⟨v, rfl, cstr_drop_value pre v (0 :: u) attr hv (Or.inr ⟨u, rfl⟩), htw, hc, rfl,
        Or.inr ⟨cstr u, ?_, rfl, ?_⟩⟩
      · rw [hold, cstr_cons_of_ne _ _ (by decide)]
      · dsimp only
        have e : pre ++ attr :: '='.toNat :: (v ++ 0 :: u)
            = (pre ++ attr :: '='.toNat :: v ++ [0]) ++ u := by simp
        rw [e]
        have hl : pre.length + 2 + v.length + 1
            = (pre ++ attr :: '='.toNat :: v ++ [0]).length + 0 := by
          simp only [List.length_append, List.length_cons, List.length_nil]; omega
        rw [hl, List.drop_append]
        rfl
  refine ⟨⟨?_, ?_⟩, hfail1, hfail2, hok⟩
  · intro hnone
    by_contra hcon
    rw [not_or, not_not, not_not] at hcon
    obtain ⟨v, hv, -⟩ := hok hcon.1 hcon.2
    rw [hnone] at hv
    exact absurd hv (by simp)
  · intro h
    by_cases h1 : byteAt buf cur = attr
    · rw [hfail2 h1 (h.resolve_left (not_not.mpr h1))]
    · rw [hfail1 h1]

theorem read_attr_value_spec_witness :
    (read_attr_value (str "r=abc,s=QUJD") 0 'r'.toNat []).value = some 2
    ∧ (read_attr_value (str "r=abc,s=QUJD") 0 'r'.toNat []).input = 6
    ∧ ((read_attr_value (str "r=abc,s=QUJD") 0 'r'.toNat []).value = none ↔
        byteAt (str "r=abc,s=QUJD") 0 ≠ 'r'.toNat
          ∨ byteAt (str "r=abc,s=QUJD") (0 + 1) ≠ '='.toNat) :=
  ⟨by decide!, by decide!,
    (read_attr_value_spec (str "r=abc,s=QUJD") 0 'r'.toNat [] (by decide)).1⟩

/-! ### The salt and the iteration count of the server-first message -/

theorem read_attr_value_salt_comma (n sv u err : Bytes)
    (hsv : ∀ b ∈ sv, b ≠ 0 ∧ b ≠ ','.toNat) :
    read_attr_value
        ('r'.toNat :: '='.toNat :: (n ++ 0 :: 's'.toNat :: '='.toNat :: (sv ++ ','.toNat :: u)))
        (2 + n.length + 1) 's'.toNat err
      = ⟨some (2 + n.length + 1 + 2),
          'r'.toNat :: '='.toNat :: (n ++ 0 :: 's'.toNat :: '='.toNat :: (sv ++ 0 :: u)),
          2 + n.length + 1 + 2 + sv.length + 1, err⟩ := by
  have h := read_attr_value_comma ('r'.toNat :: '='.toNat :: (n ++ [0])) sv u 's'.toNat err hsv
  have el : ('r'.toNat :: '='.toNat :: (n ++ [0])).length = 2 + n.length + 1 := by
    simp only [List.length_cons, List.length_append, List.length_nil]; omega
  rw [el] at h
  simpa using h

theorem read_attr_value_salt_last (n sv err : Bytes)
    (hsv : ∀ b ∈ sv, b ≠ 0 ∧ b ≠ ','.toNat) :
    read_attr_value
        ('r'.toNat :: '='.toNat :: (n ++ 0 :: 's'.toNat :: '='.toNat :: (sv ++ [])))
        (2 + n.length + 1) 's'.toNat err
      = ⟨some (2 + n.length + 1 + 2),
          'r'.toNat :: '='.toNat :: (n ++ 0 :: 's'.toNat :: '='.toNat :: (sv ++ [])),
          2 + n.length + 1 + 2 + sv.length, err⟩ := by
  have h := read_attr_value_last ('r'.toNat :: '='.toNat :: (n ++ [0])) sv [] 's'.toNat err hsv
    (Or.inl rfl)
  have el : ('r'.toNat :: '='.toNat :: (n ++ [0])).length = 2 + n.length + 1 := by
    simp only [List.length_cons, List.length_append, List.length_nil]; omega
  rw [el] at h
  simpa using h

theorem cstr_drop_salt (n sv t : Bytes) (hsv : ∀ b ∈ sv, b ≠ 0 ∧ b ≠ ','.toNat)
    (ht : t = [] ∨ ∃ u, t = 0 :: u) :
    cstr (List.drop (2 + n.length + 1 + 2)
      ('r'.toNat :: '='.toNat :: (n ++ 0 :: 's'.toNat :: '='.toNat :: (sv ++ t)))) = sv := by
  have h := cstr_drop_value ('r'.toNat :: '='.toNat :: (n ++ [0])) sv t 's'.toNat hsv ht
  have el : ('r'.toNat :: '='.toNat :: (n ++ [0])).length = 2 + n.length + 1 := by
    simp only [List.length_cons, List.length_append, List.length_nil]; omega
  rw [el] at h
  simpa using h

/-- On a server-first message "r=n,s=sv" followed by the end or by a comma,
acceptance needs the salt value to decode, and the decoded bytes are what the
session keeps. -/
theorem read_server_first_message_salt_decoded (env : Env) (s : fe_scram_state)
    (n sv t : Bytes) (hn : ∀ b ∈ n, b ≠ 0 ∧ b ≠ ','.toNat)
    (hsv : ∀ b ∈ sv, b ≠ 0 ∧ b ≠ ','.toNat) (ht : t = [] ∨ ∃ u, t = ','.toNat :: u) :
    (read_server_first_message env s
        ('r'.toNat :: '='.toNat :: (n ++ ','.toNat :: 's'.toNat :: '='.toNat :: (sv ++ t)))).1
      = true →
    ∃ salt, env.pg_b64_decode sv (env.pg_b64_dec_len sv.length) = some salt
      ∧ (read_server_first_message env s
          ('r'.toNat :: '='.toNat :: (n ++ ','.toNat :: 's'.toNat :: '='.toNat :: (sv ++ t)))).2.salt
        = some salt
      ∧ (read_server_first_message env s
          ('r'.toNat :: '='.toNat :: (n ++ ','.toNat :: 's'.toNat :: '='.toNat :: (sv ++ t)))).2.saltlen
        = salt.length := by
  have h0 : 0 ∉ n := fun h => (hn 0 h).1 rfl
  have hcongr : ∀ u, nonce_mismatch (n ++ 0 :: u) (s.client_nonce.getD [])
      = nonce_mismatch n (s.client_nonce.getD []) := fun u =>
    nonce_mismatch_congr (n ++ 0 :: u) n _
      ((cstr_append_zero n u h0).trans (cstr_of_not_mem n h0).symm)
  unfold read_server_first_message
  dsimp only
  split
  · intro h; simp at h
  · have hr := read_attr_value_comma [] n ('s'.toNat :: '='.toNat :: (sv ++ t)) 'r'.toNat
      s.conn.errorMessage hn
    simp only [List.nil_append, List.length_nil, Nat.zero_add] at hr
    rw [hr]
    dsimp only
    have hd : List.drop 2
        ('r'.toNat :: '='.toNat :: (n ++ 0 :: 's'.toNat :: '='.toNat :: (sv ++ t)))
        = n ++ 0 :: 's'.toNat :: '='.toNat :: (sv ++ t) := by simp
    rw [hd]
    split
    · intro h; simp at h
    · split
      · intro h; simp at h
      · rcases ht with rfl | ⟨u, rfl⟩
        · rw [read_attr_value_salt_last n sv _ hsv]
          dsimp only
          split
          · intro h; simp at h
          · rw [cstr_drop_salt n sv [] hsv (Or.inl rfl)]
            unfold strlen
            rw [cstr_drop_salt n sv [] hsv (Or.inl rfl)]
            cases hdec : env.pg_b64_decode sv (env.pg_b64_dec_len sv.length) with
            | none => intro h; simp at h
            | some salt =>
              dsimp only
              repeat' split
              all_goals exact fun _ => ⟨salt, rfl, rfl, rfl⟩
        · rw [read_attr_value_salt_comma n sv u _ hsv]
          dsimp only
          split
          · intro h; simp at h
          · rw [cstr_drop_salt n sv (0 :: u) hsv (Or.inr ⟨u, rfl⟩)]
            unfold strlen
            rw [cstr_drop_salt n sv (0 :: u) hsv (Or.inr ⟨u, rfl⟩)]
            cases hdec : env.pg_b64_decode sv (env.pg_b64_dec_len sv.length) with
            | none => intro h; simp at h
            | some salt =>
              dsimp only
              repeat' split
              all_goals exact fun _ => ⟨salt, rfl, rfl, rfl⟩

theorem read_attr_value_iterations_last (n sv tv err : Bytes)
    (htv : ∀ b ∈ tv, b ≠ 0 ∧ b ≠ ','.toNat) :
    read_attr_value
        ('r'.toNat :: '='.toNat :: (n ++ 0 :: 's'.toNat :: '='.toNat
          :: (sv ++ 0 :: 'i'.toNat :: '='.toNat :: (tv ++ []))))
        (2 + n.length + 1 + 2 + sv.length + 1) 'i'.toNat err
      = ⟨some (2 + n.length + 1 + 2 + sv.length + 1 + 2),
          'r'.toNat :: '='.toNat :: (n ++ 0 :: 's'.toNat :: '='.toNat
            :: (sv ++ 0 :: 'i'.toNat :: '='.toNat :: (tv ++ []))),
          2 + n.length + 1 + 2 + sv.length + 1 + 2 + tv.length, err⟩ := by
  have h := read_attr_value_last
    ('r'.toNat :: '='.toNat :: (n ++ 0 :: 's'.toNat :: '='.toNat :: (sv ++ [0]))) tv []
    'i'.toNat err htv (Or.inl rfl)
  have el : ('r'.toNat :: '='.toNat :: (n ++ 0 :: 's'.toNat :: '='.toNat :: (sv ++ [0]))).length
      = 2 + n.length + 1 + 2 + sv.length + 1 := by
    simp only [List.length_cons, List.length_append, List.length_nil]; omega
  rw [el] at h
  simpa using h

theorem cstr_drop_iterations (n sv tv : Bytes) (htv : ∀ b ∈ tv, b ≠ 0 ∧ b ≠ ','.toNat) :
    cstr (List.drop (2 + n.length + 1 + 2 + sv.length + 1 + 2)
      ('r'.toNat :: '='.toNat :: (n ++ 0 :: 's'.toNat :: '='.toNat
        :: (sv ++ 0 :: 'i'.toNat :: '='.toNat :: (tv ++ []))))) = tv := by
  have h := cstr_drop_value
    ('r'.toNat :: '='.toNat :: (n ++ 0 :: 's'.toNat :: '='.toNat :: (sv ++ [0]))) tv []
    'i'.toNat htv (Or.inl rfl)
  have el : ('r'.toNat :: '='.toNat :: (n ++ 0 :: 's'.toNat :: '='.toNat :: (sv ++ [0]))).length
      = 2 + n.length + 1 + 2 + sv.length + 1 := by
    simp only [List.length_cons, List.length_append, List.length_nil]; omega
  rw [el] at h
  simpa using h

theorem byteAt_end_iterations (n sv tv : Bytes) :
    byteAt
      ('r'.toNat :: '='.toNat :: (n ++ 0 :: 's'.toNat :: '='.toNat
        :: (sv ++ 0 :: 'i'.toNat :: '='.toNat :: (tv ++ []))))
      (2 + n.length + 1 + 2 + sv.length + 1 + 2 + tv.length) = 0 := by
  have h := byteAt_length
    ('r'.toNat :: '='.toNat :: (n ++ 0 :: 's'.toNat :: '='.toNat
        :: (sv ++ 0 :: 'i'.toNat :: '='.toNat :: (tv ++ []))))
  have el : ('r'.toNat :: '='.toNat :: (n ++ 0 :: 's'.toNat :: '='.toNat
        :: (sv ++ 0 :: 'i'.toNat :: '='.toNat :: (tv ++ [])))).length
      = 2 + n.length + 1 + 2 + sv.length + 1 + 2 + tv.length := by
    simp only [List.length_cons, List.length_append, List.length_nil]; omega
  rw [el] at h
  exact h

/-- The whole of `read_server_first_message` on a message "r=n,s=sv,i=tv" with
nothing after it, when the nonce passes, the allocations succeed and the salt
decodes: the outcome is decided by what `strtol` makes of `tv`. -/
theorem read_server_first_message_iterations (env : Env) (s : fe_scram_state)
    (n sv tv salt : Bytes) (hn : ∀ b ∈ n, b ≠ 0 ∧ b ≠ ','.toNat)
    (hsv : ∀ b ∈ sv, b ≠ 0 ∧ b ≠ ','.toNat) (htv : ∀ b ∈ tv, b ≠ 0 ∧ b ≠ ','.toNat)
    (hcopy : env.alloc .sfirst_copy = true) (hdup : env.alloc .sfirst_nonce = true)
    (hsalt : env.alloc .sfirst_salt = true)
    (hok : nonce_mismatch n (s.client_nonce.getD []) = false)
    (hdec : env.pg_b64_decode sv (env.pg_b64_dec_len sv.length) = some salt) :
    read_server_first_message env s
        ('r'.toNat :: '='.toNat :: (n ++ ','.toNat :: 's'.toNat :: '='.toNat
          :: (sv ++ ','.toNat :: 'i'.toNat :: '='.toNat :: (tv ++ []))))
      = if byteAt tv (strtol tv).2 ≠ 0 ∨ long_to_int (strtol tv).1 < 1 then
          (false,
            conn_error
              { s with
                server_first_message :=
                  some (cstr ('r'.toNat :: '='.toNat :: (n ++ ','.toNat :: 's'.toNat :: '='.toNat
                    :: (sv ++ ','.toNat :: 'i'.toNat :: '='.toNat :: (tv ++ [])))))
                nonce := some n
                salt := some salt
                saltlen := salt.length
                iterations := long_to_int (strtol tv).1 }
              (str "malformed SCRAM message (invalid iteration count)"))
        else
          (true,
            { s with
              server_first_message :=
                some (cstr ('r'.toNat :: '='.toNat :: (n ++ ','.toNat :: 's'.toNat :: '='.toNat
                  :: (sv ++ ','.toNat :: 'i'.toNat :: '='.toNat :: (tv ++ [])))))
              nonce := some n
              salt := some salt
              saltlen := salt.length
              iterations := long_to_int (strtol tv).1 }) := by
  have h0 : 0 ∉ n := fun h => (hn 0 h).1 rfl
  have hok' : ∀ u, nonce_mismatch (n ++ 0 :: u) (s.client_nonce.getD []) = false := by
    intro u
    rw [nonce_mismatch_congr (n ++ 0 :: u) n _
      ((cstr_append_zero n u h0).trans (cstr_of_not_mem n h0).symm)]
    exact hok
  unfold read_server_first_message
  dsimp only
  rw [if_neg (by simp [hcopy])]
  have hr := read_attr_value_comma [] n
    ('s'.toNat :: '='.toNat :: (sv ++ ','.toNat :: 'i'.toNat :: '='.toNat :: (tv ++ [])))
    'r'.toNat s.conn.errorMessage hn
  simp only [List.nil_append, List.length_nil, Nat.zero_add] at hr
  rw [hr]
  dsimp only
  have hd : List.drop 2
      ('r'.toNat :: '='.toNat :: (n ++ 0 :: 's'.toNat :: '='.toNat
        :: (sv ++ ','.toNat :: 'i'.toNat :: '='.toNat :: (tv ++ []))))
      = n ++ 0 :: 's'.toNat :: '='.toNat
        :: (sv ++ ','.toNat :: 'i'.toNat :: '='.toNat :: (tv ++ [])) := by simp
  rw [hd, if_neg (by simp [hok' _]), if_neg (by simp [hdup]), cstr_append_zero n _ h0,
    read_attr_value_salt_comma n sv _ _ hsv]
  dsimp only
  rw [if_neg (by simp [hsalt]), cstr_drop_salt n sv _ hsv (Or.inr ⟨_, rfl⟩)]
  unfold strlen
  rw [cstr_drop_salt n sv _ hsv (Or.inr ⟨_, rfl⟩), hdec]
  dsimp only
  rw [read_attr_value_iterations_last n sv tv _ htv]
  dsimp only
  rw [cstr_drop_iterations n sv tv htv, byteAt_end_iterations n sv tv]
  split
  · rfl
  · rw [if_neg (by simp)]

/-! ### What `strtol` makes of the iteration count -/

theorem isspace_false_of_sign_digit (c : Nat)
    (h : c = '+'.toNat ∨ c = '-'.toNat ∨ isdigit c = true) : isspace c = false := by
  rcases h with rfl | rfl | h
  · decide
  · decide
  · unfold isdigit at h
    unfold isspace
    simp only [Bool.and_eq_true, decide_eq_true_eq] at h
    simp only [Bool.or_eq_false_iff, beq_eq_false_iff_ne, ne_eq, Bool.and_eq_false_iff,
      decide_eq_false_iff_not, Nat.not_le]
    omega

theorem isdigit_false_of_sign (c : Nat) (h : c = '+'.toNat ∨ c = '-'.toNat) :
    isdigit c = false := by
  rcases h with rfl | rfl <;> decide

theorem takeWhile_isspace_shape (ws l : Bytes) (hws : ∀ b ∈ ws, isspace b = true)
    (hl : ∃ c t, l = c :: t ∧ isspace c = false) :
    (ws ++ l).takeWhile isspace = ws := by
  obtain ⟨c, t, rfl, hc⟩ := hl
  rw [List.takeWhile_append_of_pos hws]
  simp [List.takeWhile_cons, hc]

theorem takeWhile_isdigit_all (ds : Bytes) (h : ∀ b ∈ ds, isdigit b = true) :
    ds.takeWhile isdigit = ds :=
  List.takeWhile_eq_self_iff.mpr h

/-- What `strtol` returns on white space, an optional sign and a run of digits. -/
theorem strtol_shape (ws sign ds : Bytes) (hws : ∀ b ∈ ws, isspace b = true)
    (hsign : sign = [] ∨ sign = str "+" ∨ sign = str "-") (hds : ds ≠ [])
    (hdig : ∀ b ∈ ds, isdigit b = true) :
    strtol (ws ++ sign ++ ds)
      = (max LONG_MIN (min LONG_MAX
            (if sign = str "-" then -(digits_value ds : Int) else (digits_value ds : Int))),
          ws.length + sign.length + ds.length) := by
  obtain ⟨d, ds', rfl⟩ := List.exists_cons_of_ne_nil hds
  have hd : isdigit d = true := hdig d (by simp)
  have hdsp : isspace d = false := isspace_false_of_sign_digit d (Or.inr (Or.inr hd))
  have hne : ((d :: ds').takeWhile isdigit).isEmpty = false := by
    rw [takeWhile_isdigit_all _ hdig]; rfl
  unfold strtol
  rcases hsign with rfl | rfl | rfl
  · have e1 : (ws ++ [] ++ d :: ds').takeWhile isspace = ws := by
      rw [List.append_nil]
      exact takeWhile_isspace_shape ws _ hws ⟨d, ds', rfl, hdsp⟩
    have e2 : (ws ++ [] ++ d :: ds').drop ws.length = d :: ds' := by
      rw [List.append_nil]; exact List.drop_left _ _
    have hdp : ¬ d = 43 := fun h => by rw [h] at hd; revert hd; decide
    have hdm : ¬ d = 45 := fun h => by rw [h] at hd; revert hd; decide
    simp only [e1, e2]
    simp [str, hdp, hdm, takeWhile_isdigit_all _ hdig, hd]
  · have e1 : (ws ++ str "+" ++ d :: ds').takeWhile isspace = ws := by
      rw [List.append_assoc]
      exact takeWhile_isspace_shape ws _ hws ⟨'+'.toNat, d :: ds', rfl, by decide⟩
    have e2 : (ws ++ str "+" ++ d :: ds').drop ws.length = '+'.toNat :: d :: ds' := by
      rw [List.append_assoc]; exact List.drop_left _ _
    simp only [e1, e2]
    simp [str, takeWhile_isdigit_all _ hdig, hd]
  · have e1 : (ws ++ str "-" ++ d :: ds').takeWhile isspace = ws := by
      rw [List.append_assoc]
      exact takeWhile_isspace_shape ws _ hws ⟨'-'.toNat, d :: ds', rfl, by decide⟩
    have e2 : (ws ++ str "-" ++ d :: ds').drop ws.length = '-'.toNat :: d :: ds' := by
      rw [List.append_assoc]; exact List.drop_left _ _
    simp only [e1, e2]
    simp [str, takeWhile_isdigit_all _ hdig, hd]

theorem drop_takeWhile_length (p : Nat → Bool) (l : Bytes) :
    l.drop (l.takeWhile p).length = l.dropWhile p := by
  have h : (l.takeWhile p ++ l.dropWhile p).drop (l.takeWhile p).length = l.dropWhile p :=
    List.drop_left _ _
  rwa [List.takeWhile_append_dropWhile] at h

theorem byteAt_append_length_zero (a rem : Bytes) (h0 : 0 ∉ a ++ rem)
    (h : byteAt (a ++ rem) a.length = 0) : rem = [] := by
  cases rem with
  | nil => rfl
  | cons x xs =>
    have := byteAt_append_right a (x :: xs) 0
    rw [Nat.add_zero, h] at this
    exact absurd (show x = 0 from this.symm) (fun e => h0 (by simp [e]))

/-- When `strtol` reads a value other than 0 and stops at the end of a string,
the string is white space, an optional sign and a run of digits. -/
theorem strtol_consumed_all (t : Bytes) (h0 : 0 ∉ t) (hend : byteAt t (strtol t).2 = 0)
    (hval : (strtol t).1 ≠ 0) :
    ∃ ws sign ds, t = ws ++ sign ++ ds ∧ (∀ b ∈ ws, isspace b = true)
      ∧ (sign = [] ∨ sign = str "+" ∨ sign = str "-") ∧ ds ≠ []
      ∧ ∀ b ∈ ds, isdigit b = true := by
  have hsplit : t = t.takeWhile isspace ++ t.dropWhile isspace :=
    (List.takeWhile_append_dropWhile isspace t).symm
  have hws : ∀ b ∈ t.takeWhile isspace, isspace b = true := fun b hb =>
    List.mem_takeWhile_imp hb
  unfold strtol at hend hval
  dsimp only at hend hval
  rw [drop_takeWhile_length] at hend hval
  rcases hrest : t.dropWhile isspace with _ | ⟨c, r⟩
  · rw [hrest] at hval
    simp at hval
  · rw [hrest] at hend hval hsplit
    by_cases hc : c = '-'.toNat ∨ c = '+'.toNat
    · have hsg : (if ((c :: r).head? == some '-'.toNat || (c :: r).head? == some '+'.toNat) = true
          then 1 else 0) = 1 := by
        rcases hc with rfl | rfl <;> simp
      rw [hsg] at hend hval
      simp only [List.drop_succ_cons, List.drop_zero] at hend hval
      by_cases hemp : (r.takeWhile isdigit).isEmpty = true
      · rw [if_pos hemp] at hval; simp at hval
      · rw [if_neg hemp] at hend
        dsimp only at hend
        have hr : r = r.takeWhile isdigit ++ r.dropWhile isdigit :=
          (List.takeWhile_append_dropWhile isdigit r).symm
        have ht : t = (t.takeWhile isspace ++ [c] ++ r.takeWhile isdigit) ++ r.dropWhile isdigit := by
          conv_lhs => rw [hsplit, hr]
          simp
        have hlen : (t.takeWhile isspace).length + 1 + (r.takeWhile isdigit).length
            = (t.takeWhile isspace ++ [c] ++ r.takeWhile isdigit).length := by
          simp only [List.length_append, List.length_cons, List.length_nil]
        rw [hlen] at hend
        have hrem : r.dropWhile isdigit = [] := by
          apply byteAt_append_length_zero (t.takeWhile isspace ++ [c] ++ r.takeWhile isdigit)
          · rw [← ht]; exact h0
          · rw [← ht]; exact hend
        rw [hrem, List.append_nil] at ht
        refine ⟨t.takeWhile isspace, [c], r.takeWhile isdigit, ht, hws, ?_, ?_, ?_⟩
        · rcases hc with rfl | rfl
          · exact Or.inr (Or.inr rfl)
          · exact Or.inr (Or.inl rfl)
        · intro h; rw [h] at hemp; exact hemp rfl
        · exact fun b hb => List.mem_takeWhile_imp hb
    · have hsg : (if ((c :: r).head? == some '-'.toNat || (c :: r).head? == some '+'.toNat) = true
          then 1 else 0) = 0 := by
        rw [not_or] at hc
        have h1 : ¬ c = 45 := hc.1
        have h2 : ¬ c = 43 := hc.2
        simp [h1, h2]
      rw [hsg] at hend hval
      simp only [List.drop_zero] at hend hval
      by_cases hemp : ((c :: r).takeWhile isdigit).isEmpty = true
      · rw [if_pos hemp] at hval; simp at hval
      · rw [if_neg hemp] at hend
        dsimp only at hend
        have hr : c :: r = (c :: r).takeWhile isdigit ++ (c :: r).dropWhile isdigit :=
          (List.takeWhile_append_dropWhile isdigit (c :: r)).symm
        have ht : t = (t.takeWhile isspace ++ [] ++ (c :: r).takeWhile isdigit)
            ++ (c :: r).dropWhile isdigit := by
          conv_lhs => rw [hsplit, hr]
          simp
        have hlen : (t.takeWhile isspace).length + 0 + ((c :: r).takeWhile isdigit).length
            = (t.takeWhile isspace ++ [] ++ (c :: r).takeWhile isdigit).length := by
          simp only [List.length_append, List.length_cons, List.length_nil]
        rw [hlen] at hend
        have hrem : (c :: r).dropWhile isdigit = [] := by
          apply byteAt_append_length_zero
            (t.takeWhile isspace ++ [] ++ (c :: r).takeWhile isdigit)
          · rw [← ht]; exact h0
          · rw [← ht]; exact hend
        rw [hrem, List.append_nil] at ht
        refine ⟨t.takeWhile isspace, [], (c :: r).takeWhile isdigit, ht, hws, Or.inl rfl, ?_, ?_⟩
        · intro h; rw [h] at hemp; exact hemp rfl
        · exact fun b hb => List.mem_takeWhile_imp hb

theorem clamp_long_of_int_range (v : Int) (h1 : -2147483648 ≤ v) (h2 : v ≤ 2147483647) :
    max LONG_MIN (min LONG_MAX v) = v := by
  have a : v ≤ LONG_MAX := by unfold LONG_MAX; norm_num; omega
  have b : LONG_MIN ≤ v := by unfold LONG_MIN; norm_num; omega
  rw [min_eq_right a, max_eq_right b]

theorem long_to_int_of_int_range (v : Int) (h1 : -2147483648 ≤ v) (h2 : v ≤ 2147483647) :
    long_to_int v = v := by
  unfold long_to_int
  norm_num
  omega

/-- The outcome of `read_server_first_message` on "r=n,s=sv,i=tv" when `tv` is
white space, an optional sign and digits whose value fits in an `int`. -/
theorem read_server_first_message_of_shape (env : Env) (s : fe_scram_state)
    (n sv ws sign ds salt : Bytes) (hn : ∀ b ∈ n, b ≠ 0 ∧ b ≠ ','.toNat)
    (hsv : ∀ b ∈ sv, b ≠ 0 ∧ b ≠ ','.toNat)
    (htv : ∀ b ∈ ws ++ sign ++ ds, b ≠ 0 ∧ b ≠ ','.toNat)
    (hcopy : env.alloc .sfirst_copy = true) (hdup : env.alloc .sfirst_nonce = true)
    (hsalt : env.alloc .sfirst_salt = true)
    (hok : nonce_mismatch n (s.client_nonce.getD []) = false)
    (hdec : env.pg_b64_decode sv (env.pg_b64_dec_len sv.length) = some salt)
    (hws : ∀ b ∈ ws, isspace b = true)
    (hsign : sign = [] ∨ sign = str "+" ∨ sign = str "-") (hds : ds ≠ [])
    (hdig : ∀ b ∈ ds, isdigit b = true) (hrange : digits_value ds ≤ 2147483647) :
    ((read_server_first_message env s
        ('r'.toNat :: '='.toNat :: (n ++ ','.toNat :: 's'.toNat :: '='.toNat
          :: (sv ++ ','.toNat :: 'i'.toNat :: '='.toNat :: (ws ++ sign ++ ds ++ []))))).1 = true
      ↔ sign ≠ str "-" ∧ 1 ≤ digits_value ds)
    ∧ ((read_server_first_message env s
        ('r'.toNat :: '='.toNat :: (n ++ ','.toNat :: 's'.toNat :: '='.toNat
          :: (sv ++ ','.toNat :: 'i'.toNat :: '='.toNat :: (ws ++ sign ++ ds ++ []))))).1 = true
      → (read_server_first_message env s
        ('r'.toNat :: '='.toNat :: (n ++ ','.toNat :: 's'.toNat :: '='.toNat
          :: (sv ++ ','.toNat :: 'i'.toNat :: '='.toNat
            :: (ws ++ sign ++ ds ++ []))))).2.iterations = digits_value ds
        ∧ (read_server_first_message env s
        ('r'.toNat :: '='.toNat :: (n ++ ','.toNat :: 's'.toNat :: '='.toNat
          :: (sv ++ ','.toNat :: 'i'.toNat :: '='.toNat
            :: (ws ++ sign ++ ds ++ []))))).2.saltlen = salt.length
        ∧ (read_server_first_message env s
        ('r'.toNat :: '='.toNat :: (n ++ ','.toNat :: 's'.toNat :: '='.toNat
          :: (sv ++ ','.toNat :: 'i'.toNat :: '='.toNat
            :: (ws ++ sign ++ ds ++ []))))).2.salt = some salt) := by
  rw [read_server_first_message_iterations env s n sv (ws ++ sign ++ ds) salt hn hsv htv hcopy
    hdup hsalt hok hdec, strtol_shape ws sign ds hws hsign hds hdig]
  dsimp only
  have hlen : ws.length + sign.length + ds.length = (ws ++ sign ++ ds).length := by
    simp only [List.length_append]
  rw [hlen, byteAt_length]
  by_cases hm : sign = str "-"
  · rw [if_pos hm]
    have hv : max LONG_MIN (min LONG_MAX (-(digits_value ds : Int))) = -(digits_value ds : Int) :=
      clamp_long_of_int_range _ (by omega) (by omega)
    rw [hv, long_to_int_of_int_range _ (by omega) (by omega)]
    have hlt : (-(digits_value ds : Int)) < 1 := by omega
    rw [if_pos (Or.inr hlt)]
    simp [hm]
  · rw [if_neg hm]
    have hv : max LONG_MIN (min LONG_MAX (digits_value ds : Int)) = (digits_value ds : Int) :=
      clamp_long_of_int_range _ (by omega) (by omega)
    rw [hv, long_to_int_of_int_range _ (by omega) (by omega)]
    by_cases h1 : 1 ≤ digits_value ds
    · have hnl : ¬ ((0 : Nat) ≠ 0 ∨ (digits_value ds : Int) < 1) := by
        rintro (h | h)
        · exact h rfl
        · omega
      rw [if_neg hnl]
      simp [hm, h1]
    · have hlt : (digits_value ds : Int) < 1 := by omega
      rw [if_pos (Or.inr hlt)]
      simp [h1]

theorem server_first_eq (n sv tv : Bytes) :
    str "r=" ++ n ++ str ",s=" ++ sv ++ str ",i=" ++ tv
      = 'r'.toNat :: '='.toNat :: (n ++ ','.toNat :: 's'.toNat :: '='.toNat
          :: (sv ++ ','.toNat :: 'i'.toNat :: '='.toNat :: (tv ++ []))) := by
  simp [str]

/-- The outcome of `read_server_first_message` on "r=n,s=sv,i=tv" when `tv` is
white space, an optional sign and digits, whatever their value: the value
`strtol` returns, converted to `int`, is stored, and the message is accepted
exactly when that `int` is at least 1. -/
theorem read_server_first_message_of_shape_any (env : Env) (s : fe_scram_state)
    (n sv ws sign ds salt : Bytes) (hn : ∀ b ∈ n, b ≠ 0 ∧ b ≠ ','.toNat)
    (hsv : ∀ b ∈ sv, b ≠ 0 ∧ b ≠ ','.toNat)
    (htv : ∀ b ∈ ws ++ sign ++ ds, b ≠ 0 ∧ b ≠ ','.toNat)
    (hcopy : env.alloc .sfirst_copy = true) (hdup : env.alloc .sfirst_nonce = true)
    (hsalt : env.alloc .sfirst_salt = true)
    (hok : nonce_mismatch n (s.client_nonce.getD []) = false)
    (hdec : env.pg_b64_decode sv (env.pg_b64_dec_len sv.length) = some salt)
    (hws : ∀ b ∈ ws, isspace b = true)
    (hsign : sign = [] ∨ sign = str "+" ∨ sign = str "-") (hds : ds ≠ [])
    (hdig : ∀ b ∈ ds, isdigit b = true) :
    ((read_server_first_message env s
        ('r'.toNat :: '='.toNat :: (n ++ ','.toNat :: 's'.toNat :: '='.toNat
          :: (sv ++ ','.toNat :: 'i'.toNat :: '='.toNat :: (ws ++ sign ++ ds ++ []))))).1 = true
      ↔ 1 ≤ long_to_int (max LONG_MIN (min LONG_MAX
            (if sign = str "-" then -(digits_value ds : Int) else (digits_value ds : Int)))))
    ∧ (read_server_first_message env s
        ('r'.toNat :: '='.toNat :: (n ++ ','.toNat :: 's'.toNat :: '='.toNat
          :: (sv ++ ','.toNat :: 'i'.toNat :: '='.toNat
            :: (ws ++ sign ++ ds ++ []))))).2.iterations
        = long_to_int (max LONG_MIN (min LONG_MAX
            (if sign = str "-" then -(digits_value ds : Int) else (digits_value ds : Int)))) := by
  rw [read_server_first_message_iterations env s n sv (ws ++ sign ++ ds) salt hn hsv htv hcopy
    hdup hsalt hok hdec, strtol_shape ws sign ds hws hsign hds hdig]
  dsimp only
  have hlen : ws.length + sign.length + ds.length = (ws ++ sign ++ ds).length := by
    simp only [List.length_append]
  rw [hlen, byteAt_length]
  by_cases h1 : 1 ≤ long_to_int (max LONG_MIN (min LONG_MAX
      (if sign = str "-" then -(digits_value ds : Int) else (digits_value ds : Int))))
  · rw [if_neg (by
      rintro (h | h)
      · exact h rfl
      · omega)]
    exact ⟨⟨fun _ => h1, fun _ => rfl⟩, rfl⟩
  · rw [if_pos (Or.inr (by omega))]
    refine ⟨⟨fun h => absurd h (by simp), fun h => absurd h h1⟩, rfl⟩

/-- C11, as the code has it: on a server-first message "r=n,s=sv,i=tv" whose
nonce passes and whose salt decodes (allocations succeeding),
`read_server_first_message` rejects every `tv` that is not optional white
space, an optional sign and at least one decimal digit with nothing after, the
text `strtol` reads in whole; for a `tv` of that shape whose digits are worth at
most 2147483647, it accepts exactly when there is no minus sign and the value
is at least 1, and the stored count is then that value; and for a `tv` of that
shape with digits of any worth, it stores the value `strtol` returns converted
from `long` to `int` and accepts exactly when that `int` is at least 1. -/
theorem read_server_first_message_iteration_count (env : Env) (s : fe_scram_state)
    (n sv tv salt : Bytes) (hn : ∀ b ∈ n, b ≠ 0 ∧ b ≠ ','.toNat)
    (hsv : ∀ b ∈ sv, b ≠ 0 ∧ b ≠ ','.toNat) (htv : ∀ b ∈ tv, b ≠ 0 ∧ b ≠ ','.toNat)
    (hcopy : env.alloc .sfirst_copy = true) (hdup : env.alloc .sfirst_nonce = true)
    (hsalt : env.alloc .sfirst_salt = true)
    (hok : nonce_mismatch n (s.client_nonce.getD []) = false)
    (hdec : env.pg_b64_decode sv (env.pg_b64_dec_len sv.length) = some salt) :
    (∀ ws sign ds, tv = ws ++ sign ++ ds → (∀ b ∈ ws, isspace b = true) →
        (sign = [] ∨ sign = str "+" ∨ sign = str "-") → ds ≠ [] →
        (∀ b ∈ ds, isdigit b = true) → digits_value ds ≤ 2147483647 →
        ((read_server_first_message env s
            (str "r=" ++ n ++ str ",s=" ++ sv ++ str ",i=" ++ tv)).1 = true
          ↔ sign ≠ str "-" ∧ 1 ≤ digits_value ds)
        ∧ ((read_server_first_message env s
            (str "r=" ++ n ++ str ",s=" ++ sv ++ str ",i=" ++ tv)).1 = true
          → (read_server_first_message env s
              (str "r=" ++ n ++ str ",s=" ++ sv ++ str ",i=" ++ tv)).2.iterations
            = digits_value ds))
    ∧ ((¬ ∃ ws sign ds, tv = ws ++ sign ++ ds ∧ (∀ b ∈ ws, isspace b = true)
          ∧ (sign = [] ∨ sign = str "+" ∨ sign = str "-") ∧ ds ≠ []
          ∧ ∀ b ∈ ds, isdigit b = true) →
        (read_server_first_message env s
          (str "r=" ++ n ++ str ",s=" ++ sv ++ str ",i=" ++ tv)).1 = false)
    ∧ (∀ ws sign ds, tv = ws ++ sign ++ ds → (∀ b ∈ ws, isspace b = true) →
        (sign = [] ∨ sign = str "+" ∨ sign = str "-") → ds ≠ [] →
        (∀ b ∈ ds, isdigit b = true) →
        ((read_server_first_message env s
            (str "r=" ++ n ++ str ",s=" ++ sv ++ str ",i=" ++ tv)).1 = true
          ↔ 1 ≤ long_to_int (max LONG_MIN (min LONG_MAX
              (if sign = str "-" then -(digits_value ds : Int) else (digits_value ds : Int)))))
        ∧ (read_server_first_message env s
            (str "r=" ++ n ++ str ",s=" ++ sv ++ str ",i=" ++ tv)).2.iterations
          = long_to_int (max LONG_MIN (min LONG_MAX
              (if sign = str "-" then -(digits_value ds : Int)
                else (digits_value ds : Int))))) := by
  rw [server_first_eq]
  refine ⟨?_, ?_, ?_⟩
  · intro ws sign ds htveq hws hsign hds hdig hrange
    subst htveq
    obtain ⟨h1, h2⟩ := read_server_first_message_of_shape env s n sv ws sign ds salt hn hsv htv
      hcopy hdup hsalt hok hdec hws hsign hds hdig hrange
    exact ⟨h1, fun h => (h2 h).1⟩
  · intro hno
    by_contra hacc
    rw [Bool.not_eq_false] at hacc
    apply hno
    rw [read_server_first_message_iterations env s n sv tv salt hn hsv htv hcopy hdup hsalt hok
      hdec] at hacc
    split at hacc
    · simp at hacc
    · rename_i hcond
      rw [not_or, not_not, not_lt] at hcond
      have h0 : 0 ∉ tv := fun h => (htv 0 h).1 rfl
      apply strtol_consumed_all tv h0 hcond.1
      intro hz
      rw [hz] at hcond
      exact absurd hcond.2 (by decide)
  · intro ws sign ds htveq hws hsign hds hdig
    subst htveq
    exact read_server_first_message_of_shape_any env s n sv ws sign ds salt hn hsv htv
      hcopy hdup hsalt hok hdec hws hsign hds hdig

theorem read_server_first_message_iteration_count_witness :
    nonce_mismatch (str "AAAAAAAAAAAAAAAAAAAAAAAAxyz") (exampleNonceSent.client_nonce.getD [])
      = false
    ∧ ((read_server_first_message exampleEnv exampleNonceSent
          (str "r=" ++ str "AAAAAAAAAAAAAAAAAAAAAAAAxyz" ++ str ",s=" ++ str "QUJD" ++ str ",i="
            ++ str "4096")).1 = true
        ↔ ([] : Bytes) ≠ str "-" ∧ 1 ≤ digits_value (str "4096"))
    ∧ (read_server_first_message exampleEnv exampleNonceSent
          (str "r=AAAAAAAAAAAAAAAAAAAAAAAAxyz,s=QUJD,i=1")).1 = true
    ∧ (read_server_first_message exampleEnv exampleNonceSent
          (str "r=AAAAAAAAAAAAAAAAAAAAAAAAxyz,s=QUJD,i=0")).1 = false
    ∧ (read_server_first_message exampleEnv exampleNonceSent
          (str "r=AAAAAAAAAAAAAAAAAAAAAAAAxyz,s=QUJD,i=-5")).1 = false
    ∧ (read_server_first_message exampleEnv exampleNonceSent
          (str "r=AAAAAAAAAAAAAAAAAAAAAAAAxyz,s=QUJD,i=")).1 = false
    ∧ (read_server_first_message exampleEnv exampleNonceSent
          (str "r=AAAAAAAAAAAAAAAAAAAAAAAAxyz,s=QUJD,i=12x")).1 = false
    ∧ (read_server_first_message exampleEnv exampleNonceSent
          (str "r=AAAAAAAAAAAAAAAAAAAAAAAAxyz,s=QUJD,i=2147483647")).2.iterations = 2147483647
    ∧ (read_server_first_message exampleEnv exampleNonceSent
          (str "r=" ++ str "AAAAAAAAAAAAAAAAAAAAAAAAxyz" ++ str ",s=" ++ str "QUJD" ++ str ",i="
            ++ str "4294967297")).2.iterations
        = long_to_int (max LONG_MIN (min LONG_MAX
            (if ([] : Bytes) = str "-" then -(digits_value (str "4294967297") : Int)
              else (digits_value (str "4294967297") : Int)))) :=
  ⟨by decide!,
    ((read_server_first_message_iteration_count exampleEnv exampleNonceSent
      (str "AAAAAAAAAAAAAAAAAAAAAAAAxyz") (str "QUJD") (str "4096") (str "ABC")
      (by decide!) (by decide!) (by decide!) (by decide!) (by decide!) (by decide!)
      (by decide!) (by decide!)).1 [] [] (str "4096") (by decide!) (by decide!) (Or.inl rfl)
      (by decide!) (by decide!) (by decide!)).1,
    by decide!, by decide!, by decide!, by decide!, by decide!, by decide!,
    ((read_server_first_message_iteration_count exampleEnv exampleNonceSent
      (str "AAAAAAAAAAAAAAAAAAAAAAAAxyz") (str "QUJD") (str "4294967297") (str "ABC")
      (by decide!) (by decide!) (by decide!) (by decide!) (by decide!) (by decide!)
      (by decide!) (by decide!)).2.2 [] [] (str "4294967297") (by decide!) (by decide!)
      (Or.inl rfl) (by decide!) (by decide!)).2⟩

/-- The narrowing from `long` to `int`, with a `long` of 64 bits: the count
"2147483648" becomes -2147483648 and is rejected, and the count "4294967297"
becomes 1 and is accepted. -/
theorem iteration_count_beyond_int :
    (read_server_first_message exampleEnv exampleNonceSent
        (str "r=AAAAAAAAAAAAAAAAAAAAAAAAxyz,s=QUJD,i=2147483648")).1 = false
    ∧ (read_server_first_message exampleEnv exampleNonceSent
        (str "r=AAAAAAAAAAAAAAAAAAAAAAAAxyz,s=QUJD,i=2147483648")).2.iterations = -2147483648
    ∧ (read_server_first_message exampleEnv exampleNonceSent
        (str "r=AAAAAAAAAAAAAAAAAAAAAAAAxyz,s=QUJD,i=4294967297")).1 = true
    ∧ (read_server_first_message exampleEnv exampleNonceSent
        (str "r=AAAAAAAAAAAAAAAAAAAAAAAAxyz,s=QUJD,i=4294967297")).2.iterations = 1 := by
  decide!

/-- C11 fails as stated: with white space and a plus sign before the digits the
iteration count " +5" is accepted, and 5 is stored. -/
theorem iteration_count_with_other_characters :
    exampleNonceSent.state = .FE_SCRAM_NONCE_SENT
    ∧ (read_server_first_message exampleEnv exampleNonceSent
        (str "r=AAAAAAAAAAAAAAAAAAAAAAAAxyz,s=QUJD,i= +5")).1 = true
    ∧ (read_server_first_message exampleEnv exampleNonceSent
        (str "r=AAAAAAAAAAAAAAAAAAAAAAAAxyz,s=QUJD,i= +5")).2.iterations = 5
    ∧ (scram_exchange exampleEnv exampleNonceSent false
        (str "r=AAAAAAAAAAAAAAAAAAAAAAAAxyz,s=QUJD,i= +5") 42).status = .SASL_CONTINUE := by
  decide!

/-- C12, as the code has it: a server-first message "r=n,s=sv" followed by the
end or a comma is accepted only if the salt value base64-decodes, and the
session then holds the decoded bytes and their number as `saltlen`; a value that
does not decode is rejected.  The length of the decoded salt is not tested: with
an iteration count of digits worth between 1 and 2147483647, a valid nonce and
allocations succeeding, the message is accepted whatever the length of the
salt, zero included. -/
theorem read_server_first_message_salt (env : Env) (s : fe_scram_state) (n sv t : Bytes)
    (hn : ∀ b ∈ n, b ≠ 0 ∧ b ≠ ','.toNat) (hsv : ∀ b ∈ sv, b ≠ 0 ∧ b ≠ ','.toNat)
    (ht : t = [] ∨ ∃ u, t = ','.toNat :: u) :
    ((read_server_first_message env s (str "r=" ++ n ++ str ",s=" ++ sv ++ t)).1 = true →
        ∃ salt, env.pg_b64_decode sv (env.pg_b64_dec_len sv.length) = some salt
          ∧ (read_server_first_message env s (str "r=" ++ n ++ str ",s=" ++ sv ++ t)).2.salt
              = some salt
          ∧ (read_server_first_message env s (str "r=" ++ n ++ str ",s=" ++ sv ++ t)).2.saltlen
              = salt.length
          ∧ 0 ≤ (read_server_first_message env s
              (str "r=" ++ n ++ str ",s=" ++ sv ++ t)).2.saltlen)
    ∧ (env.pg_b64_decode sv (env.pg_b64_dec_len sv.length) = none →
        (read_server_first_message env s (str "r=" ++ n ++ str ",s=" ++ sv ++ t)).1 = false)
    ∧ (∀ ds salt, t = str ",i=" ++ ds → ds ≠ [] → (∀ b ∈ ds, isdigit b = true) →
        1 ≤ digits_value ds → digits_value ds ≤ 2147483647 →
        env.alloc .sfirst_copy = true → env.alloc .sfirst_nonce = true →
        env.alloc .sfirst_salt = true →
        nonce_mismatch n (s.client_nonce.getD []) = false →
        env.pg_b64_decode sv (env.pg_b64_dec_len sv.length) = some salt →
        (read_server_first_message env s (str "r=" ++ n ++ str ",s=" ++ sv ++ t)).1 = true
        ∧ (read_server_first_message env s (str "r=" ++ n ++ str ",s=" ++ sv ++ t)).2.saltlen
            = salt.length) := by
  have hin : str "r=" ++ n ++ str ",s=" ++ sv ++ t
      = 'r'.toNat :: '='.toNat :: (n ++ ','.toNat :: 's'.toNat :: '='.toNat :: (sv ++ t)) := by
    simp [str]
  have hA := read_server_first_message_salt_decoded env s n sv t hn hsv ht
  rw [← hin] at hA
  refine ⟨?_, ?_, ?_⟩
  · intro h
    obtain ⟨salt, h1, h2, h3⟩ := hA h
    exact ⟨salt, h1, h2, h3, by rw [h3]; exact Int.ofNat_nonneg _⟩
  · intro hnone
    by_contra hacc
    rw [Bool.not_eq_false] at hacc
    obtain ⟨salt, h1, -⟩ := hA hacc
    rw [hnone] at h1
    exact absurd h1 (by simp)
  · intro ds salt hteq hds hdig h1 hrange hcopy hdup hsalt hok hdec
    subst hteq
    have hclean : ∀ b ∈ ([] : Bytes) ++ [] ++ ds, b ≠ 0 ∧ b ≠ ','.toNat := by
      intro b hb
      simp only [List.nil_append] at hb
      have := hdig b hb
      unfold isdigit at this
      simp only [Bool.and_eq_true, decide_eq_true_eq] at this
      constructor
      · omega
      · show b ≠ 44
        omega
    obtain ⟨k1, k2⟩ := read_server_first_message_of_shape env s n sv [] [] ds salt hn hsv hclean
      hcopy hdup hsalt hok hdec (by simp) (Or.inl rfl) hds hdig hrange
    have hm : str "r=" ++ n ++ str ",s=" ++ sv ++ (str ",i=" ++ ds)
        = 'r'.toNat :: '='.toNat :: (n ++ ','.toNat :: 's'.toNat :: '='.toNat
          :: (sv ++ ','.toNat :: 'i'.toNat :: '='.toNat :: ([] ++ [] ++ ds ++ []))) := by
      simp [str]
    rw [hm]
    have hacc := k1.mpr ⟨by decide, h1⟩
    exact ⟨hacc, (k2 hacc).2.1⟩

theorem read_server_first_message_salt_witness :
    (read_server_first_message exampleEnv exampleNonceSent
        (str "r=" ++ str "AAAAAAAAAAAAAAAAAAAAAAAAxyz" ++ str ",s=" ++ str "QUJD"
          ++ str ",i=4096")).1 = true
    ∧ ∃ salt, exampleEnv.pg_b64_decode (str "QUJD") (exampleEnv.pg_b64_dec_len 4) = some salt
        ∧ (read_server_first_message exampleEnv exampleNonceSent
            (str "r=" ++ str "AAAAAAAAAAAAAAAAAAAAAAAAxyz" ++ str ",s=" ++ str "QUJD"
              ++ str ",i=4096")).2.salt = some salt :=
  ⟨by decide!,
    let ⟨salt, h1, h2, _⟩ :=
      (read_server_first_message_salt exampleEnv exampleNonceSent
        (str "AAAAAAAAAAAAAAAAAAAAAAAAxyz") (str "QUJD") (str ",i=4096")
        (by decide!) (by decide!) (Or.inr ⟨str "i=4096", by decide!⟩)).1 (by decide!)
    ⟨salt, h1, h2⟩⟩

/-- C12 fails as stated: a server-first message with an empty salt value is
accepted with `saltlen = 0`, and `scram_exchange` answers it. -/
theorem empty_salt_accepted :
    exampleNonceSent.state = .FE_SCRAM_NONCE_SENT
    ∧ (read_server_first_message exampleEnv exampleNonceSent
        (str "r=AAAAAAAAAAAAAAAAAAAAAAAAxyz,s=,i=4096")).1 = true
    ∧ (read_server_first_message exampleEnv exampleNonceSent
        (str "r=AAAAAAAAAAAAAAAAAAAAAAAAxyz,s=,i=4096")).2.salt = some []
    ∧ (read_server_first_message exampleEnv exampleNonceSent
        (str "r=AAAAAAAAAAAAAAAAAAAAAAAAxyz,s=,i=4096")).2.saltlen = 0
    ∧ (scram_exchange exampleEnv exampleNonceSent false
        (str "r=AAAAAAAAAAAAAAAAAAAAAAAAxyz,s=,i=4096") 39).status = .SASL_CONTINUE := by
  decide!

/-! ### The server-final message: signature length and server errors -/

/-- A failing `read_server_final_message` makes `scram_exchange` fail in place. -/
theorem scram_exchange_server_final_rejected (env : Env) (s : fe_scram_state) (final : Bool)
    (input : Bytes) (inputlen : Int) (hstate : s.state = .FE_SCRAM_PROOF_SENT)
    (hrej : (read_server_final_message env s input).1 = false) :
    (scram_exchange env s final input inputlen).status = .SASL_FAILED
    ∧ (scram_exchange env s final input inputlen).output = none
    ∧ (scram_exchange env s final input inputlen).state.state = .FE_SCRAM_PROOF_SENT
    ∧ (inputlen ≠ 0 → inputlen = (strlen input : Int) →
        (scram_exchange env s final input inputlen).state
          = (read_server_final_message env s input).2) := by
  have hf := (read_server_final_message_frame env s input).1
  unfold scram_exchange
  split
  · rename_i h
    exact ⟨rfl, rfl, hstate, fun h0 => absurd h.2 h0⟩
  · split
    · rename_i h
      exact ⟨rfl, rfl, hstate, fun _ h0 => absurd h0 h.2⟩
    · simp only [hstate]
      cases hrd : read_server_final_message env s input with
      | mk b s1 =>
        rw [hrd] at hrej hf
        dsimp only at hrej hf
        subst hrej
        exact ⟨rfl, rfl, hf.trans hstate, fun _ _ => rfl⟩

/-- On "v=value", followed by the end or by a comma, acceptance needs the value
to decode to `key_length` bytes, and those bytes are what is copied into
`ServerSignature`. -/
theorem read_server_final_message_accepts (env : Env) (s : fe_scram_state)
    (value t : Bytes) (hv : ∀ b ∈ value, b ≠ 0 ∧ b ≠ ','.toNat)
    (ht : t = [] ∨ ∃ u, t = ','.toNat :: u) :
    (read_server_final_message env s ('v'.toNat :: '='.toNat :: (value ++ t))).1 = true →
    ∃ sig, env.pg_b64_decode value (env.pg_b64_dec_len value.length) = some sig
      ∧ sig.length = s.key_length
      ∧ (read_server_final_message env s
          ('v'.toNat :: '='.toNat :: (value ++ t))).2.ServerSignature
        = overwrite s.ServerSignature sig := by
  have hb : byteAt ('v'.toNat :: '='.toNat :: (value ++ t)) 0 ≠ 'e'.toNat := by
    simp [byteAt]
  by_cases hcopy : env.alloc .sfinal_copy = true
  swap
  · intro h
    unfold read_server_final_message at h
    rw [if_pos (by simpa using hcopy)] at h
    simp at h
  by_cases hsig : env.alloc .sfinal_signature = true
  swap
  · intro h
    unfold read_server_final_message at h
    dsimp only at h
    rw [if_neg (by simp [hcopy]), if_neg hb] at h
    rcases ht with rfl | ⟨u, rfl⟩
    · have hr := read_attr_value_last [] value [] 'v'.toNat s.conn.errorMessage hv (Or.inl rfl)
      simp only [List.nil_append, List.length_nil, Nat.zero_add] at hr
      rw [hr] at h
      dsimp only at h
      rw [if_pos (by simpa using hsig)] at h
      simp at h
    · have hr := read_attr_value_comma [] value u 'v'.toNat s.conn.errorMessage hv
      simp only [List.nil_append, List.length_nil, Nat.zero_add] at hr
      rw [hr] at h
      dsimp only at h
      rw [if_pos (by simpa using hsig)] at h
      simp at h
  cases hdec : env.pg_b64_decode value (env.pg_b64_dec_len value.length) with
  | none =>
    intro h
    exfalso
    unfold read_server_final_message at h
    dsimp only at h
    rw [if_neg (by simp [hcopy]), if_neg hb] at h
    rcases ht with rfl | ⟨u, rfl⟩
    · have hr := read_attr_value_last [] value [] 'v'.toNat s.conn.errorMessage hv (Or.inl rfl)
      have hc := cstr_drop_value [] value [] 'v'.toNat hv (Or.inl rfl)
      simp only [List.nil_append, List.length_nil, Nat.zero_add] at hr hc
      rw [hr] at h
      dsimp only at h
      rw [if_neg (by simp [hsig])] at h
      simp only [strlen, hc, hdec] at h
      simp at h
    · have hr := read_attr_value_comma [] value u 'v'.toNat s.conn.errorMessage hv
      have hc := cstr_drop_value [] value (0 :: u) 'v'.toNat hv (Or.inr ⟨u, rfl⟩)
      simp only [List.nil_append, List.length_nil, Nat.zero_add] at hr hc
      rw [hr] at h
      dsimp only at h
      rw [if_neg (by simp [hsig])] at h
      simp only [strlen, hc, hdec] at h
      simp at h
  | some sig =>
    intro h
    by_cases hlen : sig.length = s.key_length
    · exact ⟨sig, rfl, hlen,
        (read_server_final_message_signature env s value t sig hv ht hcopy hsig hdec hlen).2⟩
    · exfalso
      unfold read_server_final_message at h
      dsimp only at h
      rw [if_neg (by simp [hcopy]), if_neg hb] at h
      rcases ht with rfl | ⟨u, rfl⟩
      · have hr := read_attr_value_last [] value [] 'v'.toNat s.conn.errorMessage hv (Or.inl rfl)
        have hc := cstr_drop_value [] value [] 'v'.toNat hv (Or.inl rfl)
        simp only [List.nil_append, List.length_nil, Nat.zero_add] at hr hc
        rw [hr] at h
        dsimp only at h
        rw [if_neg (by simp [hsig])] at h
        simp only [strlen, hc, hdec] at h
        simp [hlen, conn_error, apply_ite fe_scram_state.key_length] at h
      · have hr := read_attr_value_comma [] value u 'v'.toNat s.conn.errorMessage hv
        have hc := cstr_drop_value [] value (0 :: u) 'v'.toNat hv (Or.inr ⟨u, rfl⟩)
        simp only [List.nil_append, List.length_nil, Nat.zero_add] at hr hc
        rw [hr] at h
        dsimp only at h
        rw [if_neg (by simp [hsig])] at h
        simp only [strlen, hc, hdec] at h
        simp [hlen, conn_error, apply_ite fe_scram_state.key_length] at h

/-- C18: for a server-final message "v=value" (alone or followed by a comma) on
a session with key_length 32, `read_server_final_message` succeeds only if the
value base64-decodes to exactly 32 bytes, which are then the first 32 bytes of
`ServerSignature` (all of it when the array holds 32 bytes); it does succeed
when the two allocations succeed and the value decodes to 32 bytes; and when
the value does not decode to 32 bytes, `scram_exchange` on a session in state
PROOF_SENT returns `SASL_FAILED` without output and leaves the state at
PROOF_SENT. -/
theorem read_server_final_message_signature_length (env : Env) (s : fe_scram_state)
    (value t : Bytes) (hv : ∀ b ∈ value, b ≠ 0 ∧ b ≠ ','.toNat)
    (ht : t = [] ∨ ∃ u, t = ','.toNat :: u)
    (hkey : s.key_length = SCRAM_SHA_256_KEY_LEN) :
    ((read_server_final_message env s (str "v=" ++ value ++ t)).1 = true →
      ∃ sig, env.pg_b64_decode value (env.pg_b64_dec_len value.length) = some sig
        ∧ sig.length = 32
        ∧ (read_server_final_message env s (str "v=" ++ value ++ t)).2.ServerSignature
            = overwrite s.ServerSignature sig
        ∧ (read_server_final_message env s (str "v=" ++ value ++ t)).2.ServerSignature.take 32
            = sig
        ∧ (s.ServerSignature.length = 32 →
            (read_server_final_message env s (str "v=" ++ value ++ t)).2.ServerSignature = sig))
    ∧ (∀ sig, env.alloc .sfinal_copy = true → env.alloc .sfinal_signature = true →
        env.pg_b64_decode value (env.pg_b64_dec_len value.length) = some sig →
        sig.length = 32 →
        (read_server_final_message env s (str "v=" ++ value ++ t)).1 = true)
    ∧ ((∀ sig, env.pg_b64_decode value (env.pg_b64_dec_len value.length) = some sig →
          sig.length ≠ 32) →
        s.state = .FE_SCRAM_PROOF_SENT →
        ∀ (final : Bool) (inputlen : Int),
          (scram_exchange env s final (str "v=" ++ value ++ t) inputlen).status = .SASL_FAILED
          ∧ (scram_exchange env s final (str "v=" ++ value ++ t) inputlen).output = none
          ∧ (scram_exchange env s final (str "v=" ++ value ++ t) inputlen).state.state
              = .FE_SCRAM_PROOF_SENT) := by
  have e : str "v=" ++ value ++ t = 'v'.toNat :: '='.toNat :: (value ++ t) := by
    simp [str]
  have hk : s.key_length = 32 := hkey
  rw [e]
  refine ⟨?_, ?_, ?_⟩
  · intro h
    obtain ⟨sig, h1, h2, h3⟩ := read_server_final_message_accepts env s value t hv ht h
    rw [hk] at h2
    refine ⟨sig, h1, h2, h3, ?_, ?_⟩
    · rw [h3, ← h2]
      exact overwrite_take _ _
    · intro hl
      rw [h3]
      unfold overwrite
      rw [List.drop_of_length_le (by omega), List.append_nil]
  · intro sig hcopy hsig hdec hlen
    exact (read_server_final_message_signature env s value t sig hv ht hcopy hsig hdec
      (by rw [hk]; exact hlen)).1
  · intro hbad hstate final inputlen
    have hrej : (read_server_final_message env s
        ('v'.toNat :: '='.toNat :: (value ++ t))).1 = false := by
      cases hr : (read_server_final_message env s
          ('v'.toNat :: '='.toNat :: (value ++ t))).1 with
      | false => rfl
      | true =>
        obtain ⟨sig, h1, h2, -⟩ := read_server_final_message_accepts env s value t hv ht hr
        rw [hk] at h2
        exact absurd h2 (hbad sig h1)
    obtain ⟨h1, h2, h3, -⟩ :=
      scram_exchange_server_final_rejected env s final _ inputlen hstate hrej
    exact ⟨h1, h2, h3⟩

theorem read_server_final_message_signature_length_witness :
    (∀ sig, exampleEnv.pg_b64_decode (str "AAAA")
        (exampleEnv.pg_b64_dec_len (str "AAAA").length) = some sig → sig.length ≠ 32)
    ∧ (scram_exchange exampleEnv exampleProofSent false (str "v=" ++ str "AAAA" ++ []) 6).status
        = .SASL_FAILED
    ∧ (scram_exchange exampleEnv exampleProofSent false
        (str "v=" ++ str "AAAA" ++ []) 6).state.state = .FE_SCRAM_PROOF_SENT
    ∧ (read_server_final_message exampleEnv exampleProofSent
        (str "v=" ++ str "kJCQkJCQkJCQkJCQkJCQkJCQkJCQkJCQkJCQkJCQkJA=" ++ [])).1 = true := by
  have hbad : ∀ sig, exampleEnv.pg_b64_decode (str "AAAA")
      (exampleEnv.pg_b64_dec_len (str "AAAA").length) = some sig → sig.length ≠ 32 := by
    intro sig h
    have h3 : exampleEnv.pg_b64_decode (str "AAAA")
        (exampleEnv.pg_b64_dec_len (str "AAAA").length) = some [0, 0, 0] := by decide!
    rw [h3] at h
    cases h
    decide
  have hstate : exampleProofSent.state = .FE_SCRAM_PROOF_SENT := by decide!
  have hkey : exampleProofSent.key_length = SCRAM_SHA_256_KEY_LEN := by decide!
  have h := (read_server_final_message_signature_length exampleEnv exampleProofSent
    (str "AAAA") [] (by decide) (Or.inl rfl) hkey).2.2 hbad hstate false 6
  have hdec : exampleEnv.pg_b64_decode (str "kJCQkJCQkJCQkJCQkJCQkJCQkJCQkJCQkJCQkJCQkJA=")
      (exampleEnv.pg_b64_dec_len (str "kJCQkJCQkJCQkJCQkJCQkJCQkJCQkJCQkJCQkJCQkJA=").length)
      = some (List.replicate 32 144) := by decide!
  have h2 := (read_server_final_message_signature_length exampleEnv exampleProofSent
    (str "kJCQkJCQkJCQkJCQkJCQkJCQkJCQkJCQkJCQkJCQkJA=") []
    (by decide!) (Or.inl rfl) hkey).2.1 (List.replicate 32 144) rfl rfl hdec (by decide)
  obtain ⟨h3, -, h4⟩ := h
  refine ⟨hbad, h3, ?_, h2⟩
  set_option maxRecDepth 100000 in
  exact h4

/-- What `read_server_final_message` does with "e=value": the copy of the
message is stored, the value is reported, and nothing else is written. -/
theorem read_server_final_message_error (env : Env) (s : fe_scram_state) (v t : Bytes)
    (hv : ∀ b ∈ v, b ≠ 0 ∧ b ≠ ','.toNat)
    (ht : t = [] ∨ (∃ u, t = 0 :: u) ∨ ∃ u, t = ','.toNat :: u)
    (hcopy : env.alloc .sfinal_copy = true) :
    read_server_final_message env s ('e'.toNat :: '='.toNat :: (v ++ t))
      = (false,
          conn_error
            { s with server_final_message := some (cstr ('e'.toNat :: '='.toNat :: (v ++ t))) }
            (str "error received from server in SCRAM exchange: " ++ v)) := by
  have hb : byteAt ('e'.toNat :: '='.toNat :: (v ++ t)) 0 = 'e'.toNat := by
    simp [byteAt]
  unfold read_server_final_message
  dsimp only
  rw [if_neg (by simp [hcopy]), if_pos hb]
  rcases ht with rfl | ⟨u, rfl⟩ | ⟨u, rfl⟩
  · have hr := read_attr_value_last [] v [] 'e'.toNat s.conn.errorMessage hv (Or.inl rfl)
    have hc := cstr_drop_value [] v [] 'e'.toNat hv (Or.inl rfl)
    simp only [List.nil_append, List.length_nil, Nat.zero_add] at hr hc
    rw [hr]
    dsimp only
    rw [hc]
  · have hr := read_attr_value_last [] v (0 :: u) 'e'.toNat s.conn.errorMessage hv
      (Or.inr ⟨u, rfl⟩)
    have hc := cstr_drop_value [] v (0 :: u) 'e'.toNat hv (Or.inr ⟨u, rfl⟩)
    simp only [List.nil_append, List.length_nil, Nat.zero_add] at hr hc
    rw [hr]
    dsimp only
    rw [hc]
  · have hr := read_attr_value_comma [] v u 'e'.toNat s.conn.errorMessage hv
    have hc := cstr_drop_value [] v (0 :: u) 'e'.toNat hv (Or.inr ⟨u, rfl⟩)
    simp only [List.nil_append, List.length_nil, Nat.zero_add] at hr hc
    rw [hr]
    dsimp only
    rw [hc]

/-- The session a failing `read_server_final_message` leaves `scram_exchange`
with: the old one with an error appended by the length checks, or the one the
reader left. -/
theorem scram_exchange_server_final_rejected_state (env : Env) (s : fe_scram_state)
    (final : Bool) (input : Bytes) (inputlen : Int) (hstate : s.state = .FE_SCRAM_PROOF_SENT)
    (hrej : (read_server_final_message env s input).1 = false) :
    (∃ m, (scram_exchange env s final input inputlen).state = conn_error s m)
    ∨ (scram_exchange env s final input inputlen).state
        = (read_server_final_message env s input).2 := by
  unfold scram_exchange
  split
  · exact Or.inl ⟨_, rfl⟩
  · split
    · exact Or.inl ⟨_, rfl⟩
    · simp only [hstate]
      cases hrd : read_server_final_message env s input with
      | mk b s1 =>
        rw [hrd] at hrej
        dsimp only at hrej
        subst hrej
        exact Or.inr rfl

/-- C17: on a session in state PROOF_SENT, for every input that begins with
"e=", `scram_exchange` returns `SASL_FAILED` without output, the state stays
PROOF_SENT, and the stored `ServerSignature` and the flag `client_finished_auth`
set after a signature check are as before; when the declared length is the
length of the input and the copy of the message can be allocated, the
connection error is the old one followed by "error received from server in
SCRAM exchange: ", the value of the e attribute (the bytes after "e=" up to the
first comma or the end of the string) and a newline. -/
theorem scram_exchange_server_error (env : Env) (s : fe_scram_state) (final : Bool)
    (rest : Bytes) (inputlen : Int) (hstate : s.state = .FE_SCRAM_PROOF_SENT) :
    (scram_exchange env s final (str "e=" ++ rest) inputlen).status = .SASL_FAILED
    ∧ (scram_exchange env s final (str "e=" ++ rest) inputlen).output = none
    ∧ (scram_exchange env s final (str "e=" ++ rest) inputlen).state.state
        = .FE_SCRAM_PROOF_SENT
    ∧ (scram_exchange env s final (str "e=" ++ rest) inputlen).state.ServerSignature
        = s.ServerSignature
    ∧ (scram_exchange env s final (str "e=" ++ rest) inputlen).state.conn.client_finished_auth
        = s.conn.client_finished_auth
    ∧ (inputlen = (strlen (str "e=" ++ rest) : Int) → env.alloc .sfinal_copy = true →
        (scram_exchange env s final (str "e=" ++ rest) inputlen).state.conn.errorMessage
          = s.conn.errorMessage ++ str "error received from server in SCRAM exchange: "
              ++ (cstr rest).takeWhile (fun b => b != ','.toNat) ++ [10]) := by
  obtain ⟨v, t, hrest, hv, ht⟩ := value_split rest
  have hval : (cstr rest).takeWhile (fun b => b != ','.toNat) = v := by
    rw [hrest]; exact cstr_takeWhile_comma v t hv ht
  have e : str "e=" ++ rest = 'e'.toNat :: '='.toNat :: (v ++ t) := by
    rw [hrest]; simp [str]
  rw [hval, e]
  have hread : (read_server_final_message env s ('e'.toNat :: '='.toNat :: (v ++ t))).1 = false
      ∧ (read_server_final_message env s
          ('e'.toNat :: '='.toNat :: (v ++ t))).2.ServerSignature = s.ServerSignature
      ∧ (read_server_final_message env s
          ('e'.toNat :: '='.toNat :: (v ++ t))).2.conn.client_finished_auth
          = s.conn.client_finished_auth := by
    by_cases hcopy : env.alloc .sfinal_copy = true
    · rw [read_server_final_message_error env s v t hv ht hcopy]
      exact ⟨rfl, rfl, rfl⟩
    · unfold read_server_final_message
      rw [if_pos (by simpa using hcopy)]
      exact ⟨rfl, rfl, rfl⟩
  obtain ⟨h1, h2, h3, h4⟩ :=
    scram_exchange_server_final_rejected env s final _ inputlen hstate hread.1
  refine ⟨h1, h2, h3, ?_, ?_, ?_⟩
  · rcases scram_exchange_server_final_rejected_state env s final _ inputlen hstate hread.1
      with ⟨m, hm⟩ | hm
    · rw [hm]; rfl
    · rw [hm]; exact hread.2.1
  · rcases scram_exchange_server_final_rejected_state env s final _ inputlen hstate hread.1
      with ⟨m, hm⟩ | hm
    · rw [hm]; rfl
    · rw [hm]; exact hread.2.2
  · intro hlen hcopy
    have hne : inputlen ≠ 0 := by
      rw [hlen, strlen, cstr_cons_of_ne _ _ (by decide)]
      simp only [List.length_cons]
      omega
    rw [h4 hne hlen, read_server_final_message_error env s v t hv ht hcopy]
    simp [conn_error, libpq_append_conn_error]

theorem scram_exchange_server_error_witness :
    exampleProofSent.state = .FE_SCRAM_PROOF_SENT
    ∧ (scram_exchange exampleEnv exampleProofSent false
        (str "e=" ++ str "invalid-proof") 15).status = .SASL_FAILED
    ∧ (scram_exchange exampleEnv exampleProofSent false
        (str "e=" ++ str "invalid-proof") 15).state.conn.errorMessage
        = exampleProofSent.conn.errorMessage
            ++ str "error received from server in SCRAM exchange: "
            ++ (cstr (str "invalid-proof")).takeWhile (fun b => b != ','.toNat) ++ [10] := by
  have hstate : exampleProofSent.state = .FE_SCRAM_PROOF_SENT := by decide!
  have h := scram_exchange_server_error exampleEnv exampleProofSent false
    (str "invalid-proof") 15 hstate
  obtain ⟨h1, -, -, -, -, h6⟩ := h
  exact ⟨hstate, h1, h6 (by decide) rfl⟩

/-- The server's reason with a comma in it: for "e=other-error,x=1" the connection
error ends with the value "other-error" and the bytes after the comma are not in it. -/
theorem server_error_cut_at_comma :
    (scram_exchange exampleEnv exampleProofSent false (str "e=other-error,x=1") 17).status
      = .SASL_FAILED
    ∧ (scram_exchange exampleEnv exampleProofSent false
        (str "e=other-error,x=1") 17).state.conn.errorMessage
        = str "error received from server in SCRAM exchange: other-error" ++ [10]
    ∧ ¬ (str "other-error,x=1" <:+:
          (scram_exchange exampleEnv exampleProofSent false
            (str "e=other-error,x=1") 17).state.conn.errorMessage) := by
  have h1 : (scram_exchange exampleEnv exampleProofSent false
      (str "e=other-error,x=1") 17).status = .SASL_FAILED := by decide!
  have h2 : (scram_exchange exampleEnv exampleProofSent false
      (str "e=other-error,x=1") 17).state.conn.errorMessage
      = str "error received from server in SCRAM exchange: other-error" ++ [10] := by decide!
  refine ⟨h1, h2, ?_⟩
  rw [h2]
  decide!

/-! ### The client-first message -/

theorem b64_char_ne_zero : ∀ v, v < 64 → b64_char v ≠ 0 := by decide

theorem b64_encode_length : ∀ (l : Bytes), (b64_encode l).length = (l.length + 2) / 3 * 4
  | [] => by simp [b64_encode]
  | [_] => by simp [b64_encode]
  | [_, _] => by simp [b64_encode]
  | _ :: _ :: _ :: rest => by
    rw [b64_encode, List.length_cons, List.length_cons, List.length_cons, List.length_cons,
      b64_encode_length rest]
    simp only [List.length_cons]
    omega

theorem b64_encode_ne_zero : ∀ (l : Bytes), (∀ b ∈ l, b < 256) → 0 ∉ b64_encode l
  | [], _ => by simp [b64_encode]
  | [a], h => by
    have ha : a < 256 := h a (by simp)
    have h1 := b64_char_ne_zero (a / 4) (by omega)
    have h2 := b64_char_ne_zero (a % 4 * 16) (by omega)
    simp [b64_encode, Ne.symm h1, Ne.symm h2]
  | [a, b], h => by
    have ha : a < 256 := h a (by simp)
    have hb : b < 256 := h b (by simp)
    have h1 := b64_char_ne_zero (a / 4) (by omega)
    have h2 := b64_char_ne_zero (a % 4 * 16 + b / 16) (by omega)
    have h3 := b64_char_ne_zero (b % 16 * 4) (by omega)
    simp [b64_encode, Ne.symm h1, Ne.symm h2, Ne.symm h3]
  | a :: b :: c :: rest, h => by
    have ha : a < 256 := h a (by simp)
    have hb : b < 256 := h b (by simp)
    have hc : c < 256 := h c (by simp)
    have h1 := b64_char_ne_zero (a / 4) (by omega)
    have h2 := b64_char_ne_zero (a % 4 * 16 + b / 16) (by omega)
    have h3 := b64_char_ne_zero (b % 16 * 4 + c / 64) (by omega)
    have h4 := b64_char_ne_zero (c % 64) (by omega)
    have ih := b64_encode_ne_zero rest (fun x hx => h x (by simp [hx]))
    rw [b64_encode]
    simp [Ne.symm h1, Ne.symm h2, Ne.symm h3, Ne.symm h4, ih]

theorem exampleEnv_standard_base64 : exampleEnv.standard_base64 :=
  ⟨fun _ => rfl, fun _ _ => rfl⟩

theorem gs2_flag_not_mem (env : Env) (s : fe_scram_state) : 0 ∉ gs2_flag env s := by
  rcases gs2_flag_cases env s with h | h | h <;> rw [h] <;> decide

/-- The client-first message and the session after it, when the random source,
the allocations and the encoder succeed and the encoding holds no NUL. -/
theorem build_client_first_message_eq (env : Env) (s : fe_scram_state) (raw enc : Bytes)
    (hrand : env.pg_strong_random SCRAM_RAW_NONCE_LEN = some raw)
    (halloc : ∀ site, env.alloc site = true)
    (henc : env.pg_b64_encode raw (env.pg_b64_enc_len SCRAM_RAW_NONCE_LEN) = some enc)
    (h0 : 0 ∉ enc) :
    build_client_first_message env s
      = (some (gs2_flag env s ++ str ",,n=,r=" ++ enc),
          { s with
            client_nonce := some enc
            client_first_message_bare := some (str "n=,r=" ++ enc) }) := by
  have hflag : ∀ cn, gs2_flag env { s with client_nonce := cn } = gs2_flag env s :=
    fun _ => rfl
  have hc : cstr enc = enc := cstr_of_not_mem enc h0
  have hfull : cstr (gs2_flag env s ++ str ",,n=,r=" ++ enc)
      = gs2_flag env s ++ str ",,n=,r=" ++ enc := by
    apply cstr_of_not_mem
    have := gs2_flag_not_mem env s
    simp only [List.mem_append, not_or]
    exact ⟨⟨this, by decide⟩, h0⟩
  have hdrop : (gs2_flag env s ++ str ",,n=,r=" ++ enc).drop ((gs2_flag env s).length + 2)
      = str "n=,r=" ++ enc := by
    rw [List.append_assoc, List.drop_append]
    rfl
  have hbare : cstr (str "n=,r=" ++ enc) = str "n=,r=" ++ enc := by
    apply cstr_of_not_mem
    simp only [List.mem_append, not_or]
    exact ⟨by decide, h0⟩
  unfold build_client_first_message
  simp only [hrand, henc, halloc, hflag, Bool.not_true, Bool.false_eq_true, if_false,
    Option.getD_some, hc, hfull, hdrop, hbare]

/-- C14: for a session in state INIT, when the random source gives 18 bytes, the
allocations succeed, base64 is the standard codec and TLS is in use only in a
build with TLS, `build_client_first_message` (and so `scram_exchange`, which
moves the session to NONCE_SENT) emits flag ++ ",,n=,r=" ++ client_nonce, where
flag is "p=tls-server-end-point" for SCRAM-SHA-256-PLUS, "y" for the plain
mechanism when channel_binding does not start with "d" and TLS is in use, and
"n" otherwise; client_nonce is the base64 encoding of the 18 random bytes, 24
characters; and the stored client_first_message_bare is "n=,r=" ++ client_nonce,
the emitted message without the flag and ",,". -/
theorem build_client_first_message_spec (env : Env) (s : fe_scram_state) (raw : Bytes)
    (final : Bool) (input : Bytes) (inputlen : Int)
    (hstate : s.state = .FE_SCRAM_INIT)
    (hrand : env.pg_strong_random SCRAM_RAW_NONCE_LEN = some raw)
    (hraw : raw.length = 18) (hbytes : ∀ b ∈ raw, b < 256)
    (halloc : ∀ site, env.alloc site = true) (hb64 : env.standard_base64)
    (hssl : s.conn.ssl_in_use = true → env.USE_SSL = true) :
    ∃ flag client_nonce,
      flag = (if cstr s.sasl_mechanism = cstr SCRAM_SHA_256_PLUS_NAME then
                str "p=tls-server-end-point"
              else if byteAt s.conn.channel_binding 0 ≠ 'd'.toNat ∧ s.conn.ssl_in_use = true then
                str "y"
              else str "n")
      ∧ client_nonce = b64_encode raw
      ∧ client_nonce.length = 24
      ∧ (build_client_first_message env s).1 = some (flag ++ str ",,n=,r=" ++ client_nonce)
      ∧ (build_client_first_message env s).2.client_nonce = some client_nonce
      ∧ (build_client_first_message env s).2.client_first_message_bare
          = some (str "n=,r=" ++ client_nonce)
      ∧ (flag ++ str ",,n=,r=" ++ client_nonce).drop (flag.length + 2)
          = str "n=,r=" ++ client_nonce
      ∧ (scram_exchange env s final input inputlen).status = .SASL_CONTINUE
      ∧ (scram_exchange env s final input inputlen).output
          = some (flag ++ str ",,n=,r=" ++ client_nonce)
      ∧ (scram_exchange env s final input inputlen).state.state = .FE_SCRAM_NONCE_SENT
      ∧ (scram_exchange env s final input inputlen).state.client_first_message_bare
          = some (str "n=,r=" ++ client_nonce) := by
  have hlen : (b64_encode raw).length = 24 := by rw [b64_encode_length, hraw]
  have h0 : 0 ∉ b64_encode raw := b64_encode_ne_zero raw hbytes
  have henc : env.pg_b64_encode raw (env.pg_b64_enc_len SCRAM_RAW_NONCE_LEN)
      = some (b64_encode raw) := by
    rw [hb64.2, hb64.1, hlen]
    rfl
  have hflag : gs2_flag env s
      = (if cstr s.sasl_mechanism = cstr SCRAM_SHA_256_PLUS_NAME then
          str "p=tls-server-end-point"
        else if byteAt s.conn.channel_binding 0 ≠ 'd'.toNat ∧ s.conn.ssl_in_use = true then
          str "y"
        else str "n") := by
    unfold gs2_flag
    split
    · rfl
    · by_cases h : s.conn.ssl_in_use = true
      · simp [h, hssl h]
      · simp [h]
  have heq := build_client_first_message_eq env s raw (b64_encode raw) hrand halloc henc h0
  rw [hflag] at heq
  refine ⟨_, _, rfl, rfl, hlen, ?_, ?_, ?_, ?_, ?_⟩
  · rw [heq]
  · rw [heq]
  · rw [heq]
  · rw [List.append_assoc, List.drop_append]
    rfl
  · unfold scram_exchange
    rw [if_neg (by simp [hstate]), if_neg (by simp [hstate])]
    simp [hstate, heq]

theorem build_client_first_message_spec_witness :
    (scram_exchange exampleEnv (exampleSession exampleConn SCRAM_SHA_256_NAME) false [] (-1)).output
      = some (str "n" ++ str ",,n=,r=" ++ str "AAAAAAAAAAAAAAAAAAAAAAAA") := by
  obtain ⟨flag, nonce, h1, h2, -, -, -, -, -, -, h9, -⟩ :=
    build_client_first_message_spec exampleEnv (exampleSession exampleConn SCRAM_SHA_256_NAME)
      (List.replicate 18 0) false [] (-1) (by decide!) rfl rfl (by decide)
      (fun _ => rfl) exampleEnv_standard_base64 (by decide!)
  have hf : flag = str "n" := by rw [h1]; decide!
  have hn : nonce = str "AAAAAAAAAAAAAAAAAAAAAAAA" := by rw [h2]; decide!
  rw [h9, hf, hn]

/-! ### The channel-binding attribute of the client-final message -/

/-- What the buffer of `client_final_cbind` holds, by the flag
`build_client_first_message` chooses for the same settings. -/
theorem client_final_cbind_some (env : Env) (s : fe_scram_state) (buf : Bytes)
    (h : (client_final_cbind env s).1 = some buf) :
    (gs2_flag env s = str "n" ∧ buf = str "c=biws")
    ∨ (gs2_flag env s = str "y" ∧ buf = str "c=eSws")
    ∨ (gs2_flag env s = str "p=tls-server-end-point"
        ∧ ∃ hash enc, env.pgtls_get_peer_certificate_hash = some hash
          ∧ env.pg_b64_encode (str "p=tls-server-end-point,," ++ hash)
              (env.pg_b64_enc_len (str "p=tls-server-end-point,," ++ hash).length) = some enc
          ∧ buf = str "c=" ++ enc) := by
  unfold client_final_cbind at h
  unfold gs2_flag
  dsimp only at h
  split at h
  · rename_i hm
    rw [if_pos hm]
    refine Or.inr (Or.inr ⟨rfl, ?_⟩)
    repeat' split at h
    all_goals first
      | (simp at h; done)
      | skip
    rename_i enc henc
    simp only [Option.some.injEq] at h
    exact ⟨_, enc, ‹env.pgtls_get_peer_certificate_hash = some _›, henc, h.symm⟩
  · rename_i hm
    rw [if_neg hm]
    split at h
    · rename_i hy
      rw [if_pos hy]
      simp only [Option.some.injEq] at h
      exact Or.inr (Or.inl ⟨rfl, h.symm⟩)
    · rename_i hy
      rw [if_neg hy]
      simp only [Option.some.injEq] at h
      exact Or.inl ⟨rfl, h.symm⟩

theorem gs2_flag_congr (env : Env) (s s2 : fe_scram_state)
    (hmech : s2.sasl_mechanism = s.sasl_mechanism)
    (hcb : s2.conn.channel_binding = s.conn.channel_binding)
    (hssl : s2.conn.ssl_in_use = s.conn.ssl_in_use) : gs2_flag env s2 = gs2_flag env s := by
  unfold gs2_flag
  rw [hmech, hcb, hssl]

theorem build_client_first_message_header (env : Env) (s : fe_scram_state) (out : Bytes)
    (h : (build_client_first_message env s).1 = some out) :
    ∃ nonce, out = gs2_flag env s ++ str ",," ++ str "n=,r=" ++ nonce := by
  unfold build_client_first_message at h
  dsimp only at h
  repeat' split at h
  all_goals first
    | (simp at h; done)
    | skip
  rename_i raw _ _ enc _ _ _ _ _
  simp only [Option.some.injEq, Option.getD_some] at h
  subst h
  have hflag : gs2_flag env { s with client_nonce := some (cstr enc) } = gs2_flag env s := rfl
  rw [hflag]
  refine ⟨cstr (cstr enc), ?_⟩
  rw [cstr_of_not_mem]
  · simp [str]
  · have := gs2_flag_not_mem env s
    have h2 := zero_not_mem_cstr (cstr enc)
    simp only [List.mem_append, not_or]
    exact ⟨⟨this, by decide⟩, h2⟩

/-- C13: when `build_client_first_message` and, on a session with the same
mechanism, channel_binding and ssl_in_use, `build_client_final_message` both
return a message, the first begins with the GS2 header flag ++ ",," and the
second is the C string of "c=" ++ enc ++ ",r=" ++ ..., where enc is the base64
encoding of a byte string that begins with that header: "biws" for "n,," and
"eSws" for "y,," (the encodings of the standard codec), and for
SCRAM-SHA-256-PLUS what the encoder gives for "p=tls-server-end-point,,"
followed by the peer certificate hash. -/
theorem client_final_cbind_gs2_header (env : Env) (s s2 : fe_scram_state)
    (first final : Bytes)
    (hmech : s2.sasl_mechanism = s.sasl_mechanism)
    (hcb : s2.conn.channel_binding = s.conn.channel_binding)
    (hssl : s2.conn.ssl_in_use = s.conn.ssl_in_use)
    (h1 : (build_client_first_message env s).1 = some first)
    (h2 : (build_client_final_message env s2).1 = some final) :
    ∃ flag nonce input enc tail,
      flag = gs2_flag env s
      ∧ first = flag ++ str ",," ++ str "n=,r=" ++ nonce
      ∧ final = cstr (str "c=" ++ enc ++ str ",r=" ++ tail)
      ∧ (0 ∉ enc → (str "c=" ++ enc ++ str ",r=") <+: final)
      ∧ (flag ++ str ",,") <+: input
      ∧ ((flag = str "n" ∧ input = str "n,," ∧ enc = str "biws"
            ∧ b64_encode (str "n,,") = str "biws")
        ∨ (flag = str "y" ∧ input = str "y,," ∧ enc = str "eSws"
            ∧ b64_encode (str "y,,") = str "eSws")
        ∨ (flag = str "p=tls-server-end-point"
            ∧ cstr s.sasl_mechanism = cstr SCRAM_SHA_256_PLUS_NAME
            ∧ ∃ hash, env.pgtls_get_peer_certificate_hash = some hash
              ∧ input = str "p=tls-server-end-point,," ++ hash
              ∧ env.pg_b64_encode input (env.pg_b64_enc_len input.length) = some enc)) := by
  obtain ⟨nonce, hfirst⟩ := build_client_first_message_header env s first h1
  have hflag := gs2_flag_congr env s s2 hmech hcb hssl
  cases hb : build_client_final_message env s2 with
  | mk o s3 =>
    rw [hb] at h2
    dsimp only at h2
    subst h2
    obtain ⟨buf, s1, proof, encoded, hc, -, -, hout⟩ :=
      build_client_final_message_some env s2 s3 final hb
    have hpre : ∀ enc : Bytes, 0 ∉ enc →
        final = cstr (str "c=" ++ enc ++ str ",r=" ++ (cstr (s1.nonce.getD [])
          ++ str ",p=" ++ encoded)) → (str "c=" ++ enc ++ str ",r=") <+: final := by
      intro enc h0 hf
      rw [hf, cstr_append_of_not_mem]
      · exact List.prefix_append _ _
      · simp only [List.mem_append, not_or]
        exact ⟨⟨by decide, h0⟩, by decide⟩
    have hmem : cstr s.sasl_mechanism = cstr SCRAM_SHA_256_PLUS_NAME →
        gs2_flag env s = str "p=tls-server-end-point" := by
      intro hm; unfold gs2_flag; rw [if_pos hm]
    have hmemc : gs2_flag env s = str "p=tls-server-end-point" →
        cstr s.sasl_mechanism = cstr SCRAM_SHA_256_PLUS_NAME := by
      intro hp
      by_contra hm
      unfold gs2_flag at hp
      rw [if_neg hm] at hp
      split at hp <;> exact absurd hp (by decide)
    rcases client_final_cbind_some env s2 buf (by rw [hc]) with ⟨hf, rfl⟩ | ⟨hf, rfl⟩
      | ⟨hf, hash, enc, hh, he, rfl⟩
    · rw [hflag] at hf
      have hfin : final = cstr (str "c=" ++ str "biws" ++ str ",r="
          ++ (cstr (s1.nonce.getD []) ++ str ",p=" ++ encoded)) := by
        rw [hout]; simp [str]
      refine ⟨_, nonce, str "n,,", str "biws", _, rfl, hfirst, hfin,
        fun h0 => hpre _ h0 hfin, ?_, Or.inl ⟨hf, rfl, rfl, by decide⟩⟩
      rw [hf]
      exact List.prefix_refl _
    · rw [hflag] at hf
      have hfin : final = cstr (str "c=" ++ str "eSws" ++ str ",r="
          ++ (cstr (s1.nonce.getD []) ++ str ",p=" ++ encoded)) := by
        rw [hout]; simp [str]
      refine ⟨_, nonce, str "y,,", str "eSws", _, rfl, hfirst, hfin,
        fun h0 => hpre _ h0 hfin, ?_, Or.inr (Or.inl ⟨hf, rfl, rfl, by decide⟩)⟩
      rw [hf]
      exact List.prefix_refl _
    · rw [hflag] at hf
      have hfin : final = cstr (str "c=" ++ enc ++ str ",r="
          ++ (cstr (s1.nonce.getD []) ++ str ",p=" ++ encoded)) := by
        rw [hout]; simp [str]
      refine ⟨_, nonce, str "p=tls-server-end-point,," ++ hash, enc, _, rfl, hfirst, hfin,
        fun h0 => hpre _ h0 hfin, ?_, Or.inr (Or.inr ⟨hf, hmemc hf, hash, hh, rfl, he⟩)⟩
      rw [hf]
      exact ⟨hash, by simp [str]⟩

/-! ### The client-final message -/

theorem zipWith_xor_lt : ∀ (a b : Bytes), (∀ x ∈ a, x < 256) → (∀ y ∈ b, y < 256) →
    ∀ z ∈ List.zipWith Nat.xor a b, z < 256
  | [], _, _, _ => by simp
  | _ :: _, [], _, _ => by simp
  | x :: a, y :: b, ha, hb => by
    intro z hz
    rw [List.zipWith_cons_cons, List.mem_cons] at hz
    rcases hz with rfl | hz
    · have hx : x < 2 ^ 8 := ha x (by simp)
      have hy : y < 2 ^ 8 := hb y (by simp)
      exact Nat.xor_lt_two_pow hx hy
    · exact zipWith_xor_lt a b (fun x hx => ha x (by simp [hx])) (fun y hy => hb y (by simp [hy]))
        z hz

theorem exampleEnv_hmac_bytes : exampleEnv.hmac_bytes := by
  intro key msg r h
  have hr : r = example_digest (key ++ msg) := by
    have : some (example_digest (key ++ msg)) = some r := h
    exact (Option.some.inj this).symm
  subst hr
  refine ⟨by simp [example_digest], ?_⟩
  intro b hb
  unfold example_digest at hb
  rw [List.mem_replicate] at hb
  rw [hb.2]
  exact Nat.mod_lt _ (by decide)

/-- An accepted server-first message "r=n..." leaves `n` as the stored nonce. -/
theorem read_server_first_message_accepts_nonce (env : Env) (s : fe_scram_state)
    (n t : Bytes) (hn : ∀ b ∈ n, b ≠ 0 ∧ b ≠ ','.toNat)
    (ht : t = [] ∨ ∃ u, t = ','.toNat :: u)
    (h : (read_server_first_message env s ('r'.toNat :: '='.toNat :: (n ++ t))).1 = true) :
    (read_server_first_message env s ('r'.toNat :: '='.toNat :: (n ++ t))).2.nonce = some n := by
  have h0 : 0 ∉ n := fun h => (hn 0 h).1 rfl
  by_cases hcopy : env.alloc .sfirst_copy = true
  swap
  · unfold read_server_first_message at h
    rw [if_pos (by simpa using hcopy)] at h
    simp at h
  cases hok : nonce_mismatch n (s.client_nonce.getD []) with
  | true =>
    rw [read_server_first_message_mismatch env s n t hn ht hcopy hok] at h
    simp at h
  | false =>
    by_cases hdup : env.alloc .sfirst_nonce = true
    · exact read_server_first_message_stores_nonce env s n t hn ht hcopy hdup hok
    · exfalso
      have hok2 : ∀ u, nonce_mismatch (n ++ 0 :: u) (s.client_nonce.getD []) = false := by
        intro u
        rw [nonce_mismatch_congr (n ++ 0 :: u) n _
          ((cstr_append_zero n u h0).trans (cstr_of_not_mem n h0).symm)]
        exact hok
      unfold read_server_first_message at h
      dsimp only at h
      rw [if_neg (by simp [hcopy])] at h
      rcases ht with rfl | ⟨u, rfl⟩
      · have hr := read_attr_value_last [] n [] 'r'.toNat s.conn.errorMessage hn (Or.inl rfl)
        simp only [List.nil_append, List.length_nil, Nat.zero_add] at hr
        rw [hr] at h
        dsimp only at h
        have hd : List.drop 2 ('r'.toNat :: '='.toNat :: (n ++ [])) = n := by simp
        rw [hd, if_neg (by simp [hok]), if_pos (by simpa using hdup)] at h
        simp at h
      · have hr := read_attr_value_comma [] n u 'r'.toNat s.conn.errorMessage hn
        simp only [List.nil_append, List.length_nil, Nat.zero_add] at hr
        rw [hr] at h
        dsimp only at h
        have hd : List.drop 2 ('r'.toNat :: '='.toNat :: (n ++ 0 :: u)) = n ++ 0 :: u := by
          simp
        rw [hd, if_neg (by simp [hok2 u]), if_pos (by simpa using hdup)] at h
        simp at h

/-- The client proof is 32 bytes when HMAC returns 32 bytes and a pre-computed
ClientKey holds 32 bytes. -/
theorem calculate_client_proof_bytes (env : Env) (s s' : fe_scram_state) (m proof : Bytes)
    (h : calculate_client_proof env s m = (some proof, s')) (hkl : s.key_length = 32)
    (hhmac : env.hmac_bytes)
    (hck : ∀ key, s.conn.scram_client_key_binary = some key →
      key.length = 32 ∧ ∀ b ∈ key, b < 256) :
    proof.length = 32 ∧ ∀ b ∈ proof, b < 256 := by
  obtain ⟨ck, sk, sig, hckey, -, hsig, hproof⟩ := calculate_client_proof_some env s s' m proof h
  have hfix := (calculate_client_proof_frame env s m).2.1
  rw [h] at hfix
  have hk2 : s'.key_length = 32 := by
    have := (fixed_part_eq hfix).2.2.1
    rw [this, hkl]
  rw [hk2] at hproof
  obtain ⟨hsl, hsb⟩ := hhmac _ _ _ hsig
  have hckb : ck.length = 32 ∧ ∀ b ∈ ck, b < 256 := by
    rcases client_proof_ClientKey_some env s s' ck hckey with
      ⟨key, hkey, hck1, -⟩ | ⟨-, salted, -, -, hckd⟩
    · obtain ⟨hl, hb⟩ := hck key hkey
      have : ck = key := by rw [hck1]; exact take_of_length_eq key _ hl
      rw [this]
      exact ⟨hl, hb⟩
    · unfold scram_ClientKey at hckd
      exact hhmac _ _ _ hckd
  obtain ⟨hcl, hcb⟩ := hckb
  rw [take_of_length_eq ck 32 hcl, take_of_length_eq sig 32 hsl] at hproof
  rw [hproof]
  exact ⟨(zipWith_xor_length ck sig (hcl.trans hsl.symm)).trans hcl, zipWith_xor_lt ck sig hcb hsb⟩

/-- C15: when `scram_exchange` on a session in state NONCE_SENT accepts the
server-first message "r=" n ... and returns `SASL_CONTINUE`, the stored
client_final_message_without_proof is the C string of cbind ++ ",r=" ++ n, where
cbind is "c=" and the base64 channel-binding input ("c=biws", "c=eSws" or "c="
and the encoding of "p=tls-server-end-point,," and the certificate hash) and n
is the nonce as received, and the output is the C string of that ++ ",p=" ++
enc, enc being what the encoder gives for the first key_length bytes of the
ClientProof returned by `calculate_client_proof`; C string and buffer are the
same when the encodings hold no NUL.  For the plain mechanism without TLS, with
the standard codec, 32-byte HMACs and keys, the output is "c=biws,r=" ++ n ++
",p=" ++ enc with enc the 44 characters encoding the 32 bytes of ClientProof. -/
theorem scram_exchange_client_final (env : Env) (s : fe_scram_state) (final : Bool)
    (n t : Bytes) (inputlen : Int)
    (hstate : s.state = .FE_SCRAM_NONCE_SENT)
    (hn : ∀ b ∈ n, b ≠ 0 ∧ b ≠ ','.toNat) (ht : t = [] ∨ ∃ u, t = ','.toNat :: u)
    (hcont : (scram_exchange env s final (str "r=" ++ n ++ t) inputlen).status
      = .SASL_CONTINUE) :
    ∃ cbind ClientProof enc,
      ((gs2_flag env s = str "n" ∧ cbind = str "c=biws")
        ∨ (gs2_flag env s = str "y" ∧ cbind = str "c=eSws")
        ∨ (gs2_flag env s = str "p=tls-server-end-point"
            ∧ ∃ hash e, env.pgtls_get_peer_certificate_hash = some hash
              ∧ env.pg_b64_encode (str "p=tls-server-end-point,," ++ hash)
                  (env.pg_b64_enc_len (str "p=tls-server-end-point,," ++ hash).length) = some e
              ∧ cbind = str "c=" ++ e))
      ∧ (scram_exchange env s final (str "r=" ++ n ++ t) inputlen).state.nonce = some n
      ∧ (scram_exchange env s final (str "r=" ++ n ++ t)
          inputlen).state.client_final_message_without_proof
          = some (cstr (cbind ++ str ",r=" ++ n))
      ∧ (∃ s1 s2, calculate_client_proof env s1 (cstr (cbind ++ str ",r=" ++ n))
          = (some ClientProof, s2))
      ∧ env.pg_b64_encode (ClientProof.take s.key_length) (env.pg_b64_enc_len s.key_length)
          = some enc
      ∧ (scram_exchange env s final (str "r=" ++ n ++ t) inputlen).output
          = some (cstr (cbind ++ str ",r=" ++ n ++ str ",p=" ++ enc))
      ∧ (0 ∉ cbind → 0 ∉ enc →
          (scram_exchange env s final (str "r=" ++ n ++ t)
            inputlen).state.client_final_message_without_proof
            = some (cbind ++ str ",r=" ++ n)
          ∧ (scram_exchange env s final (str "r=" ++ n ++ t) inputlen).output
            = some (cbind ++ str ",r=" ++ n ++ str ",p=" ++ enc))
      ∧ (cstr s.sasl_mechanism ≠ cstr SCRAM_SHA_256_PLUS_NAME → s.conn.ssl_in_use = false →
          s.key_length = 32 → env.standard_base64 → env.hmac_bytes →
          (∀ key, s.conn.scram_client_key_binary = some key →
            key.length = 32 ∧ ∀ b ∈ key, b < 256) →
          ClientProof.length = 32 ∧ enc = b64_encode ClientProof ∧ enc.length = 44
          ∧ (scram_exchange env s final (str "r=" ++ n ++ t) inputlen).output
            = some (str "c=biws,r=" ++ n ++ str ",p=" ++ enc)) := by
  have e : str "r=" ++ n ++ t = 'r'.toNat :: '='.toNat :: (n ++ t) := by simp [str]
  have h0 : 0 ∉ n := fun h => (hn 0 h).1 rfl
  obtain ⟨s1, s2, out, hread, hbuild, hex, -⟩ :=
    scram_exchange_nonce_sent_continue env s final _ inputlen hstate hcont
  rw [hex]
  dsimp only
  have hnonce : s1.nonce = some n := by
    have h1 : (read_server_first_message env s ('r'.toNat :: '='.toNat :: (n ++ t))).1
        = true := by rw [← e, hread]
    have := read_server_first_message_accepts_nonce env s n t hn ht h1
    rw [← e, hread] at this
    exact this
  have rf := (read_server_first_message_frame env s (str "r=" ++ n ++ t)).2.1
  rw [hread] at rf
  dsimp only at rf
  obtain ⟨-, rmech, rk, rcb, rssl, rck, -⟩ := fixed_part_eq rf
  obtain ⟨buf, s1', proof, encoded, hcb, hcalc, henc, hout⟩ :=
    build_client_final_message_some env s1 s2 out hbuild
  have cf := client_final_cbind_frame env s1
  rw [hcb] at cf
  obtain ⟨-, cf2, -, cfn, -⟩ := cf
  dsimp only at cf2 cfn
  obtain ⟨-, -, ck3, -, -, cck, -⟩ := fixed_part_eq cf2
  have hnn : cstr (s1'.nonce.getD []) = n := by
    rw [cfn, hnonce]
    exact cstr_of_not_mem n h0
  rw [hnn] at hcalc hout
  have kf := calculate_client_proof_frame env
    { s1' with client_final_message_without_proof := some (cstr (buf ++ str ",r=" ++ n)) }
    (cstr (buf ++ str ",r=" ++ n))
  rw [hcalc] at kf
  obtain ⟨-, kf2, -, kfn, -, -, kfm, -, -⟩ := kf
  dsimp only at kf2 kfn kfm
  have hk2 : s2.key_length = s.key_length := by
    have := (fixed_part_eq kf2).2.2.1
    dsimp only at this
    rw [this, ck3, rk]
  rw [hk2] at henc
  have hflag : gs2_flag env s1 = gs2_flag env s := gs2_flag_congr env s s1 rmech rcb rssl
  have hcases := client_final_cbind_some env s1 buf (by rw [hcb])
  rw [hflag] at hcases
  have hfull : 0 ∉ buf → 0 ∉ encoded →
      cstr (buf ++ str ",r=" ++ n) = buf ++ str ",r=" ++ n
      ∧ cstr (buf ++ str ",r=" ++ n ++ str ",p=" ++ encoded)
          = buf ++ str ",r=" ++ n ++ str ",p=" ++ encoded := by
    intro hb he
    constructor
    · apply cstr_of_not_mem
      simp only [List.mem_append, not_or]
      exact ⟨⟨hb, by decide⟩, h0⟩
    · apply cstr_of_not_mem
      simp only [List.mem_append, not_or]
      exact ⟨⟨⟨⟨hb, by decide⟩, h0⟩, by decide⟩, he⟩
  refine ⟨buf, proof, encoded, hcases, kfn.trans (cfn.trans hnonce), kfm, ⟨_, _, hcalc⟩, henc,
    by rw [hout], ?_, ?_⟩
  · intro hb he
    obtain ⟨f1, f2⟩ := hfull hb he
    exact ⟨by rw [kfm, f1], by rw [hout, f2]⟩
  · intro hmech hssl hkl hb64 hhmac hck
    have hbuf : buf = str "c=biws" := by
      rcases hcases with ⟨-, hb⟩ | ⟨hy, -⟩ | ⟨hp, -⟩
      · exact hb
      · exfalso
        unfold gs2_flag at hy
        rw [if_neg hmech, if_neg (by simp [hssl])] at hy
        exact absurd hy (by decide)
      · exfalso
        unfold gs2_flag at hp
        rw [if_neg hmech, if_neg (by simp [hssl])] at hp
        exact absurd hp (by decide)
    obtain ⟨hpl, hpb⟩ := calculate_client_proof_bytes env _ s2 _ proof hcalc
      (by dsimp only; rw [ck3, rk, hkl])
      hhmac (by
        intro key hkey
        dsimp only at hkey
        rw [cck, rck] at hkey
        exact hck key hkey)
    rw [hkl, take_of_length_eq proof 32 hpl, hb64.2, hb64.1] at henc
    have hel : (b64_encode proof).length = 44 := by rw [b64_encode_length, hpl]
    rw [hel, if_neg (by decide)] at henc
    have henc2 : encoded = b64_encode proof := (Option.some.inj henc).symm
    have he0 : 0 ∉ encoded := by rw [henc2]; exact b64_encode_ne_zero proof hpb
    obtain ⟨-, f2⟩ := hfull (by rw [hbuf]; decide) he0
    refine ⟨hpl, henc2, by rw [henc2]; exact hel, ?_⟩
    rw [hout, f2, hbuf]
    simp [str]

theorem scram_exchange_client_final_witness :
    ∃ enc, enc.length = 44
      ∧ (scram_exchange exampleEnv exampleNonceSent false
          (str "r=" ++ str "AAAAAAAAAAAAAAAAAAAAAAAAxyz" ++ str ",s=QUJD,i=4096") 43).output
        = some (str "c=biws,r=" ++ str "AAAAAAAAAAAAAAAAAAAAAAAAxyz" ++ str ",p=" ++ enc) := by
  obtain ⟨cbind, proof, enc, -, -, -, -, -, -, -, h⟩ :=
    scram_exchange_client_final exampleEnv exampleNonceSent false
      (str "AAAAAAAAAAAAAAAAAAAAAAAAxyz") (str ",s=QUJD,i=4096") 43
      (by decide!) (by decide!) (Or.inr ⟨_, rfl⟩) (by decide!)
  obtain ⟨-, -, hl, ho⟩ := h (by decide!) (by decide!) (by decide!)
    exampleEnv_standard_base64 exampleEnv_hmac_bytes
    (by
      intro key hkey
      have hnone : exampleNonceSent.conn.scram_client_key_binary = none := by decide!
      rw [hnone] at hkey
      exact absurd hkey (by simp))
  exact ⟨enc, hl, ho⟩

theorem client_final_cbind_gs2_header_witness :
    ∃ flag nonce input enc tail,
      flag = gs2_flag exampleEnv (exampleSession exampleConn SCRAM_SHA_256_NAME)
      ∧ str "n,,n=,r=AAAAAAAAAAAAAAAAAAAAAAAA" = flag ++ str ",," ++ str "n=,r=" ++ nonce
      ∧ str "c=biws,r=AAAAAAAAAAAAAAAAAAAAAAAAxyz,p=WFhYWFhYWFhYWFhYWFhYWFhYWFhYWFhYWFhYWFhYWFg="
          = cstr (str "c=" ++ enc ++ str ",r=" ++ tail)
      ∧ (flag ++ str ",,") <+: input
      ∧ flag = str "n" ∧ enc = str "biws" := by
  obtain ⟨flag, nonce, input, enc, tail, h1, h2, h3, -, h5, h6⟩ :=
    client_final_cbind_gs2_header exampleEnv (exampleSession exampleConn SCRAM_SHA_256_NAME)
      (read_server_first_message exampleEnv exampleNonceSent exampleServerFirst).2
      (str "n,,n=,r=AAAAAAAAAAAAAAAAAAAAAAAA")
      (str "c=biws,r=AAAAAAAAAAAAAAAAAAAAAAAAxyz,p=WFhYWFhYWFhYWFhYWFhYWFhYWFhYWFhYWFhYWFhYWFg=")
      (by decide!) (by decide!) (by decide!) (by decide!) (by decide!)
  have hflag : gs2_flag exampleEnv (exampleSession exampleConn SCRAM_SHA_256_NAME) = str "n" := by
    decide!
  rw [hflag] at h1
  subst h1
  rcases h6 with ⟨-, -, he, -⟩ | ⟨hy, -⟩ | ⟨hp, -⟩
  · exact ⟨_, nonce, input, enc, tail, hflag.symm, h2, h3, h5, rfl, he⟩
  · exact absurd hy (by decide)
  · exact absurd hp (by decide)


/-! ### The password of a session and of a secret -/

/-- C19: for a cleartext password, when SASLprep reports out of memory both
`scram_init` and `pg_fe_scram_build_secret` fail; otherwise, when `scram_init`
returns a session and the random salt is generated, the password that
`pg_fe_scram_build_secret` passes to `scram_build_secret` is the password stored
in the session: the SASLprep output when SASLprep succeeds, the original C
string when it reports a prohibited character or invalid UTF-8. -/
theorem pg_fe_scram_build_secret_password (env : Env) (conn : PGconn)
    (sasl_mechanism password : Bytes) (iterations : Int)
    (scram_build_secret : Nat → Bytes → Nat → Int → Bytes → Option Bytes × Option Bytes) :
    (env.pg_saslprep (cstr password) = .SASLPREP_OOM →
      scram_init env conn (some password) sasl_mechanism = none
      ∧ pg_fe_scram_build_secret env scram_build_secret password iterations
          = (none, some (str "out of memory")))
    ∧ (∀ state salt, scram_init env conn (some password) sasl_mechanism = some state →
        env.pg_strong_random SCRAM_DEFAULT_SALT_LEN = some salt →
        ∃ p, state.password = some p
          ∧ p = (match env.pg_saslprep (cstr password) with
                | .SASLPREP_SUCCESS prep_password => prep_password
                | _ => cstr password)
          ∧ pg_fe_scram_build_secret env scram_build_secret password iterations
              = scram_build_secret SCRAM_SHA_256_KEY_LEN salt SCRAM_DEFAULT_SALT_LEN
                  iterations p
          ∧ pg_fe_scram_build_secret env (fun _ _ _ _ pw => (some pw, none)) password
              iterations = (some p, none)) := by
  constructor
  · intro hoom
    constructor
    · unfold scram_init
      simp only [hoom]
      split
      · rfl
      · split <;> rfl
    · unfold pg_fe_scram_build_secret
      simp only [hoom]
  · intro state salt hinit hrand
    unfold scram_init at hinit
    unfold pg_fe_scram_build_secret
    simp only [hrand]
    split at hinit
    · exact absurd hinit (by simp)
    · split at hinit
      · exact absurd hinit (by simp)
      · dsimp only at hinit
        cases hrc : env.pg_saslprep (cstr password) with
        | SASLPREP_OOM =>
          rw [hrc] at hinit
          exact absurd hinit (by simp)
        | SASLPREP_SUCCESS prep =>
          rw [hrc] at hinit
          simp only [Option.some.injEq] at hinit
          subst hinit
          exact ⟨prep, rfl, rfl, rfl, rfl⟩
        | SASLPREP_INVALID_UTF8 =>
          rw [hrc] at hinit
          dsimp only at hinit
          split at hinit
          · exact absurd hinit (by simp)
          · simp only [Option.some.injEq] at hinit
            subst hinit
            exact ⟨cstr password, rfl, rfl, rfl, rfl⟩
        | SASLPREP_PROHIBITED =>
          rw [hrc] at hinit
          dsimp only at hinit
          split at hinit
          · exact absurd hinit (by simp)
          · simp only [Option.some.injEq] at hinit
            subst hinit
            exact ⟨cstr password, rfl, rfl, rfl, rfl⟩

theorem pg_fe_scram_build_secret_password_witness :
    (exampleSession exampleConn SCRAM_SHA_256_NAME).password = some (str "pencil")
    ∧ pg_fe_scram_build_secret exampleEnv (fun _ _ _ _ pw => (some pw, none)) (str "pencil") 4096
        = (some (str "pencil"), none) := by
  obtain ⟨p, h1, -, -, h4⟩ :=
    (pg_fe_scram_build_secret_password exampleEnv exampleConn SCRAM_SHA_256_NAME (str "pencil")
      4096 (fun _ _ _ _ pw => (some pw, none))).2
      (exampleSession exampleConn SCRAM_SHA_256_NAME) (List.replicate 16 0)
      (by decide!) (by decide!)
  have hp : p = str "pencil" := by
    have h : (exampleSession exampleConn SCRAM_SHA_256_NAME).password = some (str "pencil") :=
      rfl
    rw [h] at h1
    exact (Option.some.inj h1).symm
  rw [hp] at h4
  exact ⟨rfl, h4⟩

/-! ### Release of the session -/

/-- C20: `scram_free` hands nine blocks and then the session to `free` and
writes to none of them: the password block is released holding the password
and the session holding its `SaltedPassword`, whatever their bytes. -/
theorem scram_free_releases_unchanged (state : fe_scram_state) :
    (scram_free state).1.length = 9
    ∧ (scram_free state).1.head? = some state.password
    ∧ (scram_free state).2 = state
    ∧ (scram_free state).2.SaltedPassword = state.SaltedPassword
    ∧ (scram_free state).2.password = state.password :=
  ⟨rfl, rfl, rfl, rfl, rfl⟩

/-- The example session in state PROOF_SENT: `scram_free` releases the password
block holding "pencil" and the session holding the derived `SaltedPassword`,
neither of them all zero. -/
theorem scram_free_leaves_key_material :
    (scram_free exampleProofSent).1.head? = some (some (str "pencil"))
    ∧ (scram_free exampleProofSent).2.SaltedPassword = List.replicate 32 65
    ∧ ¬ (∀ b ∈ str "pencil", b = 0)
    ∧ ¬ (∀ b ∈ (scram_free exampleProofSent).2.SaltedPassword, b = 0) := by
  have h2 : (scram_free exampleProofSent).2.SaltedPassword = List.replicate 32 65 := by decide!
  refine ⟨by decide!, h2, by decide, ?_⟩
  rw [h2]
  decide


/-! ### What `read_attr_value` touches -/

theorem read_attr_value_none (buf : Bytes) (cur attr : Nat) (err : Bytes)
    (h : (read_attr_value buf cur attr err).value = none) :
    (read_attr_value buf cur attr err).buf = buf
    ∧ (read_attr_value buf cur attr err).input = cur := by
  unfold read_attr_value at h ⊢
  dsimp only at h ⊢
  repeat' split at h
  all_goals first
    | (simp at h; done)
    | skip
  · rw [if_pos (by assumption)]
    exact ⟨rfl, rfl⟩
  · rw [if_neg (by assumption), if_pos (by assumption)]
    exact ⟨rfl, rfl⟩

theorem read_attr_value_mismatch (buf : Bytes) (cur attr : Nat) (err : Bytes)
    (h : byteAt buf cur ≠ attr ∨ byteAt buf (cur + 1) ≠ '='.toNat) :
    ∃ e, read_attr_value buf cur attr err = ⟨none, buf, cur, e⟩ := by
  unfold read_attr_value
  dsimp only
  by_cases h1 : byteAt buf cur ≠ attr
  · rw [if_pos h1]
    exact ⟨_, rfl⟩
  · rw [if_neg h1, if_pos (h.resolve_left h1)]
    exact ⟨_, rfl⟩

theorem byteAt_set_ne (buf : Bytes) (k j v : Nat) (h : j ≠ k) :
    byteAt (buf.set k v) j = byteAt buf j := by
  unfold byteAt
  rw [List.getD_eq_getElem?_getD, List.getD_eq_getElem?_getD, List.getElem?_set_ne (Ne.symm h)]

theorem set_comma (pre v u : Bytes) (attr : Nat) :
    (pre ++ attr :: '='.toNat :: (v ++ ','.toNat :: u)).set (pre.length + 2 + v.length) 0
      = pre ++ attr :: '='.toNat :: (v ++ 0 :: u) := by
  have e : pre ++ attr :: '='.toNat :: (v ++ ','.toNat :: u)
      = (pre ++ attr :: '='.toNat :: v) ++ ','.toNat :: u := by simp
  have e2 : pre ++ attr :: '='.toNat :: (v ++ 0 :: u)
      = (pre ++ attr :: '='.toNat :: v) ++ 0 :: u := by simp
  have el : pre.length + 2 + v.length = (pre ++ attr :: '='.toNat :: v).length := by
    simp only [List.length_append, List.length_cons]
    omega
  rw [e, e2, el, List.set_append_right _ _ (Nat.le_refl _), Nat.sub_self]
  rfl

theorem byteAt_comma (pre v u : Bytes) (attr : Nat) :
    byteAt (pre ++ attr :: '='.toNat :: (v ++ ','.toNat :: u)) (pre.length + 2 + v.length)
      = ','.toNat := by
  have e : pre ++ attr :: '='.toNat :: (v ++ ','.toNat :: u)
      = (pre ++ attr :: '='.toNat :: v) ++ ','.toNat :: u := by simp
  have el : pre.length + 2 + v.length = (pre ++ attr :: '='.toNat :: v).length + 0 := by
    simp only [List.length_append, List.length_cons]
    omega
  rw [e, el, byteAt_append_right]
  rfl

theorem byteAt_value_end (pre v t : Bytes) (attr : Nat) (ht : t = [] ∨ ∃ u, t = 0 :: u) :
    byteAt (pre ++ attr :: '='.toNat :: (v ++ t)) (pre.length + 2 + v.length) = 0 := by
  have e : pre ++ attr :: '='.toNat :: (v ++ t) = (pre ++ attr :: '='.toNat :: v) ++ t := by simp
  have el : pre.length + 2 + v.length = (pre ++ attr :: '='.toNat :: v).length + 0 := by
    simp only [List.length_append, List.length_cons]
    omega
  rw [e, el, byteAt_append_right]
  rcases ht with rfl | ⟨u, rfl⟩ <;> rfl

theorem read_attr_value_wrong_attr (buf : Bytes) (cur attr : Nat) (err : Bytes)
    (h : byteAt buf cur ≠ attr) :
    read_attr_value buf cur attr err
      = ⟨none, buf, cur,
          libpq_append_error err
            (str "malformed SCRAM message (attribute \"" ++ [attr] ++ str "\" expected)")⟩ := by
  unfold read_attr_value
  dsimp only
  rw [if_pos h]

theorem read_attr_value_wrong_equals (buf : Bytes) (cur attr : Nat) (err : Bytes)
    (h1 : byteAt buf cur = attr) (h2 : byteAt buf (cur + 1) ≠ '='.toNat) :
    read_attr_value buf cur attr err
      = ⟨none, buf, cur,
          libpq_append_error err
            (str "malformed SCRAM message (expected character \"=\" for attribute \""
              ++ [attr] ++ str "\")")⟩ := by
  unfold read_attr_value
  dsimp only
  rw [if_neg (not_not.mpr h1), if_pos h2]

/-- The string at the cursor, up to its NUL, decides all that `read_attr_value`
does, and what lies after the NUL is left as it is. -/
theorem read_attr_value_within (pre m : Bytes) (attr : Nat) (err : Bytes)
    (hattr : attr ≠ 0) (hm : 0 ∉ m) :
    ∃ value m2 input e, m2.length = m.length ∧ input ≤ pre.length + m.length
      ∧ ∀ t : Bytes, read_attr_value (pre ++ m ++ 0 :: t) pre.length attr err
          = ⟨value, pre ++ m2 ++ 0 :: t, input, e⟩ := by
  have b0 : ∀ t : Bytes, byteAt (pre ++ m ++ 0 :: t) pre.length = byteAt (m ++ 0 :: t) 0 := by
    intro t
    rw [List.append_assoc]
    exact byteAt_append_right pre (m ++ 0 :: t) 0
  have b1 : ∀ t : Bytes, byteAt (pre ++ m ++ 0 :: t) (pre.length + 1)
      = byteAt (m ++ 0 :: t) 1 := by
    intro t
    rw [List.append_assoc]
    exact byteAt_append_right pre (m ++ 0 :: t) 1
  match m, hm with
  | [], _ =>
    refine ⟨none, [], pre.length,
      (libpq_append_error err
        (str "malformed SCRAM message (attribute \"" ++ [attr] ++ str "\" expected)")),
      rfl, Nat.le_add_right _ _, fun t => ?_⟩
    exact read_attr_value_wrong_attr _ _ _ _ (by rw [b0]; exact Ne.symm hattr)
  | [a], _ =>
    by_cases ha : a = attr
    · refine ⟨none, [a], pre.length,
        (libpq_append_error err
          (str "malformed SCRAM message (expected character \"=\" for attribute \""
            ++ [attr] ++ str "\")")),
        rfl, Nat.le_add_right _ _, fun t => ?_⟩
      exact read_attr_value_wrong_equals _ _ _ _ (by rw [b0]; exact ha)
        (by rw [b1]; simp [byteAt])
    · refine ⟨none, [a], pre.length,
        (libpq_append_error err
          (str "malformed SCRAM message (attribute \"" ++ [attr] ++ str "\" expected)")),
        rfl, Nat.le_add_right _ _, fun t => ?_⟩
      exact read_attr_value_wrong_attr _ _ _ _ (by rw [b0]; exact ha)
  | a :: b :: rest, hm =>
    by_cases ha : a = attr
    swap
    · refine ⟨none, a :: b :: rest, pre.length,
        (libpq_append_error err
          (str "malformed SCRAM message (attribute \"" ++ [attr] ++ str "\" expected)")),
        rfl, Nat.le_add_right _ _, fun t => ?_⟩
      exact read_attr_value_wrong_attr _ _ _ _ (by rw [b0]; exact ha)
    by_cases hb : b = '='.toNat
    swap
    · refine ⟨none, a :: b :: rest, pre.length,
        (libpq_append_error err
          (str "malformed SCRAM message (expected character \"=\" for attribute \""
            ++ [attr] ++ str "\")")),
        rfl, Nat.le_add_right _ _, fun t => ?_⟩
      exact read_attr_value_wrong_equals _ _ _ _ (by rw [b0]; exact ha) (by rw [b1]; exact hb)
    subst ha hb
    have hrest : 0 ∉ rest := fun h => hm (by simp [h])
    obtain ⟨v, u, hsplit, hv, hu⟩ := value_split rest
    subst hsplit
    rcases hu with rfl | ⟨w, rfl⟩ | ⟨w, rfl⟩
    · refine ⟨some (pre.length + 2), a :: '='.toNat :: (v ++ []), pre.length + 2 + v.length, err,
        rfl, by simp only [List.length_cons, List.length_append, List.length_nil]; omega,
        fun t => ?_⟩
      have h := read_attr_value_last pre v (0 :: t) a err hv (Or.inr ⟨t, rfl⟩)
      simpa using h
    · exact absurd (by simp) hrest
    · refine ⟨some (pre.length + 2), a :: '='.toNat :: (v ++ 0 :: w),
        pre.length + 2 + v.length + 1, err,
        by simp only [List.length_cons, List.length_append],
        by simp only [List.length_cons, List.length_append]; omega, fun t => ?_⟩
      have h := read_attr_value_comma pre v (w ++ 0 :: t) a err hv
      simpa using h

/-- C29: for a buffer, a cursor and an expected letter (not NUL): when
`read_attr_value` fails, buffer and cursor are as before; when it succeeds, it
returns the position after "X=", the buffer keeps its length, and either no byte
is modified and the cursor is at the NUL that ended the value, or the byte after
the value was a comma, it alone is overwritten with NUL, and the cursor is after
it; and for a string at the cursor that ends with a NUL, the outcome is decided
by the bytes before that NUL, the cursor does not pass it, and the bytes after
it are left as they are. -/
theorem read_attr_value_touches (buf : Bytes) (cur attr : Nat) (err : Bytes)
    (hattr : attr ≠ 0) :
    ((read_attr_value buf cur attr err).value = none →
      (read_attr_value buf cur attr err).buf = buf
      ∧ (read_attr_value buf cur attr err).input = cur)
    ∧ (∀ b, (read_attr_value buf cur attr err).value = some b →
        ∃ k, b = cur + 2
          ∧ k = cur + 2 + strlen ((read_attr_value buf cur attr err).buf.drop (cur + 2))
          ∧ (read_attr_value buf cur attr err).buf.length = buf.length
          ∧ (∀ j, j ≠ k → byteAt (read_attr_value buf cur attr err).buf j = byteAt buf j)
          ∧ (((read_attr_value buf cur attr err).buf = buf
                ∧ byteAt buf k = 0
                ∧ (read_attr_value buf cur attr err).input = k)
            ∨ (byteAt buf k = ','.toNat
                ∧ (read_attr_value buf cur attr err).buf = buf.set k 0
                ∧ (read_attr_value buf cur attr err).input = k + 1)))
    ∧ (∀ pre m : Bytes, 0 ∉ m →
        ∃ value m2 input e, m2.length = m.length ∧ input ≤ pre.length + m.length
          ∧ ∀ t : Bytes, read_attr_value (pre ++ m ++ 0 :: t) pre.length attr err
              = ⟨value, pre ++ m2 ++ 0 :: t, input, e⟩) := by
  refine ⟨read_attr_value_none buf cur attr err, ?_,
    fun pre m hm => read_attr_value_within pre m attr err hattr hm⟩
  intro b hb
  have h12 : byteAt buf cur = attr ∧ byteAt buf (cur + 1) = '='.toNat := by
    by_contra hn
    have hor : byteAt buf cur ≠ attr ∨ byteAt buf (cur + 1) ≠ '='.toNat := by
      by_cases h1 : byteAt buf cur = attr
      · exact Or.inr (fun h2 => hn ⟨h1, h2⟩)
      · exact Or.inl h1
    obtain ⟨e, he⟩ := read_attr_value_mismatch buf cur attr err hor
    rw [he] at hb
    exact absurd hb (by simp)
  obtain ⟨pre, v, t, rfl, rfl, hv, ht⟩ := attr_split buf cur attr hattr h12.1 h12.2
  rcases ht with rfl | ⟨u, rfl⟩ | ⟨u, rfl⟩
  · have hr := read_attr_value_last pre v [] attr err hv (Or.inl rfl)
    have hc := cstr_drop_value pre v [] attr hv (Or.inl rfl)
    rw [hr] at hb ⊢
    dsimp only at hb ⊢
    refine ⟨pre.length + 2 + v.length, (Option.some.inj hb).symm, by rw [strlen, hc], rfl,
      fun _ _ => rfl, Or.inl ⟨rfl, byteAt_value_end pre v [] attr (Or.inl rfl), rfl⟩⟩
  · have hr := read_attr_value_last pre v (0 :: u) attr err hv (Or.inr ⟨u, rfl⟩)
    have hc := cstr_drop_value pre v (0 :: u) attr hv (Or.inr ⟨u, rfl⟩)
    rw [hr] at hb ⊢
    dsimp only at hb ⊢
    refine ⟨pre.length + 2 + v.length, (Option.some.inj hb).symm, by rw [strlen, hc], rfl,
      fun _ _ => rfl, Or.inl ⟨rfl, byteAt_value_end pre v (0 :: u) attr (Or.inr ⟨u, rfl⟩), rfl⟩⟩
  · have hr := read_attr_value_comma pre v u attr err hv
    have hc := cstr_drop_value pre v (0 :: u) attr hv (Or.inr ⟨u, rfl⟩)
    have hset := set_comma pre v u attr
    rw [hr] at hb ⊢
    dsimp only at hb ⊢
    refine ⟨pre.length + 2 + v.length, (Option.some.inj hb).symm, by rw [strlen, hc], ?_, ?_,
      Or.inr ⟨byteAt_comma pre v u attr, hset.symm, rfl⟩⟩
    · simp only [List.length_append, List.length_cons]
    · intro j hj
      rw [← hset]
      exact byteAt_set_ne _ _ _ _ hj

theorem read_attr_value_touches_witness :
    (read_attr_value (str "r=abc,s=QUJD") 0 'r'.toNat []).buf
      = (str "r=abc,s=QUJD").set 5 0
    ∧ (read_attr_value (str "r=abc,s=QUJD") 0 'r'.toNat []).input = 6
    ∧ ((read_attr_value (str "x=abc") 0 'r'.toNat []).value = none →
        (read_attr_value (str "x=abc") 0 'r'.toNat []).buf = str "x=abc"
        ∧ (read_attr_value (str "x=abc") 0 'r'.toNat []).input = 0) := by
  obtain ⟨k, -, hk, -, -, h⟩ :=
    (read_attr_value_touches (str "r=abc,s=QUJD") 0 'r'.toNat [] (by decide)).2.1 2 (by decide!)
  have hk5 : k = 5 := by rw [hk]; decide!
  subst hk5
  have h2 := (read_attr_value_touches (str "x=abc") 0 'r'.toNat [] (by decide)).1
  rcases h with ⟨-, h0, -⟩ | ⟨-, hb, hi⟩
  · exact absurd h0 (by decide)
  · exact ⟨hb, hi, h2⟩

end Scram

namespace Nbtcompare

/-! ### Machine integers and the two macros -/

theorem int32_of_eq (v : Int) (h : is_int32 v) : int32_of v = v := by
  obtain ⟨h1, h2⟩ := h
  unfold int32_of
  omega

theorem int16_of_eq (v : Int) (h : is_int16 v) : int16_of v = v := by
  obtain ⟨h1, h2⟩ := h
  unfold int16_of
  omega

theorem int64_of_eq (v : Int) (h : is_int64 v) : int64_of v = v := by
  obtain ⟨h1, h2⟩ := h
  unfold int64_of
  omega

theorem uint8_of_eq (v : Int) (h : is_uint8 v) : uint8_of v = v := by
  obtain ⟨h1, h2⟩ := h
  unfold uint8_of
  omega

theorem uint32_of_eq (v : Int) (h : is_uint32 v) : uint32_of v = v := by
  obtain ⟨h1, h2⟩ := h
  unfold uint32_of
  omega

theorem uint8_of_range (v : Int) : is_uint8 (uint8_of v) := by
  unfold is_uint8 uint8_of
  omega

theorem is_int32_of_int16 (v : Int) (h : is_int16 v) : is_int32 v := by
  obtain ⟨h1, h2⟩ := h
  exact ⟨by omega, by omega⟩

theorem is_int64_of_int32 (v : Int) (h : is_int32 v) : is_int64 v := by
  obtain ⟨h1, h2⟩ := h
  exact ⟨by omega, by omega⟩

theorem is_int64_of_int16 (v : Int) (h : is_int16 v) : is_int64 v :=
  is_int64_of_int32 v (is_int32_of_int16 v h)

theorem A_LESS_THAN_B_neg (stress : Bool) :
    A_LESS_THAN_B stress < 0 ∧ INT_MIN ≤ A_LESS_THAN_B stress
      ∧ A_LESS_THAN_B stress ≤ INT_MAX ∧ (A_LESS_THAN_B stress).sign = -1 := by
  cases stress <;> decide

theorem A_GREATER_THAN_B_pos (stress : Bool) :
    0 < A_GREATER_THAN_B stress ∧ INT_MIN ≤ A_GREATER_THAN_B stress
      ∧ A_GREATER_THAN_B stress ≤ INT_MAX ∧ (A_GREATER_THAN_B stress).sign = 1 := by
  cases stress <;> decide

/-- The comparison written three times over in the file: greater, equal, less. -/
theorem three_way_branches (stress : Bool) (a b : Int) :
    three_way (if a > b then A_GREATER_THAN_B stress else if a = b then 0
      else A_LESS_THAN_B stress) (a < b) (a = b) (b < a) := by
  obtain ⟨l1, l2, l3, -⟩ := A_LESS_THAN_B_neg stress
  obtain ⟨g1, g2, g3, -⟩ := A_GREATER_THAN_B_pos stress
  have hmin : INT_MIN ≤ 0 := by decide
  have hmax : (0 : Int) ≤ INT_MAX := by decide
  unfold three_way
  split
  · rename_i h
    refine ⟨⟨fun h' => by omega, fun h' => by omega⟩, ⟨fun h' => by omega, fun h' => by omega⟩,
      ⟨fun _ => h, fun _ => g1⟩, g2, g3⟩
  · split
    · rename_i h1 h2
      refine ⟨⟨fun h' => by omega, fun h' => by omega⟩, ⟨fun _ => h2, fun _ => rfl⟩,
        ⟨fun h' => by omega, fun h' => by omega⟩, hmin, hmax⟩
    · rename_i h1 h2
      refine ⟨⟨fun _ => by omega, fun _ => l1⟩, ⟨fun h' => by omega, fun h' => by omega⟩,
        ⟨fun h' => by omega, fun h' => by omega⟩, l2, l3⟩

/-- A difference of two values that cannot overflow `int32` reports the three cases. -/
theorem three_way_difference (a b : Int) (ha : is_int16 a ∨ is_uint8 a)
    (hb : is_int16 b ∨ is_uint8 b) :
    int32_of (int32_of a - int32_of b) = a - b
    ∧ three_way (int32_of (int32_of a - int32_of b)) (a < b) (a = b) (b < a) := by
  have ha' : -32768 ≤ a ∧ a ≤ 32767 := by
    rcases ha with ⟨h1, h2⟩ | ⟨h1, h2⟩ <;> exact ⟨by omega, by omega⟩
  have hb' : -32768 ≤ b ∧ b ≤ 32767 := by
    rcases hb with ⟨h1, h2⟩ | ⟨h1, h2⟩ <;> exact ⟨by omega, by omega⟩
  have e : int32_of (int32_of a - int32_of b) = a - b := by
    unfold int32_of
    omega
  refine ⟨e, ?_⟩
  rw [e]
  unfold three_way INT_MIN INT_MAX
  refine ⟨by omega, by omega, by omega, by omega, by omega⟩

/-- C21: in either build, for values of the same kind, `btboolcmp`, `btint2cmp`,
`btint4cmp`, `btint8cmp`, `btoidcmp` and `btcharcmp` return an `int32` that is
negative exactly when a < b, zero exactly when a = b and positive exactly when
a > b, in the order false < true for `bool`, the order of the integers for
`int16`, `int32`, `int64` and `Oid`, and the order of the bytes `(uint8) a` for
`char`, so that the byte 0x80 sorts above 0x7F whether `char` is signed or not;
for `bool`, `int16` and `char` the result is the exact difference, which fits
`int32`. -/
theorem comparators_report_order (stress : Bool) :
    (∀ a b : Bool,
      three_way (btboolcmp stress a b) (a = false ∧ b = true) (a = b) (a = true ∧ b = false)
      ∧ btboolcmp stress a b = int_of_bool a - int_of_bool b)
    ∧ (∀ a b : Int, is_int16 a → is_int16 b →
        three_way (btint2cmp stress a b) (a < b) (a = b) (b < a)
        ∧ btint2cmp stress a b = a - b)
    ∧ (∀ a b : Int, three_way (btint4cmp stress a b) (a < b) (a = b) (b < a))
    ∧ (∀ a b : Int, three_way (btint8cmp stress a b) (a < b) (a = b) (b < a))
    ∧ (∀ a b : Int, three_way (btoidcmp stress a b) (a < b) (a = b) (b < a))
    ∧ (∀ a b : Int,
        three_way (btcharcmp stress a b) (uint8_of a < uint8_of b) (uint8_of a = uint8_of b)
          (uint8_of b < uint8_of a)
        ∧ btcharcmp stress a b = uint8_of a - uint8_of b
        ∧ (is_uint8 a → is_uint8 b → (uint8_of a = uint8_of b ↔ a = b)))
    ∧ 0 < btcharcmp stress 128 127 ∧ 0 < btcharcmp stress (-128) 127 := by
  refine ⟨?_, ?_, ?_, ?_, ?_, ?_, ?_, ?_⟩
  · intro a b
    cases a <;> cases b <;> cases stress <;> (unfold three_way; decide)
  · intro a b ha hb
    obtain ⟨e, h⟩ := three_way_difference a b (Or.inl ha) (Or.inl hb)
    exact ⟨h, e⟩
  · intro a b; exact three_way_branches stress a b
  · intro a b; exact three_way_branches stress a b
  · intro a b; exact three_way_branches stress a b
  · intro a b
    obtain ⟨e, h⟩ := three_way_difference (uint8_of a) (uint8_of b)
      (Or.inr (uint8_of_range a)) (Or.inr (uint8_of_range b))
    refine ⟨h, e, ?_⟩
    intro ha hb
    rw [uint8_of_eq a ha, uint8_of_eq b hb]
  · cases stress <;> decide
  · cases stress <;> decide

theorem comparators_report_order_witness :
    three_way (btint2cmp false (-32768) 32767) ((-32768 : Int) < 32767) ((-32768 : Int) = 32767)
      ((32767 : Int) < -32768)
    ∧ btint2cmp false (-32768) 32767 = -32768 - 32767
    ∧ btint4cmp true (-2147483648) 2147483647 < 0 := by
  have h := comparators_report_order false
  have h2 := comparators_report_order true
  refine ⟨(h.2.1 (-32768) 32767 (by decide) (by decide)).1,
    (h.2.1 (-32768) 32767 (by decide) (by decide)).2, ?_⟩
  exact (h2.2.2.1 (-2147483648) 2147483647).1.mpr (by decide)

/-! ### Every comparator is a total order -/

/-- A comparator that reports the order of an integer key is a total order. -/
theorem total_order_of_three_way {α : Type} (dom : α → Prop) (cmp : α → α → Int)
    (val : α → Int) (hinj : ∀ a b, dom a → dom b → val a = val b → a = b)
    (h : ∀ a b, dom a → dom b →
      three_way (cmp a b) (val a < val b) (val a = val b) (val b < val a)) :
    total_order_on dom cmp := by
  intro a b c ha hb hc
  obtain ⟨ab1, ab2, ab3, -⟩ := h a b ha hb
  obtain ⟨ba1, ba2, ba3, -⟩ := h b a hb ha
  obtain ⟨bc1, bc2, bc3, -⟩ := h b c hb hc
  obtain ⟨ac1, ac2, ac3, -⟩ := h a c ha hc
  refine ⟨((h a a ha ha).2.1).mpr rfl, ?_, fun h0 => hinj a b ha hb (ab2.mp h0), ?_⟩
  · rcases lt_trichotomy (val a) (val b) with hlt | heq | hgt
    · rw [Int.sign_eq_neg_one_of_neg (ab1.mpr hlt), Int.sign_eq_one_of_pos (ba3.mpr hlt)]
    · rw [ab2.mpr heq, ba2.mpr heq.symm]
      rfl
    · rw [Int.sign_eq_one_of_pos (ab3.mpr hgt), Int.sign_eq_neg_one_of_neg (ba1.mpr hgt)]
      rfl
  · intro h1 h2
    have e1 : val a ≤ val b := by
      by_contra hn
      have := ab3.mpr (by omega)
      omega
    have e2 : val b ≤ val c := by
      by_contra hn
      have := bc3.mpr (by omega)
      omega
    by_contra hn
    have := ac3.mp (by omega)
    omega

theorem btoidvectorcmp_loop_self (stress : Bool) (a : oidvector) :
    ∀ n i, btoidvectorcmp_loop stress a a n i = 0
  | 0, _ => rfl
  | n + 1, i => by
    rw [btoidvectorcmp_loop, if_neg (by simp)]
    exact btoidvectorcmp_loop_self stress a n (i + 1)

theorem btoidvectorcmp_loop_sign (stress : Bool) (a b : oidvector) :
    ∀ n i, (btoidvectorcmp_loop stress a b n i).sign
      = -(btoidvectorcmp_loop stress b a n i).sign
  | 0, _ => rfl
  | n + 1, i => by
    rw [btoidvectorcmp_loop, btoidvectorcmp_loop]
    by_cases he : a.values.getD i 0 = b.values.getD i 0
    · rw [if_neg (by simpa using he), if_neg (by simpa using he.symm)]
      exact btoidvectorcmp_loop_sign stress a b n (i + 1)
    · rw [if_pos he, if_pos (Ne.symm he)]
      by_cases hg : a.values.getD i 0 > b.values.getD i 0
      · rw [if_pos hg, if_neg (by omega), (A_GREATER_THAN_B_pos stress).2.2.2,
          (A_LESS_THAN_B_neg stress).2.2.2]
        rfl
      · rw [if_neg hg, if_pos (by omega), (A_GREATER_THAN_B_pos stress).2.2.2,
          (A_LESS_THAN_B_neg stress).2.2.2]

theorem btoidvectorcmp_loop_zero (stress : Bool) (a b : oidvector) :
    ∀ n i, btoidvectorcmp_loop stress a b n i = 0 →
      ∀ j, i ≤ j → j < i + n → a.values.getD j 0 = b.values.getD j 0
  | 0, i => by
    intro _ j h1 h2
    omega
  | n + 1, i => by
    intro h j h1 h2
    rw [btoidvectorcmp_loop] at h
    by_cases he : a.values.getD i 0 = b.values.getD i 0
    · rw [if_neg (by simpa using he)] at h
      by_cases hj : j = i
      · rw [hj]; exact he
      · exact btoidvectorcmp_loop_zero stress a b n (i + 1) h j (by omega) (by omega)
    · rw [if_pos he] at h
      exfalso
      have hl := (A_LESS_THAN_B_neg stress).1
      have hg := (A_GREATER_THAN_B_pos stress).1
      split at h <;> omega

theorem btoidvectorcmp_loop_trans (stress : Bool) (a b c : oidvector) :
    ∀ n i, btoidvectorcmp_loop stress a b n i ≤ 0 → btoidvectorcmp_loop stress b c n i ≤ 0 →
      btoidvectorcmp_loop stress a c n i ≤ 0
  | 0, _ => by
    intro _ _
    exact le_of_eq rfl
  | n + 1, i => by
    intro h1 h2
    have hl := (A_LESS_THAN_B_neg stress).1
    have hg := (A_GREATER_THAN_B_pos stress).1
    rw [btoidvectorcmp_loop] at h1 h2 ⊢
    by_cases hab : a.values.getD i 0 = b.values.getD i 0
    · rw [if_neg (by simpa using hab)] at h1
      by_cases hbc : b.values.getD i 0 = c.values.getD i 0
      · rw [if_neg (by simpa using hbc)] at h2
        rw [if_neg (by simpa using hab.trans hbc)]
        exact btoidvectorcmp_loop_trans stress a b c n (i + 1) h1 h2
      · rw [if_pos hbc] at h2
        have hlt : b.values.getD i 0 < c.values.getD i 0 := by
          by_contra hn
          rw [if_pos (by omega)] at h2
          omega
        rw [if_pos (by omega), if_neg (by omega)]
        omega
    · rw [if_pos hab] at h1
      have hlt : a.values.getD i 0 < b.values.getD i 0 := by
        by_contra hn
        rw [if_pos (by omega)] at h1
        omega
      by_cases hbc : b.values.getD i 0 = c.values.getD i 0
      · rw [if_pos (by omega), if_neg (by omega)]
        omega
      · rw [if_pos hbc] at h2
        have hlt2 : b.values.getD i 0 < c.values.getD i 0 := by
          by_contra hn
          rw [if_pos (by omega)] at h2
          omega
        rw [if_pos (by omega), if_neg (by omega)]
        omega

/-- The difference of the lengths of two well-formed vectors fits `int32`. -/
theorem dim1_difference (a b : oidvector) (ha : a.well_formed) (hb : b.well_formed) :
    int32_of (a.dim1 - b.dim1) = a.dim1 - b.dim1 := by
  obtain ⟨a1, -, a3⟩ := ha
  obtain ⟨b1, -, b3⟩ := hb
  unfold INT_MAX at a3 b3
  unfold int32_of
  omega

theorem btoidvectorcmp_total_order (stress : Bool) :
    total_order_on oidvector.well_formed (btoidvectorcmp stress) := by
  intro a b c ha hb hc
  have dab := dim1_difference a b ha hb
  have dba := dim1_difference b a hb ha
  have dbc := dim1_difference b c hb hc
  have dac := dim1_difference a c ha hc
  refine ⟨?_, ?_, ?_, ?_⟩
  · unfold btoidvectorcmp
    rw [if_neg (by simp)]
    exact btoidvectorcmp_loop_self stress a _ _
  · unfold btoidvectorcmp
    by_cases hd : a.dim1 = b.dim1
    · rw [if_neg (by simpa using hd), if_neg (by simpa using hd.symm), ← hd]
      exact btoidvectorcmp_loop_sign stress a b _ _
    · rw [if_pos hd, if_pos (Ne.symm hd), dab, dba, ← Int.sign_neg]
      congr 1
      omega
  · intro h0
    unfold btoidvectorcmp at h0
    by_cases hd : a.dim1 = b.dim1
    · rw [if_neg (by simpa using hd)] at h0
      have hz := btoidvectorcmp_loop_zero stress a b _ _ h0
      obtain ⟨a1, a2, -⟩ := ha
      obtain ⟨b1, b2, -⟩ := hb
      have hlen : a.values.length = b.values.length := by omega
      have hval : a.values = b.values := by
        apply List.ext_getElem hlen
        intro j h1 h2
        have := hz j (Nat.zero_le _) (by omega)
        rwa [List.getD_eq_getElem _ _ h1, List.getD_eq_getElem _ _ h2] at this
      cases a
      cases b
      simp only at hd hval
      rw [hd, hval]
    · rw [if_pos hd, dab] at h0
      omega
  · intro h1 h2
    unfold btoidvectorcmp at h1 h2 ⊢
    by_cases hab : a.dim1 = b.dim1
    · rw [if_neg (by simpa using hab)] at h1
      by_cases hbc : b.dim1 = c.dim1
      · rw [if_neg (by simpa using hbc), ← hab] at h2
        rw [if_neg (by simpa using hab.trans hbc)]
        exact btoidvectorcmp_loop_trans stress a b c _ _ h1 h2
      · rw [if_pos hbc, dbc] at h2
        rw [if_pos (by omega), dac]
        omega
    · rw [if_pos hab, dab] at h1
      by_cases hbc : b.dim1 = c.dim1
      · rw [if_pos (by omega), dac]
        omega
      · rw [if_pos hbc, dbc] at h2
        rw [if_pos (by omega), dac]
        omega

theorem three_way_widened (stress : Bool) (w : Int → Int) (a b : Int) (ha : w a = a) :
    three_way (if w a > b then A_GREATER_THAN_B stress else if w a = b then 0
      else A_LESS_THAN_B stress) (a < b) (a = b) (b < a)
    ∧ three_way (if b > w a then A_GREATER_THAN_B stress else if b = w a then 0
      else A_LESS_THAN_B stress) (b < a) (b = a) (a < b) := by
  rw [ha]
  exact ⟨three_way_branches stress a b, three_way_branches stress b a⟩

/-- C22: in either build every comparator of the file is a total order on the
values of its kind: `cmp a a = 0`, the sign of `cmp a b` is the opposite of the
sign of `cmp b a`, `cmp a b = 0` only for equal values, and `cmp a b ≤ 0` and
`cmp b c ≤ 0` give `cmp a c ≤ 0`.  The kinds are `bool`, `int16`, `int32`,
`int64`, `Oid`, the bytes of `char`, well-formed `oidvector`s, and for a
comparator of two widths the values of the narrower one. -/
theorem comparators_total_order (stress : Bool) :
    total_order_on (fun _ => True) (btboolcmp stress)
    ∧ total_order_on is_int16 (btint2cmp stress)
    ∧ total_order_on is_int16 (btint2fastcmp stress)
    ∧ total_order_on is_int32 (btint4cmp stress)
    ∧ total_order_on is_int64 (btint8cmp stress)
    ∧ total_order_on is_int64 (btint8fastcmp stress)
    ∧ total_order_on is_uint32 (btoidcmp stress)
    ∧ total_order_on is_uint32 (btoidfastcmp stress)
    ∧ total_order_on is_uint8 (btcharcmp stress)
    ∧ total_order_on oidvector.well_formed (btoidvectorcmp stress)
    ∧ total_order_on is_int32 (btint48cmp stress)
    ∧ total_order_on is_int32 (btint84cmp stress)
    ∧ total_order_on is_int16 (btint24cmp stress)
    ∧ total_order_on is_int16 (btint42cmp stress)
    ∧ total_order_on is_int16 (btint28cmp stress)
    ∧ total_order_on is_int16 (btint82cmp stress) := by
  have hid : ∀ dom : Int → Prop, ∀ a b, dom a → dom b → id a = id b → a = b :=
    fun _ _ _ _ _ h => h
  refine ⟨?_, ?_, ?_, ?_, ?_, ?_, ?_, ?_, ?_, btoidvectorcmp_total_order stress,
    ?_, ?_, ?_, ?_, ?_, ?_⟩
  · apply total_order_of_three_way _ _ int_of_bool
    · intro a b _ _
      cases a <;> cases b <;> decide
    · intro a b _ _
      cases a <;> cases b <;> cases stress <;> (unfold three_way; decide)
  · exact total_order_of_three_way _ _ id (hid _) (fun a b ha hb =>
      (three_way_difference a b (Or.inl ha) (Or.inl hb)).2)
  · exact total_order_of_three_way _ _ id (hid _) (fun a b ha hb =>
      (three_way_difference a b (Or.inl ha) (Or.inl hb)).2)
  · exact total_order_of_three_way _ _ id (hid _) (fun a b _ _ => three_way_branches stress a b)
  · exact total_order_of_three_way _ _ id (hid _) (fun a b _ _ => three_way_branches stress a b)
  · exact total_order_of_three_way _ _ id (hid _) (fun a b _ _ => three_way_branches stress a b)
  · exact total_order_of_three_way _ _ id (hid _) (fun a b _ _ => three_way_branches stress a b)
  · exact total_order_of_three_way _ _ id (hid _) (fun a b _ _ => three_way_branches stress a b)
  · refine total_order_of_three_way _ _ id (hid _) (fun a b ha hb => ?_)
    have h := (three_way_difference (uint8_of a) (uint8_of b)
      (Or.inr (uint8_of_range a)) (Or.inr (uint8_of_range b))).2
    rw [uint8_of_eq a ha, uint8_of_eq b hb] at h
    unfold btcharcmp
    rw [uint8_of_eq a ha, uint8_of_eq b hb]
    exact h
  · exact total_order_of_three_way _ _ id (hid _) (fun a b ha _ =>
      (three_way_widened stress int64_of a b (int64_of_eq a (is_int64_of_int32 a ha))).1)
  · exact total_order_of_three_way _ _ id (hid _) (fun a b _ hb =>
      (three_way_widened stress int64_of b a (int64_of_eq b (is_int64_of_int32 b hb))).2)
  · exact total_order_of_three_way _ _ id (hid _) (fun a b ha _ =>
      (three_way_widened stress int32_of a b (int32_of_eq a (is_int32_of_int16 a ha))).1)
  · exact total_order_of_three_way _ _ id (hid _) (fun a b _ hb =>
      (three_way_widened stress int32_of b a (int32_of_eq b (is_int32_of_int16 b hb))).2)
  · exact total_order_of_three_way _ _ id (hid _) (fun a b ha _ =>
      (three_way_widened stress int64_of a b (int64_of_eq a (is_int64_of_int16 a ha))).1)
  · exact total_order_of_three_way _ _ id (hid _) (fun a b _ hb =>
      (three_way_widened stress int64_of b a (int64_of_eq b (is_int64_of_int16 b hb))).2)

theorem comparators_total_order_witness :
    btoidvectorcmp false (example_oidvector [1, 2]) (example_oidvector [1, 2]) = 0
    ∧ (btoidvectorcmp false (example_oidvector [1, 2]) (example_oidvector [1, 3])).sign
        = -(btoidvectorcmp false (example_oidvector [1, 3]) (example_oidvector [1, 2])).sign
    ∧ (btoidvectorcmp false (example_oidvector [1, 2]) (example_oidvector [1, 3]) ≤ 0 →
        btoidvectorcmp false (example_oidvector [1, 3]) (example_oidvector [2, 0]) ≤ 0 →
        btoidvectorcmp false (example_oidvector [1, 2]) (example_oidvector [2, 0]) ≤ 0)
    ∧ (btint2cmp true (-32768) 32767).sign = -(btint2cmp true 32767 (-32768)).sign := by
  have h := (comparators_total_order false).2.2.2.2.2.2.2.2.2.1
    (example_oidvector [1, 2]) (example_oidvector [1, 3]) (example_oidvector [2, 0])
    (by decide) (by decide) (by decide)
  have h2 := (comparators_total_order true).2.1 (-32768) 32767 0
    (by decide) (by decide) (by decide)
  exact ⟨h.1, h.2.1, h.2.2.2, h2.2.1⟩

/-! ### The order of `oidvector`s -/

/-- The loop does not look at `dim1`, and reads the tails of two lists as it
reads the lists one index further. -/
theorem btoidvectorcmp_loop_tail (stress : Bool) (d1 d2 e1 e2 x y : Int) (xs ys : List Int) :
    ∀ n i, btoidvectorcmp_loop stress ⟨d1, x :: xs⟩ ⟨e1, y :: ys⟩ n (i + 1)
      = btoidvectorcmp_loop stress ⟨d2, xs⟩ ⟨e2, ys⟩ n i
  | 0, _ => rfl
  | n + 1, i => by
    rw [btoidvectorcmp_loop, btoidvectorcmp_loop]
    simp only [List.getD_cons_succ]
    rw [btoidvectorcmp_loop_tail stress d1 d2 e1 e2 x y xs ys n (i + 1)]

/-- On two lists of the same length the loop is negative exactly when the
first precedes the second lexicographically. -/
theorem btoidvectorcmp_loop_lex (stress : Bool) :
    ∀ (xs ys : List Int) (d e : Int), xs.length = ys.length →
      (btoidvectorcmp_loop stress ⟨d, xs⟩ ⟨e, ys⟩ xs.length 0 < 0
        ↔ List.Lex (fun u v => u < v) xs ys)
  | [], [], _, _, _ => by
    constructor
    · intro h
      exact absurd h (by simp [btoidvectorcmp_loop])
    · intro h
      cases h
  | [], _ :: _, _, _, h => by simp at h
  | _ :: _, [], _, _, h => by simp at h
  | x :: xs, y :: ys, d, e, h => by
    have hl := (A_LESS_THAN_B_neg stress).1
    have hg := (A_GREATER_THAN_B_pos stress).1
    have hlen : xs.length = ys.length := by simpa using h
    have ih := btoidvectorcmp_loop_lex stress xs ys d e hlen
    rw [List.length_cons, btoidvectorcmp_loop]
    simp only [List.getD_cons_zero]
    by_cases hxy : x = y
    · rw [if_neg (by simpa using hxy), btoidvectorcmp_loop_tail stress d d e e x y xs ys, ih]
      subst hxy
      constructor
      · intro h1
        exact List.Lex.cons h1
      · intro h1
        cases h1 with
        | cons h2 => exact h2
        | rel h2 => exact absurd h2 (lt_irrefl _)
    · rw [if_pos hxy]
      by_cases hgt : x > y
      · rw [if_pos hgt]
        constructor
        · intro h1
          omega
        · intro h1
          cases h1 with
          | cons h2 => exact absurd rfl hxy
          | rel h2 => omega
      · rw [if_neg hgt]
        constructor
        · intro _
          exact List.Lex.rel (by omega)
        · intro _
          exact hl

/-- C23: for well-formed `oidvector`s, in either build, `btoidvectorcmp a b` is
negative exactly when `a` has fewer elements than `b`, or as many and `a`
precedes `b` lexicographically in the order of the elements as unsigned
integers; so a shorter vector sorts first whatever its elements. -/
theorem btoidvectorcmp_negative_iff (stress : Bool) (a b : oidvector)
    (ha : a.well_formed) (hb : b.well_formed) :
    (btoidvectorcmp stress a b < 0 ↔
      a.values.length < b.values.length
      ∨ (a.values.length = b.values.length
          ∧ List.Lex (fun u v => u < v) a.values b.values))
    ∧ (a.values.length < b.values.length → btoidvectorcmp stress a b < 0) := by
  have hd := dim1_difference a b ha hb
  obtain ⟨a1, a2, -⟩ := ha
  obtain ⟨b1, b2, -⟩ := hb
  have key : btoidvectorcmp stress a b < 0 ↔
      a.values.length < b.values.length
      ∨ (a.values.length = b.values.length
          ∧ List.Lex (fun u v => u < v) a.values b.values) := by
    unfold btoidvectorcmp
    by_cases he : a.dim1 = b.dim1
    · have hlen : a.values.length = b.values.length := by omega
      have hn : a.dim1.toNat = a.values.length := by omega
      rw [if_neg (by simpa using he), hn]
      have h := btoidvectorcmp_loop_lex stress a.values b.values a.dim1 b.dim1 hlen
      constructor
      · intro h1
        exact Or.inr ⟨hlen, h.mp h1⟩
      · intro h1
        rcases h1 with h1 | ⟨-, h1⟩
        · omega
        · exact h.mpr h1
    · rw [if_pos he, hd]
      constructor
      · intro h1
        exact Or.inl (by omega)
      · intro h1
        rcases h1 with h1 | ⟨h1, -⟩
        · omega
        · omega
  exact ⟨key, fun h => key.mpr (Or.inl h)⟩

theorem btoidvectorcmp_negative_iff_witness :
    btoidvectorcmp false (example_oidvector [1, 2]) (example_oidvector [1, 2, 0]) < 0
    ∧ btoidvectorcmp true (example_oidvector [9]) (example_oidvector [0, 0]) < 0
    ∧ (btoidvectorcmp false (example_oidvector [1, 2]) (example_oidvector [1, 3]) < 0 ↔
        (example_oidvector [1, 2]).values.length < (example_oidvector [1, 3]).values.length
        ∨ ((example_oidvector [1, 2]).values.length = (example_oidvector [1, 3]).values.length
            ∧ List.Lex (fun u v => u < v) (example_oidvector [1, 2]).values
                (example_oidvector [1, 3]).values)) :=
  ⟨(btoidvectorcmp_negative_iff false (example_oidvector [1, 2]) (example_oidvector [1, 2, 0])
      (by decide) (by decide)).2 (by decide),
    (btoidvectorcmp_negative_iff true (example_oidvector [9]) (example_oidvector [0, 0])
      (by decide) (by decide)).2 (by decide),
    (btoidvectorcmp_negative_iff false (example_oidvector [1, 2]) (example_oidvector [1, 3])
      (by decide) (by decide)).1⟩

/-! ### Comparators of two widths -/

theorem sign_of_three_way (r a b : Int) (h : three_way r (a < b) (a = b) (b < a)) :
    r.sign = (a - b).sign := by
  obtain ⟨h1, h2, h3, -⟩ := h
  rcases lt_trichotomy a b with hlt | heq | hgt
  · rw [Int.sign_eq_neg_one_of_neg (h1.mpr hlt), Int.sign_eq_neg_one_of_neg (by omega)]
  · rw [h2.mpr heq, heq, Int.sub_self]
  · rw [Int.sign_eq_one_of_pos (h3.mpr hgt), Int.sign_eq_one_of_pos (by omega)]

theorem sign_sub_swap (a b : Int) : (a - b).sign = -(b - a).sign := by
  rw [← Int.sign_neg]
  congr 1
  omega

/-- C24: in either build, for an `int16` x, an `int32` y and an `int64` z, the
sign of the result of `btint24cmp`, `btint42cmp`, `btint28cmp`, `btint82cmp`,
`btint48cmp` and `btint84cmp` is the sign of the difference of the two integers
compared, the narrower one being converted to the wider type without change;
so the sign of `btint48cmp y z` is the opposite of the sign of `btint84cmp z y`,
and likewise for the other two pairs. -/
theorem cross_width_sign (stress : Bool) (x y z : Int)
    (hx : is_int16 x) (hy : is_int32 y) (hz : is_int64 z) :
    (btint24cmp stress x y).sign = (x - y).sign
    ∧ (btint42cmp stress y x).sign = (y - x).sign
    ∧ (btint28cmp stress x z).sign = (x - z).sign
    ∧ (btint82cmp stress z x).sign = (z - x).sign
    ∧ (btint48cmp stress y z).sign = (y - z).sign
    ∧ (btint84cmp stress z y).sign = (z - y).sign
    ∧ int32_of x = x ∧ int64_of x = x ∧ int64_of y = y
    ∧ (btint24cmp stress x y).sign = -(btint42cmp stress y x).sign
    ∧ (btint28cmp stress x z).sign = -(btint82cmp stress z x).sign
    ∧ (btint48cmp stress y z).sign = -(btint84cmp stress z y).sign := by
  have e1 := int32_of_eq x (is_int32_of_int16 x hx)
  have e2 := int64_of_eq x (is_int64_of_int16 x hx)
  have e3 := int64_of_eq y (is_int64_of_int32 y hy)
  have h24 : (btint24cmp stress x y).sign = (x - y).sign :=
    sign_of_three_way _ _ _ (three_way_widened stress int32_of x y e1).1
  have h42 : (btint42cmp stress y x).sign = (y - x).sign :=
    sign_of_three_way _ _ _ (three_way_widened stress int32_of x y e1).2
  have h28 : (btint28cmp stress x z).sign = (x - z).sign :=
    sign_of_three_way _ _ _ (three_way_widened stress int64_of x z e2).1
  have h82 : (btint82cmp stress z x).sign = (z - x).sign :=
    sign_of_three_way _ _ _ (three_way_widened stress int64_of x z e2).2
  have h48 : (btint48cmp stress y z).sign = (y - z).sign :=
    sign_of_three_way _ _ _ (three_way_widened stress int64_of y z e3).1
  have h84 : (btint84cmp stress z y).sign = (z - y).sign :=
    sign_of_three_way _ _ _ (three_way_widened stress int64_of y z e3).2
  refine ⟨h24, h42, h28, h82, h48, h84, e1, e2, e3, ?_, ?_, ?_⟩
  · rw [h24, h42]; exact sign_sub_swap x y
  · rw [h28, h82]; exact sign_sub_swap x z
  · rw [h48, h84]; exact sign_sub_swap y z

theorem cross_width_sign_witness :
    (btint48cmp true (-2147483648) 9223372036854775807).sign
      = ((-2147483648 : Int) - 9223372036854775807).sign
    ∧ (btint82cmp false (-9223372036854775808) 32767).sign
      = ((-9223372036854775808 : Int) - 32767).sign
    ∧ (btint24cmp false 32767 (-2147483648)).sign
      = -(btint42cmp false (-2147483648) 32767).sign := by
  have h := cross_width_sign true 32767 (-2147483648) 9223372036854775807
    (by decide) (by decide) (by decide)
  have h2 := cross_width_sign false 32767 (-2147483648) (-9223372036854775808)
    (by decide) (by decide) (by decide)
  exact ⟨h.2.2.2.2.1, h2.2.2.2.1, h2.2.2.2.2.2.2.2.2.2.1⟩

/-! ### Skip support -/

/-- Skip support on an interval of integers whose steps are minus one and plus
one away from the ends, under a comparator that reports the order. -/
theorem interval_skip_support (dom : Int → Prop) (cmp : Int → Int → Int)
    (sk : SkipSupportData Int) (lo hi : Int) (hle : lo ≤ hi)
    (hdom : ∀ v, dom v ↔ lo ≤ v ∧ v ≤ hi)
    (hcmp : ∀ a b, dom a → dom b → three_way (cmp a b) (a < b) (a = b) (b < a))
    (hdec : ∀ x, dom x → sk.decrement x = if x = lo then (0, true) else (x - 1, false))
    (hinc : ∀ x, dom x → sk.increment x = if x = hi then (0, true) else (x + 1, false))
    (hlo : sk.low_elem = lo) (hhi : sk.high_elem = hi) :
    steps_to_neighbours dom cmp sk ∧ steps_invert dom sk ∧ bounds_signalled dom cmp sk := by
  refine ⟨?_, ?_, ?_⟩
  · intro x hx
    have hx2 := (hdom x).mp hx
    constructor
    · intro hflag
      rw [hdec x hx] at hflag ⊢
      by_cases h : x = lo
      · rw [if_pos h] at hflag
        exact absurd hflag (by simp)
      · rw [if_neg h]
        have hd : dom (x - 1) := (hdom _).mpr ⟨by omega, by omega⟩
        refine ⟨hd, hx, (hcmp _ _ hd hx).1.mpr (by omega), ?_⟩
        intro y hy hcon
        have h1 := (hcmp _ _ hd hy).1.mp hcon.1
        have h2 := (hcmp _ _ hy hx).1.mp hcon.2
        omega
    · intro hflag
      rw [hinc x hx] at hflag ⊢
      by_cases h : x = hi
      · rw [if_pos h] at hflag
        exact absurd hflag (by simp)
      · rw [if_neg h]
        have hd : dom (x + 1) := (hdom _).mpr ⟨by omega, by omega⟩
        refine ⟨hx, hd, (hcmp _ _ hx hd).1.mpr (by omega), ?_⟩
        intro y hy hcon
        have h1 := (hcmp _ _ hx hy).1.mp hcon.1
        have h2 := (hcmp _ _ hy hd).1.mp hcon.2
        omega
  · intro x hx
    have hx2 := (hdom x).mp hx
    constructor
    · intro hflag
      rw [hdec x hx] at hflag ⊢
      by_cases h : x = lo
      · rw [if_pos h] at hflag
        exact absurd hflag (by simp)
      · rw [if_neg h]
        have hd : dom (x - 1) := (hdom _).mpr ⟨by omega, by omega⟩
        rw [hinc _ hd, if_neg (by omega)]
        simp
    · intro hflag
      rw [hinc x hx] at hflag ⊢
      by_cases h : x = hi
      · rw [if_pos h] at hflag
        exact absurd hflag (by simp)
      · rw [if_neg h]
        have hd : dom (x + 1) := (hdom _).mpr ⟨by omega, by omega⟩
        rw [hdec _ hd, if_neg (by omega)]
        simp
  · have dlo : dom lo := (hdom _).mpr ⟨le_refl _, hle⟩
    have dhi : dom hi := (hdom _).mpr ⟨hle, le_refl _⟩
    unfold bounds_signalled
    rw [hlo, hhi]
    refine ⟨dlo, dhi, ?_⟩
    intro x hx
    have hx2 := (hdom x).mp hx
    rw [hinc x hx, hdec x hx]
    refine ⟨?_, ?_, ?_, ?_⟩
    · by_cases h : x = hi
      · rw [if_pos h]; simp [h]
      · rw [if_neg h]; simp [h]
    · by_cases h : x = lo
      · rw [if_pos h]; simp [h]
      · rw [if_neg h]; simp [h]
    · by_contra hn
      have := (hcmp _ _ dlo hx).2.2.1.mp (by omega)
      omega
    · by_contra hn
      have := (hcmp _ _ dhi hx).1.mp (by omega)
      omega

theorem int2_skip_support (stress : Bool) :
    steps_to_neighbours is_int16 (btint2cmp stress) btint2skipsupport
    ∧ steps_invert is_int16 btint2skipsupport
    ∧ bounds_signalled is_int16 (btint2cmp stress) btint2skipsupport := by
  refine interval_skip_support is_int16 (btint2cmp stress) btint2skipsupport (-32768) 32767
    (by decide) (fun v => Iff.rfl)
    (fun a b ha hb => (three_way_difference a b (Or.inl ha) (Or.inl hb)).2) ?_ ?_ rfl rfl
  · intro x hx
    obtain ⟨h1, h2⟩ := hx
    show int2_decrement x = _
    unfold int2_decrement PG_INT16_MIN
    by_cases h : x = -32768
    · rw [if_pos h, if_pos h]
    · rw [if_neg h, if_neg h]
      have : int16_of (int32_of (x - 1)) = x - 1 := by
        unfold int16_of int32_of
        omega
      rw [this]
  · intro x hx
    obtain ⟨h1, h2⟩ := hx
    show int2_increment x = _
    unfold int2_increment PG_INT16_MAX
    by_cases h : x = 32767
    · rw [if_pos h, if_pos h]
    · rw [if_neg h, if_neg h]
      have : int16_of (int32_of (x + 1)) = x + 1 := by
        unfold int16_of int32_of
        omega
      rw [this]

theorem int4_skip_support (stress : Bool) :
    steps_to_neighbours is_int32 (btint4cmp stress) btint4skipsupport
    ∧ steps_invert is_int32 btint4skipsupport
    ∧ bounds_signalled is_int32 (btint4cmp stress) btint4skipsupport := by
  refine interval_skip_support is_int32 (btint4cmp stress) btint4skipsupport
    (-2147483648) 2147483647 (by decide) (fun v => Iff.rfl)
    (fun a b _ _ => three_way_branches stress a b) ?_ ?_ rfl rfl
  · intro x hx
    obtain ⟨h1, h2⟩ := hx
    show int4_decrement x = _
    unfold int4_decrement PG_INT32_MIN
    by_cases h : x = -2147483648
    · rw [if_pos h, if_pos h]
    · rw [if_neg h, if_neg h]
      have : int32_of (x - 1) = x - 1 := by
        unfold int32_of
        omega
      rw [this]
  · intro x hx
    obtain ⟨h1, h2⟩ := hx
    show int4_increment x = _
    unfold int4_increment PG_INT32_MAX
    by_cases h : x = 2147483647
    · rw [if_pos h, if_pos h]
    · rw [if_neg h, if_neg h]
      have : int32_of (x + 1) = x + 1 := by
        unfold int32_of
        omega
      rw [this]

theorem int8_skip_support (stress : Bool) :
    steps_to_neighbours is_int64 (btint8cmp stress) btint8skipsupport
    ∧ steps_invert is_int64 btint8skipsupport
    ∧ bounds_signalled is_int64 (btint8cmp stress) btint8skipsupport := by
  refine interval_skip_support is_int64 (btint8cmp stress) btint8skipsupport
    (-9223372036854775808) 9223372036854775807 (by decide) (fun v => Iff.rfl)
    (fun a b _ _ => three_way_branches stress a b) ?_ ?_ rfl rfl
  · intro x hx
    obtain ⟨h1, h2⟩ := hx
    show int8_decrement x = _
    unfold int8_decrement PG_INT64_MIN
    by_cases h : x = -9223372036854775808
    · rw [if_pos h, if_pos h]
    · rw [if_neg h, if_neg h]
      have : int64_of (x - 1) = x - 1 := by
        unfold int64_of
        omega
      rw [this]
  · intro x hx
    obtain ⟨h1, h2⟩ := hx
    show int8_increment x = _
    unfold int8_increment PG_INT64_MAX
    by_cases h : x = 9223372036854775807
    · rw [if_pos h, if_pos h]
    · rw [if_neg h, if_neg h]
      have : int64_of (x + 1) = x + 1 := by
        unfold int64_of
        omega
      rw [this]

theorem oid_skip_support (stress : Bool) :
    steps_to_neighbours is_uint32 (btoidcmp stress) btoidskipsupport
    ∧ steps_invert is_uint32 btoidskipsupport
    ∧ bounds_signalled is_uint32 (btoidcmp stress) btoidskipsupport := by
  refine interval_skip_support is_uint32 (btoidcmp stress) btoidskipsupport
    0 4294967295 (by decide) (fun v => Iff.rfl)
    (fun a b _ _ => three_way_branches stress a b) ?_ ?_ rfl rfl
  · intro x hx
    obtain ⟨h1, h2⟩ := hx
    show oid_decrement x = _
    unfold oid_decrement InvalidOid
    by_cases h : x = 0
    · rw [if_pos h, if_pos h]
    · rw [if_neg h, if_neg h]
      have : uint32_of (x - 1) = x - 1 := by
        unfold uint32_of
        omega
      rw [this]
  · intro x hx
    obtain ⟨h1, h2⟩ := hx
    show oid_increment x = _
    unfold oid_increment OID_MAX
    by_cases h : x = 4294967295
    · rw [if_pos h, if_pos h]
    · rw [if_neg h, if_neg h]
      have : uint32_of (x + 1) = x + 1 := by
        unfold uint32_of
        omega
      rw [this]

theorem char_skip_support (stress : Bool) :
    steps_to_neighbours is_uint8 (btcharcmp stress) btcharskipsupport
    ∧ steps_invert is_uint8 btcharskipsupport
    ∧ bounds_signalled is_uint8 (btcharcmp stress) btcharskipsupport := by
  refine interval_skip_support is_uint8 (btcharcmp stress) btcharskipsupport
    0 255 (by decide) (fun v => Iff.rfl) ?_ ?_ ?_ rfl rfl
  · intro a b ha hb
    have h := (three_way_difference (uint8_of a) (uint8_of b)
      (Or.inr (uint8_of_range a)) (Or.inr (uint8_of_range b))).2
    rw [uint8_of_eq a ha, uint8_of_eq b hb] at h
    unfold btcharcmp
    rw [uint8_of_eq a ha, uint8_of_eq b hb]
    exact h
  · intro x hx
    obtain ⟨h1, h2⟩ := hx
    show char_decrement x = _
    unfold char_decrement
    dsimp only
    have e : uint8_of x = x := uint8_of_eq x ⟨h1, h2⟩
    rw [e, e]
    by_cases h : x = 0
    · rw [if_pos h, if_pos h]
    · rw [if_neg h, if_neg h]
      have : uint8_of (int32_of x - 1) = x - 1 := by
        unfold uint8_of int32_of
        omega
      rw [this]
  · intro x hx
    obtain ⟨h1, h2⟩ := hx
    show char_increment x = _
    unfold char_increment UCHAR_MAX
    dsimp only
    have e : uint8_of x = x := uint8_of_eq x ⟨h1, h2⟩
    rw [e, e]
    by_cases h : x = 255
    · rw [if_pos h, if_pos h]
    · rw [if_neg h, if_neg h]
      have : uint8_of (int32_of x + 1) = x + 1 := by
        unfold uint8_of int32_of
        omega
      rw [this]

theorem bool_skip_support (stress : Bool) :
    steps_to_neighbours (fun _ => True) (btboolcmp stress) btboolskipsupport
    ∧ steps_invert (fun _ => True) btboolskipsupport
    ∧ bounds_signalled (fun _ => True) (btboolcmp stress) btboolskipsupport := by
  unfold steps_to_neighbours steps_invert bounds_signalled immediately_below
  dsimp only
  cases stress <;>
    refine ⟨fun x _ => ⟨?_, ?_⟩, fun x _ => ?_, trivial, trivial, fun x _ => ?_⟩ <;>
    cases x <;> decide

/-- C25: in either build, for each kind with skip support (`bool`, `int16`,
`int32`, `int64`, `Oid`, the bytes of `char`) and every value x of the kind:
when `decrement` does not signal underflow, its result is a value of the kind,
compares below x, and no value of the kind compares above it and below x; when
`increment` does not signal overflow, its result is a value of the kind, x
compares below it, and no value of the kind lies between. -/
theorem skip_support_steps_to_neighbours (stress : Bool) :
    steps_to_neighbours (fun _ => True) (btboolcmp stress) btboolskipsupport
    ∧ steps_to_neighbours is_int16 (btint2cmp stress) btint2skipsupport
    ∧ steps_to_neighbours is_int32 (btint4cmp stress) btint4skipsupport
    ∧ steps_to_neighbours is_int64 (btint8cmp stress) btint8skipsupport
    ∧ steps_to_neighbours is_uint32 (btoidcmp stress) btoidskipsupport
    ∧ steps_to_neighbours is_uint8 (btcharcmp stress) btcharskipsupport :=
  ⟨(bool_skip_support stress).1, (int2_skip_support stress).1, (int4_skip_support stress).1,
    (int8_skip_support stress).1, (oid_skip_support stress).1, (char_skip_support stress).1⟩

theorem skip_support_steps_to_neighbours_witness :
    immediately_below is_int32 (btint4cmp false) 2147483646 2147483647
    ∧ immediately_below is_uint8 (btcharcmp true) 127 128
    ∧ immediately_below (fun _ => True) (btboolcmp false) false true :=
  ⟨((skip_support_steps_to_neighbours false).2.2.1 2147483647 (by decide)).1 (by decide),
    ((skip_support_steps_to_neighbours true).2.2.2.2.2 127 (by decide)).2 (by decide),
    ((skip_support_steps_to_neighbours false).1 true trivial).1 (by decide)⟩

/-- C26: for each kind with skip support and every value x of the kind,
`increment` of the result of `decrement` is x, without overflow, whenever
`decrement` does not signal underflow, and `decrement` of the result of
`increment` is x, without underflow, whenever `increment` does not signal
overflow. -/
theorem skip_support_steps_invert :
    steps_invert (fun _ => True) btboolskipsupport
    ∧ steps_invert is_int16 btint2skipsupport
    ∧ steps_invert is_int32 btint4skipsupport
    ∧ steps_invert is_int64 btint8skipsupport
    ∧ steps_invert is_uint32 btoidskipsupport
    ∧ steps_invert is_uint8 btcharskipsupport :=
  ⟨(bool_skip_support false).2.1, (int2_skip_support false).2.1, (int4_skip_support false).2.1,
    (int8_skip_support false).2.1, (oid_skip_support false).2.1, (char_skip_support false).2.1⟩

theorem skip_support_steps_invert_witness :
    btint2skipsupport.increment (btint2skipsupport.decrement 32767).1 = (32767, false)
    ∧ btint8skipsupport.decrement (btint8skipsupport.increment (-9223372036854775808)).1
        = (-9223372036854775808, false)
    ∧ btoidskipsupport.increment (btoidskipsupport.decrement 4294967295).1
        = (4294967295, false) :=
  ⟨(skip_support_steps_invert.2.1 32767 (by decide)).1 (by decide),
    (skip_support_steps_invert.2.2.2.1 (-9223372036854775808) (by decide)).2 (by decide),
    (skip_support_steps_invert.2.2.2.2.1 4294967295 (by decide)).1 (by decide)⟩

/-- C27: in either build, for each kind with skip support, `increment` signals
overflow exactly at `high_elem` and `decrement` signals underflow exactly at
`low_elem`, and `low_elem` compares below or equal to, `high_elem` above or
equal to every value of the kind; the two are false and true, -32768 and
32767, -2147483648 and 2147483647, -9223372036854775808 and
9223372036854775807, 0 and 4294967295 for `Oid`, 0 and 255 for `char`. -/
theorem skip_support_bounds (stress : Bool) :
    bounds_signalled (fun _ => True) (btboolcmp stress) btboolskipsupport
    ∧ bounds_signalled is_int16 (btint2cmp stress) btint2skipsupport
    ∧ bounds_signalled is_int32 (btint4cmp stress) btint4skipsupport
    ∧ bounds_signalled is_int64 (btint8cmp stress) btint8skipsupport
    ∧ bounds_signalled is_uint32 (btoidcmp stress) btoidskipsupport
    ∧ bounds_signalled is_uint8 (btcharcmp stress) btcharskipsupport
    ∧ (btboolskipsupport.low_elem, btboolskipsupport.high_elem) = (false, true)
    ∧ (btint2skipsupport.low_elem, btint2skipsupport.high_elem) = (-32768, 32767)
    ∧ (btint4skipsupport.low_elem, btint4skipsupport.high_elem) = (-2147483648, 2147483647)
    ∧ (btint8skipsupport.low_elem, btint8skipsupport.high_elem)
        = (-9223372036854775808, 9223372036854775807)
    ∧ (btoidskipsupport.low_elem, btoidskipsupport.high_elem) = (0, 4294967295)
    ∧ (btcharskipsupport.low_elem, btcharskipsupport.high_elem) = (0, 255) :=
  ⟨(bool_skip_support stress).2.2, (int2_skip_support stress).2.2, (int4_skip_support stress).2.2,
    (int8_skip_support stress).2.2, (oid_skip_support stress).2.2, (char_skip_support stress).2.2,
    rfl, rfl, rfl, rfl, rfl, rfl⟩

theorem skip_support_bounds_witness :
    (int4_increment 2147483647).2 = true
    ∧ (int4_decrement 2147483647).2 ≠ true
    ∧ btint4cmp true (-2147483648) 5 ≤ 0
    ∧ 0 ≤ btcharcmp false 255 200 :=
  ⟨(((skip_support_bounds false).2.2.1.2.2 2147483647 (by decide)).1).mpr rfl,
    fun h => absurd (((skip_support_bounds false).2.2.1.2.2 2147483647 (by decide)).2.1.mp h)
      (by decide),
    ((skip_support_bounds true).2.2.1.2.2 5 (by decide)).2.2.1,
    ((skip_support_bounds false).2.2.2.2.2.1.2.2 200 (by decide)).2.2.2⟩

/-! ### The stress-test build -/

theorem branches_sign (stress : Bool) (p q : Prop) [Decidable p] [Decidable q] :
    (if p then A_GREATER_THAN_B stress else if q then 0 else A_LESS_THAN_B stress).sign
      = if p then 1 else if q then 0 else -1 := by
  split
  · exact (A_GREATER_THAN_B_pos stress).2.2.2
  · split
    · rfl
    · exact (A_LESS_THAN_B_neg stress).2.2.2

theorem branches_sign_build (p q : Prop) [Decidable p] [Decidable q] :
    (if p then A_GREATER_THAN_B true else if q then 0 else A_LESS_THAN_B true).sign
      = (if p then A_GREATER_THAN_B false else if q then 0 else A_LESS_THAN_B false).sign := by
  rw [branches_sign, branches_sign]

theorem btoidvectorcmp_loop_build (a b : oidvector) :
    ∀ n i, (btoidvectorcmp_loop true a b n i).sign = (btoidvectorcmp_loop false a b n i).sign
  | 0, _ => rfl
  | n + 1, i => by
    rw [btoidvectorcmp_loop, btoidvectorcmp_loop]
    split
    · split <;> rfl
    · exact btoidvectorcmp_loop_build a b n (i + 1)

/-- C28: for every comparator of the file and every pair of inputs, the result
in the build with `STRESS_SORT_INT_MIN` has the sign of the result in the
default build; the comparators that return a difference (`btboolcmp`,
`btint2cmp`, `btint2fastcmp`, `btcharcmp`, and `btoidvectorcmp` on vectors of
different `dim1`) return the same value in both builds. -/
theorem stress_build_same_sign :
    (∀ a b : Bool, btboolcmp true a b = btboolcmp false a b)
    ∧ (∀ a b : Int, btint2cmp true a b = btint2cmp false a b)
    ∧ (∀ a b : Int, btint2fastcmp true a b = btint2fastcmp false a b)
    ∧ (∀ a b : Int, btcharcmp true a b = btcharcmp false a b)
    ∧ (∀ a b : oidvector, a.dim1 ≠ b.dim1 →
        btoidvectorcmp true a b = btoidvectorcmp false a b)
    ∧ (∀ a b : Int, (btint4cmp true a b).sign = (btint4cmp false a b).sign)
    ∧ (∀ a b : Int, (btint8cmp true a b).sign = (btint8cmp false a b).sign)
    ∧ (∀ a b : Int, (btint8fastcmp true a b).sign = (btint8fastcmp false a b).sign)
    ∧ (∀ a b : Int, (btint48cmp true a b).sign = (btint48cmp false a b).sign)
    ∧ (∀ a b : Int, (btint84cmp true a b).sign = (btint84cmp false a b).sign)
    ∧ (∀ a b : Int, (btint24cmp true a b).sign = (btint24cmp false a b).sign)
    ∧ (∀ a b : Int, (btint42cmp true a b).sign = (btint42cmp false a b).sign)
    ∧ (∀ a b : Int, (btint28cmp true a b).sign = (btint28cmp false a b).sign)
    ∧ (∀ a b : Int, (btint82cmp true a b).sign = (btint82cmp false a b).sign)
    ∧ (∀ a b : Int, (btoidcmp true a b).sign = (btoidcmp false a b).sign)
    ∧ (∀ a b : Int, (btoidfastcmp true a b).sign = (btoidfastcmp false a b).sign)
    ∧ (∀ a b : oidvector, (btoidvectorcmp true a b).sign = (btoidvectorcmp false a b).sign)
    ∧ (∀ a b : Int, btint4cmp false a b = -1 ∨ btint4cmp false a b = 0
        ∨ btint4cmp false a b = 1)
    ∧ (∀ a b : Int, btint4cmp true a b = INT_MIN ∨ btint4cmp true a b = 0
        ∨ btint4cmp true a b = INT_MAX) := by
  refine ⟨fun _ _ => rfl, fun _ _ => rfl, fun _ _ => rfl, fun _ _ => rfl, ?_,
    fun _ _ => branches_sign_build _ _, fun _ _ => branches_sign_build _ _,
    fun _ _ => branches_sign_build _ _, fun _ _ => branches_sign_build _ _,
    fun _ _ => branches_sign_build _ _, fun _ _ => branches_sign_build _ _,
    fun _ _ => branches_sign_build _ _, fun _ _ => branches_sign_build _ _,
    fun _ _ => branches_sign_build _ _, fun _ _ => branches_sign_build _ _,
    fun _ _ => branches_sign_build _ _, ?_, ?_, ?_⟩
  · intro a b h
    unfold btoidvectorcmp
    rw [if_pos h, if_pos h]
  · intro a b
    unfold btoidvectorcmp
    split
    · rfl
    · exact btoidvectorcmp_loop_build a b _ _
  · intro a b
    unfold btint4cmp
    split
    · exact Or.inr (Or.inr rfl)
    · split
      · exact Or.inr (Or.inl rfl)
      · exact Or.inl rfl
  · intro a b
    unfold btint4cmp
    split
    · exact Or.inr (Or.inr rfl)
    · split
      · exact Or.inr (Or.inl rfl)
      · exact Or.inl rfl

theorem stress_build_same_sign_witness :
    btoidvectorcmp true (example_oidvector [9]) (example_oidvector [0, 0])
      = btoidvectorcmp false (example_oidvector [9]) (example_oidvector [0, 0])
    ∧ (btint4cmp true (-2147483648) 2147483647).sign
      = (btint4cmp false (-2147483648) 2147483647).sign
    ∧ btint4cmp true (-2147483648) 2147483647 = INT_MIN
    ∧ btint4cmp false (-2147483648) 2147483647 = -1 :=
  ⟨stress_build_same_sign.2.2.2.2.1 (example_oidvector [9]) (example_oidvector [0, 0])
      (by decide),
    stress_build_same_sign.2.2.2.2.2.1 (-2147483648) 2147483647, by decide, by decide⟩

end Nbtcompare
